import Mathlib

/-!
# Dominator object store: the object-insertion path

A shallow embedding of `lib/objectserver/filesystem/add.go` (the store side:
`addObject`, `addOrCompare`, `addOrCompareOnce`, `collisionCheck`) and of
`lib/objectserver/client/queue.go` (the client side: `ObjectAdderQueue`).

Conventions of the embedding:
* a byte is a `Nat`, a byte slice is a `List Nat`; no property below depends
  on the value of a byte being below 256;
* a `hash.Hash` (64 bytes) is the number those bytes spell;
* a path is the list of its components; `path.Join` is list append and
  `path.Dir` drops the last component;
* `uint64` arithmetic is `Nat` arithmetic modulo `2 ^ 64`;
* a Go function that may loop without bound takes a fuel argument and
  reports `Run.spin` when the fuel is used up.
-/

namespace Dominator

/-! ## Basic types -/

abbrev Hash := Nat

abbrev Path := List String

/-- The outcome of running a piece of Go code: it returns a value, it panics
at run time (slice bounds out of range), or it does not return within the
fuel given to it. -/
inductive Run (α : Type) where
  | done (a : α)
  | panic
  | spin
  deriving DecidableEq, Repr

/-- The Go `error` values that occur on the insertion path. `none : Option Err`
is Go's `nil` error. -/
inductive Err where
  /-- EEXIST: the only error for which `os.IsExist` holds here -/
  | eexist
  /-- ENOENT -/
  | enoent
  /-- ENOTDIR -/
  | enotdir
  /-- an attempt to read the bytes of something that is not a regular file -/
  | einval
  /-- `io.EOF` -/
  | eof
  /-- `io.ErrUnexpectedEOF` -/
  | unexpectedEOF
  /-- the input of `ReadObject` ended before `length` bytes were read -/
  | shortRead (wanted got : Nat)
  /-- the computed hash differs from the expected hash -/
  | hashMismatch
  /-- `errors.New("existing non-file: " + filename)` -/
  | existingNonFile (filename : Path)
  /-- `fmt.Errorf("length mismatch. Data=%d, existing object=%d", ...)` -/
  | lengthMismatch (dataLen : Nat) (size : Int)
  /-- `errors.New("content mismatch")` -/
  | contentMismatch
  /-- `errors.New("collision detected: " + err.Error())` -/
  | collisionDetected (cause : Err)
  /-- an error made from the non-empty error string of a response -/
  | remote (errorString : String)
  /-- a transport failure of the connection -/
  | transport (code : Nat)
  deriving DecidableEq, Repr

/-- The Go function `os.IsExist`. -/
def IsExist : Err → Bool
  | .eexist => true
  | _ => false

/-! ## The file system -/

/-- What a path names: a regular file with its bytes, a directory, or
anything else (symbolic link, device, socket, ...). -/
inductive Node where
  | regular (content : List Nat)
  | directory
  | other
  deriving DecidableEq, Repr

/-- A file tree: what each path names, if anything. -/
abbrev FileSystem := Path → Option Node

/-- The tree `fs` with `p` naming `n`. -/
def FileSystem.set (fs : FileSystem) (p : Path) (n : Node) : FileSystem :=
  fun q => if q = p then some n else fs q

/-- The result of `os.Lstat`: whether the mode is regular, and the size. -/
structure FileInfo where
  IsRegular : Bool
  Size : Int
  deriving DecidableEq, Repr

/-- The Go function `os.Lstat`: it fails exactly when nothing has the name. -/
def Lstat (fs : FileSystem) (filename : Path) : Except Err FileInfo :=
  match fs filename with
  | none => .error .enoent
  | some (.regular content) => .ok ⟨true, (content.length : Int)⟩
  | some _ => .ok ⟨false, 0⟩

/-- The Go function `path.Dir`. -/
def Dir (filename : Path) : Path := filename.dropLast

/-- The Go function `os.MkdirAll` on the reversed path (last component
first): a path that is a directory is left alone, a path that names something
else is ENOTDIR, and otherwise the parents are made first and the directory
after them. -/
def MkdirAllRev (fs : FileSystem) : List String → Option Err × FileSystem
  | [] =>
    match fs [] with
    | some .directory => (none, fs)
    | some _ => (some .enotdir, fs)
    | none => (none, fs.set [] .directory)
  | name :: parentRev =>
    match fs (name :: parentRev).reverse with
    | some .directory => (none, fs)
    | some _ => (some .enotdir, fs)
    | none =>
      match MkdirAllRev fs parentRev with
      | (some e, fs1) => (some e, fs1)
      | (none, fs1) => (none, fs1.set (name :: parentRev).reverse .directory)

/-- The Go function `os.MkdirAll`. -/
def MkdirAll (fs : FileSystem) (dir : Path) : Option Err × FileSystem :=
  MkdirAllRev fs dir.reverse

/-- Modelled from the spec: `fsutil.CopyToFileExclusive` is not among the
sources. "Attempt an atomic, exclusive file creation (must fail if the path
already exists - no implicit overwrite)"; "a partially written file is never
visible under the final name". The directory of the file has to exist. -/
def CopyToFileExclusive (fs : FileSystem) (filename : Path) (data : List Nat) :
    Option Err × FileSystem :=
  match fs filename with
  | some _ => (some .eexist, fs)
  | none =>
    match fs (Dir filename) with
    | some .directory => (none, fs.set filename (.regular data))
    | some _ => (some .enotdir, fs)
    | none => (some .enoent, fs)

/-! ## collisionCheck -/

/-- The Go constant `buflen`. -/
def buflen : Nat := 65536

/-- A `bufio.Reader` over an open file: the bytes not yet read, and the sizes
in which the coming reads will be served (the environment decides them). -/
structure FileReader where
  rest : List Nat
  chunks : List Nat
  deriving DecidableEq, Repr

/-- The Go method `bufio.Reader.Read` on a buffer of length `n`: at the end of
the file it fails with `io.EOF`; otherwise it delivers at least one byte and
at most `n`, as many as the next chunk size says (all that fit when the
schedule is used up). The bytes delivered are the filled part of the
buffer. -/
def FileReader.Read (r : FileReader) (n : Nat) :
    Except Err (List Nat × FileReader) :=
  if n = 0 then .ok ([], r)
  else if r.rest = [] then .error .eof
  else
    let k := max 1 (min (r.chunks.headD n) n)
    .ok (r.rest.take k, ⟨r.rest.drop k, r.chunks.tail⟩)

/-- The loop of `collisionCheck`: `for len(data) > 0 { ... }`. -/
def collisionLoop : Nat → List Nat → FileReader → Run (Option Err)
  | fuel, data, reader =>
    if data.length > 0 then
      match fuel with
      | 0 => .spin
      | fuel + 1 =>
        let numToRead := if data.length > buflen then buflen else data.length
        match reader.Read numToRead with
        | .error e => .done (some e)
        | .ok (buf, reader1) =>
          let nread := buf.length
          -- data[:nread] and buf[:nread] panic when nread is out of range
          if nread > data.length ∨ nread > numToRead then .panic
          else if data.take nread ≠ buf.take nread then
            .done (some .contentMismatch)
          else collisionLoop fuel (data.drop nread) reader1
    else .done none

/-- The Go function `collisionCheck`. The fuel given to the loop is one more
than the number of bytes to compare. -/
def collisionCheck (fs : FileSystem) (chunks : List Nat) (data : List Nat)
    (filename : Path) (size : Int) : Run (Option Err) :=
  match fs filename with
  | none => .done (some .enoent)
  | some (.regular content) =>
    if (data.length : Int) ≠ size then
      .done (some (.lengthMismatch data.length size))
    else collisionLoop (data.length + 1) data ⟨content, chunks⟩
  | some _ =>
    if (data.length : Int) ≠ size then
      .done (some (.lengthMismatch data.length size))
    else if data.length > 0 then .done (some .einval) else .done none

/-! ## The object server -/

/-- The Go type `objectType`: an entry of the index. -/
structure objectType where
  hash : Hash
  size : Nat
  deriving DecidableEq, Repr

/-- What the store does to its collaborators and to the disk, in order. -/
inductive Event where
  /-- the garbage collector was triggered -/
  | gcRun
  /-- `os.MkdirAll` was called -/
  | mkdirAll (dir : Path)
  /-- `fsutil.CopyToFileExclusive` was called -/
  | copyToFileExclusive (filename : Path)
  /-- the add callback was called -/
  | addCallback (hashVal : Hash) (length : Nat) (isNew : Bool)
  deriving DecidableEq, Repr

/-- The Go type `ObjectServer` together with the tree it owns. `gc` and
`addCallback` say whether the handle is set; `files` is the file tree, `now`
the clock and `trace` the record of what the store has done so far. -/
structure ObjectServer where
  BaseDirectory : Path
  gc : Bool
  addCallback : Bool
  objects : Hash → Option objectType
  unreferenced : Hash → Bool
  lastMutationTime : Nat
  totalBytes : Nat
  files : FileSystem
  now : Nat
  trace : List Event

/-- The parts of the insertion path that are not among the sources and are
taken as parameters: the digest `ReadObject` computes, the function
`objectcache.HashToFilename`, what a run of the garbage collector does, and
the sizes in which the reads of `collisionCheck` are served. -/
structure Env where
  hashOf : List Nat → Hash
  HashToFilename : Hash → Path
  garbageCollector : ObjectServer → ObjectServer
  chunks : List Nat

/-- The call `objSrv.garbageCollector(nil)`: the collector may change the tree
and the index (objects, unreferenced set, time stamp, byte count); the other
fields of the server are out of its reach. -/
def ObjectServer.garbageCollector (env : Env) (objSrv : ObjectServer) :
    ObjectServer :=
  let g := env.garbageCollector objSrv
  { objSrv with
    objects := g.objects
    unreferenced := g.unreferenced
    lastMutationTime := g.lastMutationTime
    totalBytes := g.totalBytes
    files := g.files
    trace := objSrv.trace ++ [.gcRun] }

/-- Modelled from the spec: `objectcache.ReadObject` is not among the sources.
"Read exactly `length` bytes from the input; computing fewer bytes than
`length` is a fatal read error"; "compute the content hash; if `expectedHash`
is supplied and differs, fail with an integrity error". The input is the list
of the bytes the reader can deliver. -/
def ReadObject (env : Env) (reader : List Nat) (length : Nat)
    (expectedHash : Option Hash) : Hash × List Nat × Option Err :=
  if reader.length < length then
    (0, [], some (.shortRead length reader.length))
  else
    let data := reader.take length
    let hashVal := env.hashOf data
    match expectedHash with
    | none => (hashVal, data, none)
    | some expected =>
      if hashVal ≠ expected then (hashVal, [], some .hashMismatch)
      else (hashVal, data, none)

/-- Modelled from the spec: `addUnreferenced` is not among the sources. "Mark
it unreferenced". -/
def ObjectServer.addUnreferenced (objSrv : ObjectServer) (object : objectType) :
    ObjectServer :=
  { objSrv with
    unreferenced := fun h => if h = object.hash then true
                             else objSrv.unreferenced h }

/-- The Go method `ObjectServer.add`. -/
def ObjectServer.add (objSrv : ObjectServer) (object : objectType) :
    ObjectServer :=
  let s1 : ObjectServer :=
    { objSrv with
      objects := fun h => if h = object.hash then some object
                          else objSrv.objects h }
  let s2 := s1.addUnreferenced object
  let s3 : ObjectServer := { s2 with lastMutationTime := s2.now }
  { s3 with totalBytes := (s3.totalBytes + object.size) % 2 ^ 64 }

/-- The Go method `ObjectServer.addOrCompareOnce`. The last argument and the
last component of the result are the caller's variable `gc` (whether it is
non-nil), which the method reads and clears through a pointer. -/
def ObjectServer.addOrCompareOnce (env : Env) (objSrv : ObjectServer)
    (data : List Nat) (filename : Path) (gc : Bool) :
    Run ((Bool × Option Err) × ObjectServer × Bool) :=
  match Lstat objSrv.files filename with
  | .ok fi =>
    if !fi.IsRegular then
      .done ((false, some (.existingNonFile filename)), objSrv, gc)
    else
      match collisionCheck objSrv.files env.chunks data filename fi.Size with
      | .done (some err) =>
        .done ((false, some (.collisionDetected err)), objSrv, gc)
      | .done none => .done ((false, none), objSrv, gc)
      | .panic => .panic
      | .spin => .spin
  | .error _ =>
    let s1 := if gc then objSrv.garbageCollector env else objSrv
    let gc1 := if gc then false else gc
    let s2 : ObjectServer :=
      { s1 with
        files := (MkdirAll s1.files (Dir filename)).2
        trace := s1.trace ++ [.mkdirAll (Dir filename)] }
    match (MkdirAll s1.files (Dir filename)).1 with
    | some err => .done ((false, some err), s2, gc1)
    | none =>
      let s3 : ObjectServer :=
        { s2 with
          files := (CopyToFileExclusive s2.files filename data).2
          trace := s2.trace ++ [.copyToFileExclusive filename] }
      match (CopyToFileExclusive s2.files filename data).1 with
      | some err => .done ((false, some err), s3, gc1)
      | none => .done ((true, none), s3, gc1)

/-- The loop of `addOrCompare`, over any function that makes one attempt:
the outcome of an attempt is returned unless it is an error for which
`os.IsExist` holds, in which case another attempt is made (after a sleep and,
at most once, a line in the log, neither of which is modelled). -/
def addOrCompareLoop {σ : Type} (once : σ → Run ((Bool × Option Err) × σ)) :
    Nat → σ → Run ((Bool × Option Err) × σ)
  | 0, _ => .spin
  | fuel + 1, st =>
    match once st with
    | .done ((isNew, none), st1) => .done ((isNew, none), st1)
    | .done ((_, some err), st1) =>
      if !IsExist err then .done ((false, some err), st1)
      else addOrCompareLoop once fuel st1
    | .panic => .panic
    | .spin => .spin

/-- The Go method `ObjectServer.addOrCompare`: the loop over
`addOrCompareOnce`, started with a copy of the collector handle. -/
def ObjectServer.addOrCompare (env : Env) (fuel : Nat) (objSrv : ObjectServer)
    (data : List Nat) (filename : Path) :
    Run ((Bool × Option Err) × ObjectServer) :=
  match addOrCompareLoop
      (fun st : ObjectServer × Bool =>
        ObjectServer.addOrCompareOnce env st.1 data filename st.2)
      fuel (objSrv, objSrv.gc) with
  | .done (r, st) => .done (r, st.1)
  | .panic => .panic
  | .spin => .spin

/-- The Go method `ObjectServer.addObject`. The result is the triple
`(hash, isNew, error)` and the server afterwards. -/
def ObjectServer.addObject (env : Env) (fuel : Nat) (objSrv : ObjectServer)
    (reader : List Nat) (length : Nat) (expectedHash : Option Hash) :
    Run ((Hash × Bool × Option Err) × ObjectServer) :=
  match ReadObject env reader length expectedHash with
  | (hashVal, _, some err) => .done ((hashVal, false, some err), objSrv)
  | (hashVal, data, none) =>
    let filename := objSrv.BaseDirectory ++ env.HashToFilename hashVal
    match objSrv.addOrCompare env fuel data filename with
    | .done ((_, some err), s1) => .done ((hashVal, false, some err), s1)
    | .done ((isNew, none), s1) =>
      let object : objectType := ⟨hashVal, data.length % 2 ^ 64⟩
      let s2 := if (s1.objects object.hash).isNone then s1.add object else s1
      let s3 : ObjectServer :=
        if s2.addCallback then
          { s2 with
            trace := s2.trace ++
              [.addCallback hashVal (data.length % 2 ^ 64) isNew] }
        else s2
      .done ((hashVal, isNew, none), s3)
    | .panic => .panic
    | .spin => .spin

/-! ## The object adder queue -/

/-- The Go type `objectserver.AddObjectRequest`. -/
structure AddObjectRequest where
  Length : Nat
  ExpectedHash : Option Hash
  deriving DecidableEq, Repr

/-- The Go type `objectserver.AddObjectResponse`. -/
structure AddObjectResponse where
  ErrorString : String
  deriving DecidableEq, Repr

/-- What the client hands to the connection, call by call. -/
inductive Sent where
  | encode (request : AddObjectRequest)
  | write (data : List Nat)
  | flush
  | close
  deriving DecidableEq, Repr

/-- The connection (`srpc.Conn`) as the client sees it: the calls made on its
sending side so far, what the successive calls of `Decode` return, how many
of them have been made, and what `Encode`, `Flush` and `Close` answer. -/
structure Conn where
  sent : List Sent
  replies : Nat → Except Err AddObjectResponse
  decoded : Nat
  encodeErr : Option Err
  flushErr : Option Err
  closeErr : Option Err

/-- The Go method `Conn.Encode`. -/
def Conn.Encode (conn : Conn) (request : AddObjectRequest) : Option Err × Conn :=
  (conn.encodeErr, { conn with sent := conn.sent ++ [.encode request] })

/-- The Go method `Conn.Write`; its result is never looked at. -/
def Conn.Write (conn : Conn) (data : List Nat) : Conn :=
  { conn with sent := conn.sent ++ [.write data] }

/-- The Go method `Conn.Flush`. -/
def Conn.Flush (conn : Conn) : Option Err × Conn :=
  (conn.flushErr, { conn with sent := conn.sent ++ [.flush] })

/-- The Go method `Conn.Close`. -/
def Conn.Close (conn : Conn) : Option Err × Conn :=
  (conn.closeErr, { conn with sent := conn.sent ++ [.close] })

/-- The Go method `Conn.Decode` into an `AddObjectResponse`. -/
def Conn.Decode (conn : Conn) : Except Err AddObjectResponse × Conn :=
  (conn.replies conn.decoded, { conn with decoded := conn.decoded + 1 })

/-- Modelled from the spec: `errors.New` of the repository's `lib/errors` is
not among the sources. "A response carries an error string (empty means
success)"; the reader "publishes its error (or nil)". -/
def errorsNew (errorString : String) : Option Err :=
  if errorString = "" then none else some (.remote errorString)

/-- The channel `errorChan`: the results sent and not yet received, oldest
first, and whether the channel has been closed. Its capacity (1024) only
bounds how far the sender can run ahead of the receiver and is not
modelled. -/
structure ErrorChan where
  buf : List (Option Err)
  closed : Bool
  deriving DecidableEq, Repr

/-- The Go statement `errorChan <- err`. -/
def ErrorChan.send (ch : ErrorChan) (err : Option Err) : ErrorChan :=
  { ch with buf := ch.buf ++ [err] }

/-- The Go statement `close(errorChan)`. -/
def ErrorChan.close (ch : ErrorChan) : ErrorChan :=
  { ch with closed := true }

/-- The Go type `ObjectAdderQueue`: the connection, the queue of
response-expected markers (how many are waiting, and whether the queue has
been closed), the error channel and the number of tokens in the semaphore
channel (of capacity one). The reader task has returned exactly when the
error channel is closed. -/
structure ObjectAdderQueue where
  conn : Conn
  getResponseChan : Nat
  getResponseClosed : Bool
  errorChan : ErrorChan
  sendSemaphore : Nat

/-- The Go function `newObjectAdderQueue`; the argument is the result of
`client.Call("ObjectServer.AddObjects")`. The reader task starts with it. -/
def newObjectAdderQueue (call : Except Err Conn) : Except Err ObjectAdderQueue :=
  match call with
  | .error err => .error err
  | .ok conn => .ok ⟨conn, 0, false, ⟨[], false⟩, 0⟩

/-- The Go function `updateError`. -/
def updateError (oldError newError : Option Err) : Option Err :=
  match oldError with
  | none => newError
  | some err => some err

/-- The Go function `readResponses`, run to its end on a marker queue that
delivers `markers` markers and is then closed. The result is the connection,
the number of markers left in the queue, and the error channel. -/
def readResponses (conn : Conn) : Nat → ErrorChan → Conn × Nat × ErrorChan
  | 0, errorChan => (conn, 0, errorChan.close)
  | markers + 1, errorChan =>
    match conn.Decode with
    | (.error err, conn1) => (conn1, markers, (errorChan.send (some err)).close)
    | (.ok reply, conn1) =>
      readResponses conn1 markers (errorChan.send (errorsNew reply.ErrorString))

/-- One turn of the reader task inside a queue: if it has returned, nothing;
if no marker is waiting, it returns when the marker queue is closed and waits
otherwise; else it takes one marker and runs the body of the loop of
`readResponses` once. -/
def ObjectAdderQueue.readerStep (objQ : ObjectAdderQueue) : ObjectAdderQueue :=
  if objQ.errorChan.closed then objQ
  else
    match objQ.getResponseChan with
    | 0 =>
      if objQ.getResponseClosed then
        { objQ with errorChan := objQ.errorChan.close }
      else objQ
    | markers + 1 =>
      match objQ.conn.Decode with
      | (.error err, conn1) =>
        { objQ with
          conn := conn1
          getResponseChan := markers
          errorChan := (objQ.errorChan.send (some err)).close }
      | (.ok reply, conn1) =>
        { objQ with
          conn := conn1
          getResponseChan := markers
          errorChan := objQ.errorChan.send (errorsNew reply.ErrorString) }

/-- The reader task run until it returns, the marker queue being closed. -/
def ObjectAdderQueue.readerFinish (objQ : ObjectAdderQueue) : ObjectAdderQueue :=
  if objQ.errorChan.closed then objQ
  else
    let r := readResponses objQ.conn objQ.getResponseChan objQ.errorChan
    { objQ with conn := r.1, getResponseChan := r.2.1, errorChan := r.2.2 }

/-- The first loop of `consumeErrors`: `for err := range objQ.errorChan`. A
receive on an open channel with nothing in it waits for a sender; here there
is none. -/
def rangeErrors : Nat → ErrorChan → Run (Option Err × ErrorChan)
  | 0, _ => .spin
  | fuel + 1, errorChan =>
    match errorChan.buf with
    | err :: rest =>
      if err ≠ none then .done (err, { errorChan with buf := rest })
      else rangeErrors fuel { errorChan with buf := rest }
    | [] => if errorChan.closed then .done (none, errorChan) else .spin

/-- The receive case of a `select` on the error channel: it is ready with the
oldest result when the channel holds one, and ready with the zero value `nil`
when the channel is closed and drained; it is not ready when the channel is
open and empty. -/
def ErrorChan.ready (ch : ErrorChan) : Option (Option Err × ErrorChan) :=
  match ch.buf with
  | err :: rest => some (err, { ch with buf := rest })
  | [] => if ch.closed then some (none, ch) else none

/-- The second loop of `consumeErrors`: `for { select { ... } }`, where the
`default` case is taken only when the receive is not ready. -/
def selectErrors : Nat → ErrorChan → Run (Option Err × ErrorChan)
  | 0, _ => .spin
  | fuel + 1, errorChan =>
    match errorChan.ready with
    | some (err, ch1) =>
      if err ≠ none then .done (err, ch1) else selectErrors fuel ch1
    | none => .done (none, errorChan)

/-- The Go method `ObjectAdderQueue.consumeErrors`. -/
def ObjectAdderQueue.consumeErrors (fuel : Nat) (objQ : ObjectAdderQueue)
    (untilClose : Bool) : Run (Option Err × ObjectAdderQueue) :=
  match (if untilClose then rangeErrors fuel objQ.errorChan
         else selectErrors fuel objQ.errorChan) with
  | .done (err, errorChan) => .done (err, { objQ with errorChan := errorChan })
  | .panic => .panic
  | .spin => .spin

/-- The Go method `ObjectAdderQueue.addData`. The send task it starts is run
at once, to its end: the semaphore is taken, the request and the data are
handed to the connection, the marker is queued and the semaphore is given
back. A caller that finds the semaphore taken waits; here nobody would give
it back. -/
def ObjectAdderQueue.addData (fuel : Nat) (objQ : ObjectAdderQueue)
    (data : List Nat) (hashVal : Hash) : Run (Option Err × ObjectAdderQueue) :=
  match objQ.consumeErrors fuel false with
  | .done (some err, q1) => .done (some err, q1)
  | .done (none, q1) =>
    if q1.sendSemaphore ≥ 1 then .spin
    else
      let request : AddObjectRequest := ⟨data.length % 2 ^ 64, some hashVal⟩
      let conn1 := (q1.conn.Encode request).2
      let conn2 := conn1.Write data
      .done (none,
        { q1 with conn := conn2, getResponseChan := q1.getResponseChan + 1 })
  | .panic => .panic
  | .spin => .spin

/-- Lines 34-43 of `ObjectAdderQueue.add`: `io.ReadFull` into a buffer of
`length` bytes, and the check of the number of bytes read. -/
def readData (reader : List Nat) (length : Nat) : Except Err (List Nat) :=
  if reader.length < length then
    .error (if reader.length = 0 then .eof else .unexpectedEOF)
  else
    let data := reader.take length
    let nRead := data.length
    if nRead % 2 ^ 64 ≠ length then .error (.shortRead length nRead)
    else .ok data

/-- The Go method `ObjectAdderQueue.add`; `hashOf` is SHA-512. -/
def ObjectAdderQueue.add (hashOf : List Nat → Hash) (fuel : Nat)
    (objQ : ObjectAdderQueue) (reader : List Nat) (length : Nat) :
    Run ((Hash × Option Err) × ObjectAdderQueue) :=
  match readData reader length with
  | .error err => .done ((0, some err), objQ)
  | .ok data =>
    let hashVal := hashOf data
    match objQ.addData fuel data hashVal with
    | .done (err, q1) => .done ((hashVal, err), q1)
    | .panic => .panic
    | .spin => .spin

/-- The Go method `ObjectAdderQueue.close`. The reader task is run to its end
before the errors are consumed: the drain takes the results in the order in
which they are published, so what `close` returns does not depend on how the
two tasks interleave. -/
def ObjectAdderQueue.close (fuel : Nat) (objQ : ObjectAdderQueue) :
    Run (Option Err × ObjectAdderQueue) :=
  if objQ.sendSemaphore ≥ 1 then .spin
  else
    let q1 : ObjectAdderQueue := { objQ with sendSemaphore := 1 }
    let request : AddObjectRequest := ⟨0, none⟩
    let err := (q1.conn.Encode request).1
    let conn1 := (q1.conn.Encode request).2
    let err := updateError err conn1.Flush.1
    let conn2 := conn1.Flush.2
    let q2 : ObjectAdderQueue :=
      { q1 with conn := conn2, getResponseClosed := true }
    match q2.readerFinish.consumeErrors fuel true with
    | .done (err3, q3) =>
      let err := updateError err err3
      .done (updateError err q3.conn.Close.1, { q3 with conn := q3.conn.Close.2 })
    | .panic => .panic
    | .spin => .spin

/-! ## Sessions of the queue -/

/-- What happens in a session before `close`: the caller calls `addData` or
`add`, or the reader task takes a turn. -/
inductive Action where
  | addData (data : List Nat) (hashVal : Hash)
  | add (reader : List Nat) (length : Nat)
  | readerStep
  deriving DecidableEq, Repr

/-- What a call of `add` or `addData` came to: the object was submitted (the
call returned `nil`), the call returned an error it took from the error
channel (the result of an earlier submission) and submitted nothing, or `add`
could not read the payload. -/
inductive Reported where
  | submitted
  | earlier (err : Err)
  | unread (err : Err)
  deriving DecidableEq, Repr

/-- What a call that got as far as `addData` came to. -/
def reportOf (err : Option Err) : Reported :=
  match err with
  | none => .submitted
  | some e => .earlier e

/-- A session run from a queue: what each call came to, in order, and the
queue at the end. -/
def runSession (hashOf : List Nat → Hash) (fuel : Nat) :
    ObjectAdderQueue → List Action → Run (List Reported × ObjectAdderQueue)
  | objQ, [] => .done ([], objQ)
  | objQ, .readerStep :: rest => runSession hashOf fuel objQ.readerStep rest
  | objQ, .addData data hashVal :: rest =>
    match objQ.addData fuel data hashVal with
    | .done (err, q1) =>
      match runSession hashOf fuel q1 rest with
      | .done (outs, q2) => .done (reportOf err :: outs, q2)
      | .panic => .panic
      | .spin => .spin
    | .panic => .panic
    | .spin => .spin
  | objQ, .add reader length :: rest =>
    match objQ.add hashOf fuel reader length with
    | .done ((_, err), q1) =>
      match runSession hashOf fuel q1 rest with
      | .done (outs, q2) =>
        .done ((match readData reader length with
                | .error e => Reported.unread e
                | .ok _ => reportOf err) :: outs, q2)
      | .panic => .panic
      | .spin => .spin
    | .panic => .panic
    | .spin => .spin

/-- The number of objects submitted in a session. -/
def submissions (outs : List Reported) : Nat :=
  (outs.filter (fun o => o = .submitted)).length

/-- The errors that the calls of a session took from the error channel and
returned, in order. -/
def earlierErrors : List Reported → List Err
  | [] => []
  | .earlier err :: rest => err :: earlierErrors rest
  | _ :: rest => earlierErrors rest

/-- The results of `markers` submitted objects, in submission order, as seen
on a connection whose next decode is number `decoded`: the error of each
response (`nil` for success) up to and including the first transport failure,
after which nothing more is read. -/
def sessionResults (replies : Nat → Except Err AddObjectResponse) :
    Nat → Nat → List (Option Err)
  | _, 0 => []
  | decoded, markers + 1 =>
    match replies decoded with
    | .error err => [some err]
    | .ok reply =>
      errorsNew reply.ErrorString :: sessionResults replies (decoded + 1) markers

/-- The first error in a list of results, `nil` if there is none. -/
def firstError : List (Option Err) → Option Err
  | [] => none
  | none :: rest => firstError rest
  | some err :: _ => some err

/-- What a computation returns, if it returns. -/
def returnedBy {α β : Type} (r : Run (α × β)) : Option α :=
  match r with
  | .done (a, _) => some a
  | _ => none

/-- The queue a computation leaves, or `dflt` if it does not return. -/
def queueAfter {α : Type} (r : Run (α × ObjectAdderQueue))
    (dflt : ObjectAdderQueue) : ObjectAdderQueue :=
  match r with
  | .done (_, q) => q
  | _ => dflt

/-! ## Auxiliary definitions for the statements -/

/-- What is left in the error channel once the results up to and including
the first error have been taken; nothing if there is no error. -/
def afterFirstError : List (Option Err) → List (Option Err)
  | [] => []
  | none :: rest => afterFirstError rest
  | some _ :: rest => rest

/-- The queue once `addData` has handed a payload to the connection. -/
def ObjectAdderQueue.submit (objQ : ObjectAdderQueue) (data : List Nat)
    (hashVal : Hash) : ObjectAdderQueue :=
  { objQ with
    conn :=
      { objQ.conn with
        sent := objQ.conn.sent ++
          [.encode ⟨data.length % 2 ^ 64, some hashVal⟩, .write data] }
    getResponseChan := objQ.getResponseChan + 1 }

/-- The outcome of the comparison of `data` with an existing regular file. -/
def compareOutcome (data content : List Nat) : Option Err :=
  if data.length ≠ content.length then
    some (.collisionDetected
      (.lengthMismatch data.length (content.length : Int)))
  else if content = data then none
  else some (.collisionDetected .contentMismatch)

/-- The server in which an attempt that found nothing under the name goes on:
the collector has run if the caller's handle was set. -/
def ObjectServer.afterTrigger (env : Env) (objSrv : ObjectServer) (gc : Bool) :
    ObjectServer :=
  if gc then objSrv.garbageCollector env else objSrv

/-- The server after the `os.MkdirAll` of an attempt. -/
def ObjectServer.afterMkdirAll (env : Env) (objSrv : ObjectServer) (gc : Bool)
    (filename : Path) : ObjectServer :=
  { objSrv.afterTrigger env gc with
    files := (MkdirAll (objSrv.afterTrigger env gc).files (Dir filename)).2
    trace := (objSrv.afterTrigger env gc).trace ++ [.mkdirAll (Dir filename)] }

/-- The server after the `fsutil.CopyToFileExclusive` of an attempt. -/
def ObjectServer.afterCopy (env : Env) (objSrv : ObjectServer) (gc : Bool)
    (data : List Nat) (filename : Path) : ObjectServer :=
  { objSrv.afterMkdirAll env gc filename with
    files := (CopyToFileExclusive
      (objSrv.afterMkdirAll env gc filename).files filename data).2
    trace := (objSrv.afterMkdirAll env gc filename).trace
      ++ [.copyToFileExclusive filename] }

/-- What `addOrCompare` returns for the outcome of the attempt it stops at:
a success as it is, an error with `isNew = false`. -/
def returned (outcome : Bool × Option Err) : Bool × Option Err :=
  match outcome.2 with
  | none => outcome
  | some err => (false, some err)

/-- The server after lines 45-49 of `addObject`: the index update under the
lock. -/
def ObjectServer.afterLock (objSrv : ObjectServer) (hashVal : Hash)
    (data : List Nat) : ObjectServer :=
  if (objSrv.objects hashVal).isNone then
    objSrv.add ⟨hashVal, data.length % 2 ^ 64⟩
  else objSrv

/-- The server after lines 50-52 of `addObject`: the call of the add
callback, if one is set. -/
def ObjectServer.afterCallback (objSrv : ObjectServer) (hashVal : Hash)
    (data : List Nat) (isNew : Bool) : ObjectServer :=
  if objSrv.addCallback then
    { objSrv with
      trace := objSrv.trace ++
        [.addCallback hashVal (data.length % 2 ^ 64) isNew] }
  else objSrv

/-- The server after lines 44-52 of `addObject`: the index update under the
lock and the call of the add callback. -/
def ObjectServer.afterIndexUpdate (objSrv : ObjectServer) (hashVal : Hash)
    (data : List Nat) (isNew : Bool) : ObjectServer :=
  (objSrv.afterLock hashVal data).afterCallback hashVal data isNew

/-- The server as the garbage collector leaves it during a call of `addObject`
for the hash `hashVal`: the first attempt triggers the collector if the
handle of the store is set and nothing is found under the name of the object
(lines 90-104); otherwise the collector does not run and the server is the
one before the call. -/
def ObjectServer.afterCollector (env : Env) (objSrv : ObjectServer)
    (hashVal : Hash) : ObjectServer :=
  if (objSrv.files (objSrv.BaseDirectory ++ env.HashToFilename hashVal)).isNone
  then objSrv.afterTrigger env objSrv.gc
  else objSrv

/-- One attempt of `addOrCompare` as a function of the loop state: the server
and the caller's copy of the collector handle. -/
def attempt (env : Env) (data : List Nat) (filename : Path)
    (st : ObjectServer × Bool) : Run ((Bool × Option Err) × ObjectServer × Bool) :=
  ObjectServer.addOrCompareOnce env st.1 data filename st.2

/-- Two servers with the same settings: base directory, handles and clock. -/
def SameSettings (a b : ObjectServer) : Prop :=
  a.BaseDirectory = b.BaseDirectory ∧ a.gc = b.gc ∧
    a.addCallback = b.addCallback ∧ a.now = b.now

/-- Two servers with the same index: objects, unreferenced set, time stamp
and byte count. -/
def SameIndex (a b : ObjectServer) : Prop :=
  a.objects = b.objects ∧ a.unreferenced = b.unreferenced ∧
    a.lastMutationTime = b.lastMutationTime ∧ a.totalBytes = b.totalBytes

/-- The invariant of the store: every indexed object has a regular file at
the path derived from its hash, whose content hashes to that hash and whose
length is the size of the object. -/
def StoreInvariant (env : Env) (s : ObjectServer) : Prop :=
  ∀ h object, s.objects h = some object →
    ∃ content,
      s.files (s.BaseDirectory ++ env.HashToFilename object.hash)
        = some (.regular content) ∧
      env.hashOf content = object.hash ∧ content.length = object.size

/-! ## A concrete store for the examples -/

/-- An environment for the examples: the digest is the sum of the bytes
modulo 4 (so that collisions are easy to come by), an object is kept under
`objects/<hash>`, the garbage collector changes nothing, and reads are served
one byte, then three bytes, then as asked. -/
def exampleEnv : Env :=
  ⟨fun d => d.sum % 4, fun h => ["objects", toString h], fun s => s, [1, 3]⟩

/-- The empty store under `base`, with a collector and a callback set. -/
def emptyServer : ObjectServer :=
  ⟨["base"], true, true, fun _ => none, fun _ => false, 0, 0, fun _ => none, 7, []⟩

/-- The server a computation leaves, or `dflt` if it does not return. -/
def serverAfter {α : Type} (r : Run (α × ObjectServer)) (dflt : ObjectServer) :
    ObjectServer :=
  match r with
  | .done (_, s) => s
  | _ => dflt

/-- The store after the payload `[1, 2, 3]` has been added to the empty one. -/
def serverWith123 : ObjectServer :=
  serverAfter (emptyServer.addObject exampleEnv 3 [1, 2, 3] 3 none) emptyServer

/-- The store under `base` in which the path for hash 2 already holds the
bytes `[1, 1]` (whose digest is 2), with nothing in the index. -/
def seededServer : ObjectServer :=
  ⟨["base"], true, true, fun _ => none, fun _ => false, 0, 0,
    fun p => if p = ["base", "objects", "2"] then some (.regular [1, 1])
             else none,
    7, []⟩

/-- The store after the payload `[1, 1]` has been added to the seeded one. -/
def serverWithSeed : ObjectServer :=
  serverAfter (seededServer.addObject exampleEnv 3 [1, 1] 2 none) seededServer

/-- A sequence of attempts for the examples, over a counter: the first two
fail with "already exists", the third creates the object. -/
def exampleAttempts (n : Nat) : Run ((Bool × Option Err) × Nat) :=
  .done (if n < 2 then (false, some .eexist) else (true, none), n + 1)

/-- A tree with one regular file `f` holding four bytes. -/
def exampleFiles : FileSystem :=
  fun p => if p = ["f"] then some (.regular [5, 6, 7, 8]) else none

/-- What the reader publishes for the outcome of one `Decode`: the error of
the response (`nil` for an empty error string), or the transport error. -/
def resultOf (outcome : Except Err AddObjectResponse) : Option Err :=
  match outcome with
  | .ok reply => errorsNew reply.ErrorString
  | .error err => some err

/-- Whether a `Decode` delivered a response (rather than a transport
error). -/
def delivered (outcome : Except Err AddObjectResponse) : Bool :=
  match outcome with
  | .ok _ => true
  | .error _ => false

/-- A connection for the examples: nothing sent yet, the second response
carries the error string "bad", the fourth decode fails, everything else
succeeds. -/
def exampleConn : Conn :=
  ⟨[], fun i => if i = 1 then .ok ⟨"bad"⟩ else if i = 3 then .error (.transport 5)
                 else .ok ⟨""⟩,
    0, none, none, none⟩

/-- What ties a queue in a session to the history of the session, on a
connection that was `conn0` when the session began: `n` objects have been
submitted, `errs` are the errors the calls have taken from the error channel,
`taken` the results taken with them, and the reader task has decoded `k`
responses; either it is still running, or it has stopped at the transport
failure of the decode after them. -/
def SessionInv (conn0 : Conn) (q : ObjectAdderQueue) (n : Nat)
    (errs : List Err) : Prop :=
  q.conn.replies = conn0.replies ∧ q.conn.encodeErr = conn0.encodeErr ∧
  q.conn.flushErr = conn0.flushErr ∧ q.conn.closeErr = conn0.closeErr ∧
  q.sendSemaphore = 0 ∧ q.getResponseClosed = false ∧
  ∃ (taken : List (Option Err)) (k : Nat),
    taken.filterMap id = errs ∧
    (∀ i, i < k → delivered (conn0.replies (conn0.decoded + i)) = true) ∧
    ((q.errorChan.closed = false ∧ q.conn.decoded = conn0.decoded + k ∧
        k + q.getResponseChan = n ∧
        taken ++ q.errorChan.buf
          = sessionResults conn0.replies conn0.decoded k) ∨
     (q.errorChan.closed = true ∧ k < n ∧
        delivered (conn0.replies (conn0.decoded + k)) = false ∧
        taken ++ q.errorChan.buf
          = sessionResults conn0.replies conn0.decoded (k + 1)))

/-- The results that are still to be received when `close` is called: what
the error channel holds and, if the reader task is still running, what it
will publish for the markers that wait. -/
def ObjectAdderQueue.outstanding (q : ObjectAdderQueue) : List (Option Err) :=
  if q.errorChan.closed then q.errorChan.buf
  else q.errorChan.buf ++
    sessionResults q.conn.replies q.conn.decoded q.getResponseChan

/-- A connection on which the store answers the first object with the error
string "bad" and every other object with success. -/
def badFirstConn : Conn :=
  ⟨[], fun i => if i = 0 then .ok ⟨"bad"⟩ else .ok ⟨""⟩, 0, none, none, none⟩

/-- A session in which the error of the first object is published before the
second call of `addData`. -/
def reportedSession : List Action :=
  [.addData [1] 1, .readerStep, .addData [2] 2]

/-- The queue at the end of that session. -/
def queueAfterReport : ObjectAdderQueue :=
  queueAfter
    (runSession (fun d => d.sum) 5 ⟨badFirstConn, 0, false, ⟨[], false⟩, 0⟩
      reportedSession)
    ⟨badFirstConn, 0, false, ⟨[], false⟩, 0⟩

/-- A session in which the second call of `addData` comes before the reader
task has published anything, so that both objects are submitted. -/
def unreportedSession : List Action :=
  [.addData [1] 1, .addData [2] 2, .readerStep]

/-- The queue at the end of the session in which nothing is reported before
`close`. -/
def queueBeforeReport : ObjectAdderQueue :=
  queueAfter
    (runSession (fun d => d.sum) 5 ⟨badFirstConn, 0, false, ⟨[], false⟩, 0⟩
      unreportedSession)
    ⟨badFirstConn, 0, false, ⟨[], false⟩, 0⟩

/-- A connection whose first decode fails. -/
def brokenConn : Conn :=
  ⟨[], fun _ => .error (.transport 5), 0, none, none, none⟩

/-- The queue after a session on the broken connection in which one object
is submitted, the reader task stops at the transport failure and the next
call of `addData` returns that failure: the error channel is closed and
empty. -/
def queueAfterFailure : ObjectAdderQueue :=
  queueAfter
    (runSession (fun d => d.sum) 5 ⟨brokenConn, 0, false, ⟨[], false⟩, 0⟩
      reportedSession)
    ⟨brokenConn, 0, false, ⟨[], false⟩, 0⟩

/-- The queue after `close` at the end of the session in which nothing was
reported before: the reader task has returned and the error channel is
closed. -/
def queueAfterClose : ObjectAdderQueue :=
  queueAfter (queueBeforeReport.close 5) queueBeforeReport

/-- What the trigger of the garbage collector adds to the trace: the run, if
the caller's handle is set. -/
def triggered (gc : Bool) : List Event :=
  if gc then [.gcRun] else []

/-- The number of runs of the garbage collector over a sequence of attempts
of one call of `addOrCompare`, the attempts starting in the given servers
(whatever has happened to the store between them) and the caller's handle
being passed from each attempt to the next. -/
def gcRunsOver (env : Env) (data : List Nat) (filename : Path) :
    Bool → List ObjectServer → Nat
  | _, [] => 0
  | gc, s :: rest =>
    match s.addOrCompareOnce env data filename gc with
    | .done (_, s1, gc1) =>
      (s1.trace.drop s.trace.length).count .gcRun
        + gcRunsOver env data filename gc1 rest
    | _ => 0

/-- An environment in which the garbage collector itself puts the bytes
`[1, 2, 3]` under the path for hash 2, so that an attempt to create that
object after the collector has run finds the name taken. -/
def racingEnv : Env :=
  ⟨fun d => d.sum % 4, fun h => ["objects", toString h],
    fun s => { s with
      files := s.files.set ["base", "objects", "2"] (.regular [1, 2, 3]) },
    [1, 3]⟩

/-- The store after `addOrCompare` of `[1, 2, 3]` on the empty store in the
racing environment. -/
def serverAfterRace : ObjectServer :=
  serverAfter
    (emptyServer.addOrCompare racingEnv 2 [1, 2, 3] ["base", "objects", "2"])
    emptyServer

/-- An environment whose garbage collector collects: it deletes every object,
that is, it empties the index and the unreferenced set, resets the byte count
and removes the regular files. -/
def collectingEnv : Env :=
  ⟨fun d => d.sum % 4, fun h => ["objects", toString h],
    fun s => { s with
      objects := fun _ => none
      unreferenced := fun _ => false
      totalBytes := 0
      files := fun p =>
        match s.files p with
        | some (.regular _) => none
        | n => n },
    [1, 3]⟩

/-- The store under `base` that holds one object: the byte `[1]` (whose digest
is 1), indexed with size 1 and marked unreferenced, so that the byte count
is 1; a collector and a callback are set. -/
def stockedServer : ObjectServer :=
  ⟨["base"], true, true,
    fun h => if h = 1 then some ⟨1, 1⟩ else none,
    fun h => decide (h = 1), 0, 1,
    fun p =>
      if p = ["base", "objects", "1"] then some (.regular [1])
      else if p = ["base", "objects"] then some .directory
      else if p = ["base"] then some .directory
      else none,
    7, []⟩

/-- The store after the payload `[1, 2, 3]` has been added to the stocked one
in the environment whose collector collects. -/
def serverAfterCollection : ObjectServer :=
  serverAfter (stockedServer.addObject collectingEnv 2 [1, 2, 3] 3 none)
    stockedServer

/-! ## The queue as a system of tasks -/

/-- Where a send task (the goroutine started by `addData`) stands: before
`conn.Encode`, before `conn.Write`, before the send on `getResponseChan`,
before the deferred receive from `sendSemaphore`, or finished. -/
inductive TaskPc where
  | encode
  | write
  | marker
  | release
  | finished
  deriving DecidableEq, Repr

/-- A send task: the payload and hash it was started with, and where it
stands. -/
structure SendTask where
  data : List Nat
  hashVal : Hash
  pc : TaskPc
  deriving DecidableEq, Repr

/-- A queue session seen as a system of tasks: the number of tokens in
`sendSemaphore`, the send tasks in the order in which the caller started
them, what has been handed to the connection, the markers queued on
`getResponseChan` (each with the number of the task that queued it), the
number of markers the reader task has taken, the markers for which it has
decoded a response, and whether `close` has been called. -/
structure Session where
  sem : Nat
  tasks : List SendTask
  wire : List Sent
  markers : List Nat
  consumed : Nat
  decodedFor : List Nat
  closed : Bool
  deriving DecidableEq, Repr

/-- The session of a new queue. -/
def Session.init : Session := ⟨0, [], [], [], 0, [], false⟩

/-- Who moves next in a session: the caller gets past the semaphore in
`addData` and starts a send task, send task number `i` makes its next call,
the reader task takes a marker and decodes a response, or the caller gets
past the semaphore in `close` and writes the end-of-session request. -/
inductive Move where
  | submit (data : List Nat) (hashVal : Hash)
  | task (i : Nat)
  | reader
  | close
  deriving DecidableEq, Repr

/-- The next call of send task `i`; `none` if there is no such task, if it
has finished, or if it waits. -/
def Session.taskStep (s : Session) (i : Nat) : Option Session :=
  match s.tasks[i]? with
  | none => none
  | some t =>
    match t.pc with
    | .encode =>
      some { s with
        wire := s.wire ++ [.encode ⟨t.data.length % 2 ^ 64, some t.hashVal⟩]
        tasks := s.tasks.set i { t with pc := .write } }
    | .write =>
      some { s with
        wire := s.wire ++ [.write t.data]
        tasks := s.tasks.set i { t with pc := .marker } }
    | .marker =>
      some { s with
        markers := s.markers ++ [i]
        tasks := s.tasks.set i { t with pc := .release } }
    | .release =>
      if s.sem = 0 then none
      else
        some { s with
          sem := s.sem - 1
          tasks := s.tasks.set i { t with pc := .finished } }
    | .finished => none

/-- One move of a session; `none` if the one who is to move waits. A send on
the semaphore channel, of capacity one, waits while the channel holds a
token. -/
def Session.step (s : Session) : Move → Option Session
  | .submit data hashVal =>
    if s.sem ≥ 1 then none
    else
      some { s with
        sem := s.sem + 1
        tasks := s.tasks ++ [⟨data, hashVal, .encode⟩] }
  | .task i => s.taskStep i
  | .reader =>
    match s.markers[s.consumed]? with
    | none => none
    | some m =>
      some { s with consumed := s.consumed + 1, decodedFor := s.decodedFor ++ [m] }
  | .close =>
    if s.sem ≥ 1 then none
    else
      some { s with
        sem := s.sem + 1
        wire := s.wire ++ [.encode ⟨0, none⟩, .flush]
        closed := true }

/-- A schedule of moves run from a session; `none` if a move in it is not
possible. -/
def Session.run : Session → List Move → Option Session
  | s, [] => some s
  | s, m :: rest =>
    match s.step m with
    | none => none
    | some s1 => Session.run s1 rest

/-- What a send task has handed to the connection so far. -/
def SendTask.emitted (t : SendTask) : List Sent :=
  match t.pc with
  | .encode => []
  | .write => [.encode ⟨t.data.length % 2 ^ 64, some t.hashVal⟩]
  | _ => [.encode ⟨t.data.length % 2 ^ 64, some t.hashVal⟩, .write t.data]

/-- Whether a send task is between taking the semaphore and giving it back. -/
def SendTask.active (t : SendTask) : Bool :=
  decide (t.pc ≠ .finished)

/-- The invariant of a session: the reader task has decoded for the markers
in their order; and either no send task is active and the semaphore is free,
or `close` holds the semaphore and no send task is active, or the last task
started holds it and all the others have finished. -/
def SessionOrdered (s : Session) : Prop :=
  s.consumed ≤ s.markers.length ∧ s.decodedFor = List.range s.consumed ∧
  ((s.sem = 0 ∧ s.closed = false ∧ (∀ t ∈ s.tasks, t.pc = .finished) ∧
      s.wire = s.tasks.flatMap SendTask.emitted ∧
      s.markers = List.range s.tasks.length) ∨
   (s.sem = 1 ∧ s.closed = true ∧ (∀ t ∈ s.tasks, t.pc = .finished) ∧
      s.wire = s.tasks.flatMap SendTask.emitted ++ [.encode ⟨0, none⟩, .flush] ∧
      s.markers = List.range s.tasks.length) ∨
   (s.sem = 1 ∧ s.closed = false ∧
      ∃ done t, s.tasks = done ++ [t] ∧ (∀ u ∈ done, u.pc = .finished) ∧
        t.pc ≠ .finished ∧
        s.wire = done.flatMap SendTask.emitted ++ t.emitted ∧
        s.markers = List.range
          (done.length + if t.pc = .release then 1 else 0)))

/-- A schedule for the examples: two objects are submitted; the first send
task runs to its end before the second is started, and the reader task
decodes the first response while the second task is writing. -/
def exampleSchedule : List Move :=
  [.submit [1] 1, .task 0, .task 0, .task 0, .task 0,
   .submit [2, 3] 5, .task 1, .reader, .task 1]

/-- The session the example schedule leads to, or the new session if the
schedule cannot be run. -/
def exampleSession : Session :=
  (Session.init.run exampleSchedule).getD Session.init

/-! ## The installer: getVariableFromBytes -/

/-- The table `asciiSpace` of the Go package `bytes`: tab, line feed,
vertical tab, form feed, carriage return and space. -/
def asciiSpace (b : Nat) : Bool :=
  b = 9 || b = 10 || b = 11 || b = 12 || b = 13 || b = 32

/-- The Go constant `utf8.RuneError`. -/
def RuneError : Nat := 0xFFFD

/-- The Go function `utf8.DecodeRune`: the rune at the head of the bytes and
its width; an invalid or truncated encoding gives `RuneError` with width
one. -/
def DecodeRune (p : List Nat) : Nat × Nat :=
  match p with
  | [] => (RuneError, 0)
  | p0 :: rest =>
    if p0 < 0x80 then (p0, 1)
    else if p0 < 0xC2 ∨ 0xF4 < p0 then (RuneError, 1)
    else
      let sz := if p0 < 0xE0 then 2 else if p0 < 0xF0 then 3 else 4
      let lo := if p0 = 0xE0 then 0xA0 else if p0 = 0xF0 then 0x90 else 0x80
      let hi := if p0 = 0xED then 0x9F else if p0 = 0xF4 then 0x8F else 0xBF
      if p.length < sz then (RuneError, 1)
      else
        match rest with
        | [] => (RuneError, 1)
        | b1 :: rest1 =>
          if b1 < lo ∨ hi < b1 then (RuneError, 1)
          else if sz ≤ 2 then (p0 % 32 * 64 + b1 % 64, 2)
          else
            match rest1 with
            | [] => (RuneError, 1)
            | b2 :: rest2 =>
              if b2 < 0x80 ∨ 0xBF < b2 then (RuneError, 1)
              else if sz ≤ 3 then
                (p0 % 16 * 4096 + b1 % 64 * 64 + b2 % 64, 3)
              else
                match rest2 with
                | [] => (RuneError, 1)
                | b3 :: _ =>
                  if b3 < 0x80 ∨ 0xBF < b3 then (RuneError, 1)
                  else
                    (p0 % 8 * 262144 + b1 % 64 * 4096 + b2 % 64 * 64 + b3 % 64,
                      4)

/-- The Go function `unicode.IsSpace`. -/
def IsSpace (r : Nat) : Bool :=
  if r ≤ 0xFF then
    r = 9 || r = 10 || r = 11 || r = 12 || r = 13 || r = 32 || r = 0x85
      || r = 0xA0
  else
    r = 0x1680 || (0x2000 ≤ r && r ≤ 0x200A) || r = 0x2028 || r = 0x2029
      || r = 0x202F || r = 0x205F || r = 0x3000

/-- The fields found so far with the one being read, if it has a byte. -/
def closeField (cur : List Nat) (fields : List (List Nat)) : List (List Nat) :=
  if cur = [] then fields else cur :: fields

/-- The loop of the Go function `bytes.FieldsFunc` with `unicode.IsSpace`,
over the bytes not yet read and the field being read: a rune that is a space
ends the field, any other rune is added to it with all its bytes. The fuel
is the number of runes that may still be read. -/
def fieldsFuncLoop : Nat → List Nat → List Nat → List (List Nat)
  | 0, _, cur => closeField cur []
  | _ + 1, [], cur => closeField cur []
  | fuel + 1, b :: rest, cur =>
    let size := if b ≥ 0x80 then (DecodeRune (b :: rest)).2 else 1
    let r := if b ≥ 0x80 then (DecodeRune (b :: rest)).1 else b
    if IsSpace r then
      closeField cur (fieldsFuncLoop fuel ((b :: rest).drop size) [])
    else
      fieldsFuncLoop fuel ((b :: rest).drop size)
        (cur ++ (b :: rest).take size)

/-- The loops of the ASCII path of the Go function `bytes.Fields`, over the
bytes not yet read and the field being read: a space byte ends the field,
any other byte is added to it. -/
def fieldsASCII : List Nat → List Nat → List (List Nat)
  | [], cur => closeField cur []
  | b :: rest, cur =>
    if asciiSpace b then closeField cur (fieldsASCII rest [])
    else fieldsASCII rest (cur ++ [b])

/-- The Go function `bytes.Fields`: the ASCII path when no byte has its high
bit set, `bytes.FieldsFunc` with `unicode.IsSpace` otherwise. -/
def Fields (s : List Nat) : List (List Nat) :=
  if s.all (fun b => b < 0x80) then fieldsASCII s []
  else fieldsFuncLoop s.length s []

/-- The Go function `bytes.Split` for a separator of one byte: the slices
between the occurrences of the separator, one more than there are
occurrences. -/
def Split : List Nat → Nat → List (List Nat)
  | [], _ => [[]]
  | b :: rest, sep =>
    if b = sep then [] :: Split rest sep
    else
      match Split rest sep with
      | field :: fields => (b :: field) :: fields
      | [] => [[b]]

/-- The loop of `getVariableFromBytes` over the arguments; `none` is the
`nil` slice. -/
def getVariableFromArgs (nameBytes : List Nat) :
    List (List Nat) → Option (List Nat)
  | [] => none
  | arg :: rest =>
    let fields := Split arg 61
    if fields.length = 2 then
      if fields.getD 0 [] = nameBytes then some (fields.getD 1 [])
      else getVariableFromArgs nameBytes rest
    else getVariableFromArgs nameBytes rest

/-- The Go function `getVariableFromBytes`; `name` is given by its bytes,
and 61 is the byte `=`. -/
def getVariableFromBytes (data : List Nat) (name : List Nat) :
    Option (List Nat) :=
  getVariableFromArgs name (Fields data)

/-- The bytes of a string of ASCII characters. -/
def bytesOf (s : String) : List Nat :=
  s.toList.map Char.toNat

/-- A byte string made of arguments separated by white space: `Separated
data args` says that `data` is the arguments `args`, each of at least one
byte and without a space byte, with at least one space byte between two of
them and any number of space bytes before the first and after the last. -/
inductive Separated : List Nat → List (List Nat) → Prop where
  | nil : Separated [] []
  | space (sp : Nat) (data : List Nat) (args : List (List Nat)) :
      asciiSpace sp = true → Separated data args → Separated (sp :: data) args
  | last (arg : List Nat) :
      arg ≠ [] → (∀ b ∈ arg, asciiSpace b = false) → Separated arg [arg]
  | arg (arg : List Nat) (sp : Nat) (data : List Nat) (args : List (List Nat)) :
      arg ≠ [] → (∀ b ∈ arg, asciiSpace b = false) → asciiSpace sp = true →
      Separated data args → Separated (arg ++ sp :: data) (arg :: args)

/-- A kernel command line for the examples. -/
def exampleCmdline : List Nat := bytesOf "  a=1 hostname=box\tb=2 "

/-- An argument whose value holds the byte `=`. -/
def rootArg : List Nat := bytesOf "root=UUID=1"

/-! ## Facts about collisionCheck -/

theorem FileReader.Read_of_nonempty (rest chunks : List Nat) (n : Nat)
    (hn : 0 < n) (hrest : n ≤ rest.length) :
    ∃ k, 1 ≤ k ∧ k ≤ n ∧
      FileReader.Read ⟨rest, chunks⟩ n
        = .ok (rest.take k, ⟨rest.drop k, chunks.tail⟩) := by
  refine ⟨max 1 (min (chunks.headD n) n), le_max_left _ _, ?_, ?_⟩
  · exact max_le hn (min_le_right _ _)
  · have h1 : n ≠ 0 := by omega
    have h2 : rest ≠ [] := by
      intro h
      rw [h] at hrest
      simp at hrest
      omega
    simp [FileReader.Read, h1, h2]

theorem collisionLoop_eq (fuel : Nat) :
    ∀ (data rest chunks : List Nat), data.length = rest.length →
      data.length ≤ fuel →
      collisionLoop fuel data ⟨rest, chunks⟩
        = if rest = data then .done none else .done (some .contentMismatch) := by
  induction fuel with
  | zero =>
    intro data rest chunks hlen hfuel
    have hd : data = [] := List.length_eq_zero.mp (by omega)
    have hr : rest = [] := List.length_eq_zero.mp (by omega)
    subst hd; subst hr
    simp [collisionLoop]
  | succ fuel ih =>
    intro data rest chunks hlen hfuel
    by_cases hpos : data.length > 0
    · obtain ⟨k, hk1, hk2, hread⟩ :=
        FileReader.Read_of_nonempty rest chunks
          (if data.length > buflen then buflen else data.length)
          (by have hb : 0 < buflen := by decide
              split <;> omega)
          (by split <;> omega)
      have hkd : k ≤ data.length := by
        split at hk2 <;> omega
      have hbuf : (rest.take k).length = k := by
        rw [List.length_take]; omega
      rw [collisionLoop]
      simp only [hpos, if_true, hread, hbuf]
      have hnp : ¬ (k > data.length ∨
          k > (if data.length > buflen then buflen else data.length)) := by
        omega
      rw [if_neg hnp]
      have htt : (rest.take k).take k = rest.take k := by
        rw [List.take_take]; simp
      rw [htt]
      by_cases hne : data.take k ≠ rest.take k
      · rw [if_pos hne]
        have : rest ≠ data := by
          intro h; apply hne; rw [h]
        rw [if_neg this]
      · rw [if_neg hne]
        push_neg at hne
        rw [ih (data.drop k) (rest.drop k) chunks.tail
          (by simp [List.length_drop, hlen])
          (by simp [List.length_drop]; omega)]
        have hiff : rest.drop k = data.drop k ↔ rest = data := by
          constructor
          · intro h
            rw [← List.take_append_drop k rest, ← List.take_append_drop k data,
              h, hne]
          · intro h; rw [h]
        by_cases hrd : rest = data
        · rw [if_pos hrd, if_pos (hiff.mpr hrd)]
        · rw [if_neg hrd, if_neg (fun h => hrd (hiff.mp h))]
    · have hd : data = [] := List.length_eq_zero.mp (by omega)
      have hr : rest = [] := List.length_eq_zero.mp (by omega)
      subst hd; subst hr
      simp [collisionLoop]

theorem collisionCheck_regular (fs : FileSystem) (chunks data : List Nat)
    (filename : Path) (content : List Nat)
    (hfile : fs filename = some (.regular content)) :
    collisionCheck fs chunks data filename (content.length : Int)
      = if data.length ≠ content.length then
          .done (some (.lengthMismatch data.length (content.length : Int)))
        else if content = data then .done none
        else .done (some .contentMismatch) := by
  unfold collisionCheck
  rw [hfile]
  simp only []
  by_cases hlen : data.length = content.length
  · have h1 : ¬ ((data.length : Int) ≠ (content.length : Int)) := by
      simp [hlen]
    rw [if_neg h1, if_neg (by simpa using hlen)]
    exact collisionLoop_eq (data.length + 1) data content chunks hlen (by omega)
  · have h1 : (data.length : Int) ≠ (content.length : Int) := by
      intro h; exact hlen (by exact_mod_cast h)
    rw [if_pos h1, if_pos hlen]

/-! ## Facts about the file system -/

theorem FileSystem.set_same (fs : FileSystem) (p : Path) (n : Node) :
    fs.set p n p = some n := by
  simp [FileSystem.set]

theorem FileSystem.set_other (fs : FileSystem) (p q : Path) (n : Node)
    (h : q ≠ p) : fs.set p n q = fs q := by
  simp [FileSystem.set, h]

/-- The call of `MkdirAll` never changes what an existing name stands for. -/
theorem MkdirAllRev_keeps (fs : FileSystem) (dirRev : List String) (q : Path)
    (hq : fs q ≠ none) : (MkdirAllRev fs dirRev).2 q = fs q := by
  induction dirRev with
  | nil =>
    unfold MkdirAllRev
    split
    · rfl
    · rfl
    · rename_i hnone
      show fs.set [] .directory q = fs q
      apply FileSystem.set_other
      intro h; rw [h] at hq; exact hq hnone
  | cons name parentRev ih =>
    unfold MkdirAllRev
    split
    · rfl
    · rfl
    · rename_i hnone
      split
      · rename_i e fs1 heq
        have : (MkdirAllRev fs parentRev).2 = fs1 := by rw [heq]
        rw [← this]; exact ih
      · rename_i fs1 heq
        have h2 : (MkdirAllRev fs parentRev).2 = fs1 := by rw [heq]
        show fs1.set _ .directory q = fs q
        rw [FileSystem.set_other]
        · rw [← h2]; exact ih
        · intro h; rw [h] at hq; exact hq hnone

theorem MkdirAll_keeps (fs : FileSystem) (dir q : Path) (hq : fs q ≠ none) :
    (MkdirAll fs dir).2 q = fs q :=
  MkdirAllRev_keeps fs dir.reverse q hq

/-- What `MkdirAll` adds to the tree are directories. -/
theorem MkdirAllRev_new (fs : FileSystem) (dirRev : List String) (q : Path)
    (hq : fs q = none) :
    (MkdirAllRev fs dirRev).2 q = none ∨
      (MkdirAllRev fs dirRev).2 q = some .directory := by
  induction dirRev with
  | nil =>
    unfold MkdirAllRev
    split
    · left; exact hq
    · left; exact hq
    · show fs.set [] .directory q = none ∨ fs.set [] .directory q = some _
      by_cases h : q = []
      · right; rw [h]; exact FileSystem.set_same _ _ _
      · left; rw [FileSystem.set_other _ _ _ _ h]; exact hq
  | cons name parentRev ih =>
    unfold MkdirAllRev
    split
    · left; exact hq
    · left; exact hq
    · split
      · rename_i e fs1 heq
        have : (MkdirAllRev fs parentRev).2 = fs1 := by rw [heq]
        rw [← this]; exact ih
      · rename_i fs1 heq
        have h2 : (MkdirAllRev fs parentRev).2 = fs1 := by rw [heq]
        show fs1.set _ .directory q = none ∨ fs1.set _ .directory q = some _
        by_cases h : q = (name :: parentRev).reverse
        · right; rw [h]; exact FileSystem.set_same _ _ _
        · rw [FileSystem.set_other _ _ _ _ h, ← h2]; exact ih

theorem MkdirAll_new (fs : FileSystem) (dir q : Path) (hq : fs q = none) :
    (MkdirAll fs dir).2 q = none ∨ (MkdirAll fs dir).2 q = some .directory :=
  MkdirAllRev_new fs dir.reverse q hq

/-- A regular file is where it was after `MkdirAll`, and no new one appears. -/
theorem MkdirAll_regular (fs : FileSystem) (dir q : Path) (content : List Nat) :
    (MkdirAll fs dir).2 q = some (.regular content)
      ↔ fs q = some (.regular content) := by
  by_cases hq : fs q = none
  · rcases MkdirAll_new fs dir q hq with h | h <;> simp [h, hq]
  · rw [MkdirAll_keeps fs dir q hq]

theorem CopyToFileExclusive_keeps (fs : FileSystem) (filename : Path)
    (data : List Nat) (q : Path) (hq : fs q ≠ none) :
    (CopyToFileExclusive fs filename data).2 q = fs q := by
  unfold CopyToFileExclusive
  cases h1 : fs filename with
  | some n => rfl
  | none =>
    have hne : q ≠ filename := by
      intro h; rw [h] at hq; exact hq h1
    cases h2 : fs (Dir filename) with
    | none => rfl
    | some n =>
      cases n
      · rfl
      · exact FileSystem.set_other _ _ _ _ hne
      · rfl

theorem CopyToFileExclusive_ok (fs : FileSystem) (filename : Path)
    (data : List Nat) (h : (CopyToFileExclusive fs filename data).1 = none) :
    fs filename = none ∧
      (CopyToFileExclusive fs filename data).2
        = fs.set filename (.regular data) := by
  unfold CopyToFileExclusive at h ⊢
  cases h1 : fs filename with
  | some n => simp [h1] at h
  | none =>
    cases h2 : fs (Dir filename) with
    | none => simp [h1, h2] at h
    | some n => cases n <;> simp [h1, h2] at h ⊢

theorem CopyToFileExclusive_eexist (fs : FileSystem) (filename : Path)
    (data : List Nat) (e : Err)
    (h : (CopyToFileExclusive fs filename data).1 = some e)
    (he : IsExist e = true) : fs filename ≠ none := by
  unfold CopyToFileExclusive at h
  cases h1 : fs filename with
  | some n => simp
  | none =>
    cases h2 : fs (Dir filename) with
    | none =>
      simp [h1, h2] at h
      subst h; simp [IsExist] at he
    | some n =>
      cases n <;> simp [h1, h2] at h
      all_goals (subst h; simp [IsExist] at he)

theorem CopyToFileExclusive_fail (fs : FileSystem) (filename : Path)
    (data : List Nat) (e : Err)
    (h : (CopyToFileExclusive fs filename data).1 = some e) :
    (CopyToFileExclusive fs filename data).2 = fs := by
  unfold CopyToFileExclusive at h ⊢
  cases h1 : fs filename with
  | some n => rfl
  | none =>
    cases h2 : fs (Dir filename) with
    | none => rfl
    | some n => cases n <;> simp [h1, h2] at h ⊢

/-! ## Facts about one attempt -/

theorem compareOutcome_eq_none (data content : List Nat) :
    compareOutcome data content = none ↔ content = data := by
  unfold compareOutcome
  constructor
  · intro h
    split at h
    · simp at h
    · split at h
      · assumption
      · simp at h
  · intro h
    subst h
    simp

theorem compareOutcome_not_exist (data content : List Nat) (e : Err)
    (h : compareOutcome data content = some e) : IsExist e = false := by
  unfold compareOutcome at h
  split at h
  · simp at h; subst h; rfl
  · split at h
    · simp at h
    · simp at h; subst h; rfl

theorem addOrCompareOnce_regular (env : Env) (objSrv : ObjectServer)
    (data : List Nat) (filename : Path) (gc : Bool) (content : List Nat)
    (hfile : objSrv.files filename = some (.regular content)) :
    objSrv.addOrCompareOnce env data filename gc
      = .done ((false, compareOutcome data content), objSrv, gc) := by
  unfold ObjectServer.addOrCompareOnce Lstat
  rw [hfile]
  simp only [Bool.not_true, Bool.false_eq_true, if_false]
  rw [collisionCheck_regular _ _ _ _ _ hfile]
  unfold compareOutcome
  split_ifs <;> rfl

theorem addOrCompareOnce_nonfile (env : Env) (objSrv : ObjectServer)
    (data : List Nat) (filename : Path) (gc : Bool) (n : Node)
    (hfile : objSrv.files filename = some n)
    (hn : ∀ content, n ≠ .regular content) :
    objSrv.addOrCompareOnce env data filename gc
      = .done ((false, some (.existingNonFile filename)), objSrv, gc) := by
  unfold ObjectServer.addOrCompareOnce Lstat
  rw [hfile]
  cases n with
  | regular content => exact absurd rfl (hn content)
  | directory => simp
  | other => simp

theorem addOrCompareOnce_absent (env : Env) (objSrv : ObjectServer)
    (data : List Nat) (filename : Path) (gc : Bool)
    (hfile : objSrv.files filename = none) :
    objSrv.addOrCompareOnce env data filename gc
      = match (MkdirAll (objSrv.afterTrigger env gc).files (Dir filename)).1 with
        | some err =>
          .done ((false, some err), objSrv.afterMkdirAll env gc filename, false)
        | none =>
          match (CopyToFileExclusive
              (objSrv.afterMkdirAll env gc filename).files filename data).1 with
          | some err =>
            .done ((false, some err),
              objSrv.afterCopy env gc data filename, false)
          | none =>
            .done ((true, none), objSrv.afterCopy env gc data filename, false) := by
  unfold ObjectServer.addOrCompareOnce Lstat
  rw [hfile]
  have hgc : (if gc = true then false else gc) = false := by
    cases gc <;> rfl
  simp only [hgc]
  rfl

/-! ## Facts about the retry loop -/

theorem addOrCompareLoop_stop {σ : Type}
    (once : σ → Run ((Bool × Option Err) × σ)) (fuel : Nat) (st st1 : σ)
    (o : Bool × Option Err) (honce : once st = .done (o, st1))
    (ho : ∀ e, o.2 = some e → IsExist e = false) :
    addOrCompareLoop once (fuel + 1) st = .done (returned o, st1) := by
  obtain ⟨isNew, err⟩ := o
  cases err with
  | none => simp [addOrCompareLoop, honce, returned]
  | some e =>
    have := ho e rfl
    simp [addOrCompareLoop, honce, returned, this]

theorem addOrCompareLoop_again {σ : Type}
    (once : σ → Run ((Bool × Option Err) × σ)) (fuel : Nat) (st st1 : σ)
    (o : Bool × Option Err) (honce : once st = .done (o, st1))
    (ho : ∃ e, o.2 = some e ∧ IsExist e = true) :
    addOrCompareLoop once (fuel + 1) st = addOrCompareLoop once fuel st1 := by
  obtain ⟨isNew, err⟩ := o
  obtain ⟨e, he, hex⟩ := ho
  simp only at he
  subst he
  simp [addOrCompareLoop, honce, hex]

/-- The state in which the loop returns is the one left by an attempt whose
outcome was not an "already exists" error, and every state on the way there
has whatever property the attempts preserve. -/
theorem addOrCompareLoop_last {σ : Type}
    (once : σ → Run ((Bool × Option Err) × σ)) (P : σ → Prop)
    (hstep : ∀ a o b, P a → once a = .done (o, b) → P b) :
    ∀ (fuel : Nat) (st : σ) (r : Bool × Option Err) (st1 : σ), P st →
      addOrCompareLoop once fuel st = .done (r, st1) →
      ∃ st0 o, P st0 ∧ once st0 = .done (o, st1) ∧
        (∀ e, o.2 = some e → IsExist e = false) ∧ r = returned o := by
  intro fuel
  induction fuel with
  | zero =>
    intro st r st1 _ h
    simp [addOrCompareLoop] at h
  | succ fuel ih =>
    intro st r st1 hP h
    cases honce : once st with
    | panic => simp [addOrCompareLoop, honce] at h
    | spin => simp [addOrCompareLoop, honce] at h
    | done res =>
      obtain ⟨⟨isNew, err⟩, st2⟩ := res
      cases err with
      | none =>
        simp [addOrCompareLoop, honce] at h
        obtain ⟨hr, hst⟩ := h
        subst hr; subst hst
        exact ⟨st, (isNew, none), hP, honce, by simp, rfl⟩
      | some e =>
        by_cases hex : IsExist e = true
        · rw [addOrCompareLoop_again once fuel st st2 (isNew, some e) honce
            ⟨e, rfl, hex⟩] at h
          exact ih st2 r st1 (hstep st _ st2 hP honce) h
        · have hex2 : IsExist e = false := by simpa using hex
          rw [addOrCompareLoop_stop once fuel st st2 (isNew, some e) honce
            (by intro e1 he1; simp at he1; subst he1; exact hex2)] at h
          simp at h
          obtain ⟨hr, hst⟩ := h
          subst hr; subst hst
          exact ⟨st, (isNew, some e), hP, honce,
            by intro e1 he1; simp at he1; subst he1; exact hex2, rfl⟩

theorem addOrCompareLoop_first {σ : Type}
    (once : σ → Run ((Bool × Option Err) × σ)) :
    ∀ (k fuel : Nat) (states : Nat → σ) (outs : Nat → Bool × Option Err),
      (∀ i, i ≤ k → once (states i) = .done (outs i, states (i + 1))) →
      (∀ i, i < k → ∃ e, (outs i).2 = some e ∧ IsExist e = true) →
      (∀ e, (outs k).2 = some e → IsExist e = false) →
      k < fuel →
      addOrCompareLoop once fuel (states 0)
        = .done (returned (outs k), states (k + 1)) := by
  intro k
  induction k with
  | zero =>
    intro fuel states outs hrun _ hlast hfuel
    obtain ⟨f, rfl⟩ : ∃ f, fuel = f + 1 := ⟨fuel - 1, by omega⟩
    exact addOrCompareLoop_stop once f _ _ _ (hrun 0 (le_refl 0)) hlast
  | succ k ih =>
    intro fuel states outs hrun hexist hlast hfuel
    obtain ⟨f, rfl⟩ : ∃ f, fuel = f + 1 := ⟨fuel - 1, by omega⟩
    rw [addOrCompareLoop_again once f _ _ _ (hrun 0 (by omega))
      (hexist 0 (by omega))]
    exact ih f (fun i => states (i + 1)) (fun i => outs (i + 1))
      (fun i hi => hrun (i + 1) (by omega))
      (fun i hi => hexist (i + 1) (by omega)) hlast (by omega)

/-- Claim C4. The retry loop of `addOrCompare`, for every sequence of outcomes
of the successive attempts (attempt `i` starts in `states i`, has the outcome
`outs i` and leaves `states (i + 1)`): if the attempts before the `k`-th all
fail with an "already exists" error and the `k`-th does not, then with fuel
for more than `k` attempts the loop returns the outcome of the `k`-th attempt -
a success with its `isNew` flag, an error with `isNew = false` - in the state
that attempt left, so no further attempt is made; and the error it returns is
never an "already exists" error. -/
theorem addOrCompare_returns_first_other_outcome {σ : Type}
    (once : σ → Run ((Bool × Option Err) × σ))
    (states : Nat → σ) (outs : Nat → Bool × Option Err) (k fuel : Nat)
    (hrun : ∀ i, i ≤ k → once (states i) = .done (outs i, states (i + 1)))
    (hexist : ∀ i, i < k → ∃ e, (outs i).2 = some e ∧ IsExist e = true)
    (hlast : ∀ e, (outs k).2 = some e → IsExist e = false)
    (hfuel : k < fuel) :
    addOrCompareLoop once fuel (states 0)
        = .done (returned (outs k), states (k + 1)) ∧
      ((outs k).2 = none → returned (outs k) = ((outs k).1, none)) ∧
      (∀ e, (outs k).2 = some e → returned (outs k) = (false, some e)) ∧
      (∀ e, (returned (outs k)).2 = some e → IsExist e = false) ∧
      (∀ j, j ≤ k → addOrCompareLoop once j (states 0) = .spin) := by
  refine ⟨addOrCompareLoop_first once k fuel states outs hrun hexist hlast hfuel,
    ?_, ?_, ?_, ?_⟩
  · intro h
    unfold returned
    rw [h]
    cases hk : outs k
    rw [hk] at h
    simp at h
    simp [h]
  · intro e h
    unfold returned
    rw [h]
  · intro e h
    unfold returned at h
    cases h2 : (outs k).2 with
    | none => rw [h2] at h; simp only at h; rw [h2] at h; simp at h
    | some e1 =>
      rw [h2] at h
      simp only [Option.some.injEq] at h
      subst h
      exact hlast _ h2
  · intro j
    induction j generalizing states outs k with
    | zero => intro _; rfl
    | succ j ih =>
      intro hj
      rw [addOrCompareLoop_again once j _ _ _ (hrun 0 (by omega))
        (hexist 0 (by omega))]
      exact ih (fun i => states (i + 1)) (fun i => outs (i + 1)) (k - 1)
        (fun i hi => hrun (i + 1) (by omega))
        (fun i hi => hexist (i + 1) (by omega))
        (by
          have : k - 1 + 1 = k := by omega
          intro e he
          simp only [this] at he
          exact hlast e he)
        (by omega) (by omega)

/-! ## Facts about addOrCompare and addObject -/

theorem ReadObject_ok (env : Env) (reader : List Nat) (length : Nat)
    (expectedHash : Option Hash) (hashVal : Hash) (data : List Nat)
    (h : ReadObject env reader length expectedHash = (hashVal, data, none)) :
    data = reader.take length ∧ hashVal = env.hashOf data ∧
      data.length = length ∧ length ≤ reader.length ∧
      (∀ e, expectedHash = some e → e = hashVal) := by
  unfold ReadObject at h
  split at h
  · simp at h
  · rename_i hlen
    push_neg at hlen
    cases expectedHash with
    | none =>
      simp only [Prod.mk.injEq, and_true] at h
      obtain ⟨h1, h2⟩ := h
      subst h2
      refine ⟨rfl, h1.symm, ?_, hlen, by simp⟩
      rw [List.length_take]; omega
    | some expected =>
      simp only at h
      split at h
      · simp at h
      · rename_i hne
        push_neg at hne
        simp only [Prod.mk.injEq, and_true] at h
        obtain ⟨h1, h2⟩ := h
        subst h2
        refine ⟨rfl, h1.symm, ?_, hlen, ?_⟩
        · rw [List.length_take]; omega
        · intro e he
          simp only [Option.some.injEq] at he
          rw [← he, ← h1, hne]

theorem ReadObject_again (env : Env) (reader : List Nat) (length : Nat)
    (expectedHash expectedHash2 : Option Hash) (hashVal : Hash)
    (data : List Nat)
    (h : ReadObject env reader length expectedHash = (hashVal, data, none))
    (h2 : ∀ e, expectedHash2 = some e → e = hashVal) :
    ReadObject env reader length expectedHash2 = (hashVal, data, none) := by
  obtain ⟨hd, hh, _, hlen, _⟩ := ReadObject_ok env reader length _ _ _ h
  unfold ReadObject
  rw [if_neg (by omega)]
  cases expectedHash2 with
  | none => simp only; rw [← hd, ← hh]
  | some e =>
    have := h2 e rfl
    subst this
    simp only
    rw [← hd, ← hh]
    simp

theorem addOrCompare_eq (env : Env) (fuel : Nat) (objSrv : ObjectServer)
    (data : List Nat) (filename : Path) :
    objSrv.addOrCompare env fuel data filename
      = match addOrCompareLoop (attempt env data filename) fuel
            (objSrv, objSrv.gc) with
        | .done (r, st) => .done (r, st.1)
        | .panic => .panic
        | .spin => .spin := rfl

theorem addObject_eq (env : Env) (fuel : Nat) (objSrv : ObjectServer)
    (reader : List Nat) (length : Nat) (expectedHash : Option Hash)
    (hashVal : Hash) (data : List Nat)
    (h : ReadObject env reader length expectedHash = (hashVal, data, none)) :
    objSrv.addObject env fuel reader length expectedHash
      = match objSrv.addOrCompare env fuel data
            (objSrv.BaseDirectory ++ env.HashToFilename hashVal) with
        | .done ((_, some err), s1) => .done ((hashVal, false, some err), s1)
        | .done ((isNew, none), s1) =>
          .done ((hashVal, isNew, none), s1.afterIndexUpdate hashVal data isNew)
        | .panic => .panic
        | .spin => .spin := by
  unfold ObjectServer.addObject
  rw [h]
  rfl

/-- A successful `addObject` read the payload, had `addOrCompare` succeed and
updated the index. -/
theorem addObject_ok (env : Env) (fuel : Nat) (objSrv objSrv1 : ObjectServer)
    (reader : List Nat) (length : Nat) (expectedHash : Option Hash)
    (hashVal : Hash) (isNew : Bool)
    (h : objSrv.addObject env fuel reader length expectedHash
      = .done ((hashVal, isNew, none), objSrv1)) :
    ∃ data s1, ReadObject env reader length expectedHash = (hashVal, data, none) ∧
      objSrv.addOrCompare env fuel data
        (objSrv.BaseDirectory ++ env.HashToFilename hashVal)
          = .done ((isNew, none), s1) ∧
      objSrv1 = s1.afterIndexUpdate hashVal data isNew := by
  rcases hread : ReadObject env reader length expectedHash with ⟨hv, data, err⟩
  cases err with
  | some e =>
    unfold ObjectServer.addObject at h
    rw [hread] at h
    simp at h
  | none =>
    rw [addObject_eq env fuel objSrv reader length expectedHash hv data hread] at h
    cases hac : objSrv.addOrCompare env fuel data
        (objSrv.BaseDirectory ++ env.HashToFilename hv) with
    | panic => rw [hac] at h; simp at h
    | spin => rw [hac] at h; simp at h
    | done res =>
      obtain ⟨⟨b, err⟩, s1⟩ := res
      rw [hac] at h
      cases err with
      | some e => simp at h
      | none =>
        simp only [Run.done.injEq, Prod.mk.injEq, and_true] at h
        obtain ⟨⟨h1, h2⟩, h3⟩ := h
        subst h1; subst h2
        exact ⟨data, s1, rfl, hac, h3.symm⟩

theorem MkdirAllRev_error (fs : FileSystem) (dirRev : List String) (e : Err)
    (h : (MkdirAllRev fs dirRev).1 = some e) : e = .enotdir := by
  induction dirRev with
  | nil =>
    unfold MkdirAllRev at h
    cases h0 : fs [] with
    | none => simp [h0] at h
    | some n => cases n <;> simp [h0] at h <;> exact h.symm
  | cons name parentRev ih =>
    unfold MkdirAllRev at h
    cases h0 : fs (name :: parentRev).reverse with
    | some n =>
      rw [h0] at h
      cases n <;> simp at h <;> exact h.symm
    | none =>
      simp only [h0] at h
      rcases hrec : MkdirAllRev fs parentRev with ⟨err, fs1⟩
      rw [hrec] at h ih
      cases err with
      | none => simp at h
      | some e1 =>
        simp only [Option.some.injEq] at h
        subst h
        exact ih rfl

theorem MkdirAll_error (fs : FileSystem) (dir : Path) (e : Err)
    (h : (MkdirAll fs dir).1 = some e) : IsExist e = false := by
  rw [MkdirAllRev_error fs dir.reverse e h]
  rfl

/-- The cases of one attempt. -/
theorem attempt_cases (env : Env) (data : List Nat) (filename : Path)
    (st : ObjectServer × Bool) :
    (∃ content, st.1.files filename = some (.regular content) ∧
      attempt env data filename st
        = .done ((false, compareOutcome data content), st)) ∨
    (∃ n, st.1.files filename = some n ∧ (∀ content, n ≠ .regular content) ∧
      attempt env data filename st
        = .done ((false, some (.existingNonFile filename)), st)) ∨
    (∃ e, st.1.files filename = none ∧
      (MkdirAll (st.1.afterTrigger env st.2).files (Dir filename)).1 = some e ∧
      attempt env data filename st
        = .done ((false, some e), st.1.afterMkdirAll env st.2 filename, false)) ∨
    (∃ e, st.1.files filename = none ∧
      (MkdirAll (st.1.afterTrigger env st.2).files (Dir filename)).1 = none ∧
      (CopyToFileExclusive (st.1.afterMkdirAll env st.2 filename).files
        filename data).1 = some e ∧
      attempt env data filename st
        = .done ((false, some e),
            st.1.afterCopy env st.2 data filename, false)) ∨
    (st.1.files filename = none ∧
      (MkdirAll (st.1.afterTrigger env st.2).files (Dir filename)).1 = none ∧
      (CopyToFileExclusive (st.1.afterMkdirAll env st.2 filename).files
        filename data).1 = none ∧
      attempt env data filename st
        = .done ((true, none), st.1.afterCopy env st.2 data filename, false)) := by
  obtain ⟨s, gc⟩ := st
  unfold attempt
  cases hfile : s.files filename with
  | some n =>
    cases n with
    | regular content =>
      left
      exact ⟨content, rfl, addOrCompareOnce_regular env s data filename gc
        content hfile⟩
    | directory =>
      right; left
      exact ⟨.directory, rfl, by simp,
        addOrCompareOnce_nonfile env s data filename gc _ hfile (by simp)⟩
    | other =>
      right; left
      exact ⟨.other, rfl, by simp,
        addOrCompareOnce_nonfile env s data filename gc _ hfile (by simp)⟩
  | none =>
    right; right
    have hab := addOrCompareOnce_absent env s data filename gc hfile
    cases hmk : (MkdirAll (s.afterTrigger env gc).files (Dir filename)).1 with
    | some e =>
      left
      rw [hmk] at hab
      exact ⟨e, rfl, rfl, hab⟩
    | none =>
      right
      rw [hmk] at hab
      cases hcp : (CopyToFileExclusive (s.afterMkdirAll env gc filename).files
          filename data).1 with
      | some e =>
        left
        simp only [] at hab
        rw [hcp] at hab
        exact ⟨e, rfl, rfl, rfl, hab⟩
      | none =>
        right
        simp only [] at hab
        rw [hcp] at hab
        exact ⟨rfl, rfl, rfl, hab⟩

theorem attempt_done (env : Env) (data : List Nat) (filename : Path)
    (st : ObjectServer × Bool) :
    ∃ o st1, attempt env data filename st = .done (o, st1) := by
  rcases attempt_cases env data filename st with
    ⟨_, _, h⟩ | ⟨_, _, _, h⟩ | ⟨_, _, _, h⟩ | ⟨_, _, _, _, h⟩ | ⟨_, _, _, h⟩ <;>
  exact ⟨_, _, h⟩

theorem afterTrigger_settings (env : Env) (s : ObjectServer) (gc : Bool) :
    SameSettings (s.afterTrigger env gc) s := by
  unfold ObjectServer.afterTrigger
  cases gc
  · exact ⟨rfl, rfl, rfl, rfl⟩
  · exact ⟨rfl, rfl, rfl, rfl⟩

theorem afterMkdirAll_settings (env : Env) (s : ObjectServer) (gc : Bool)
    (filename : Path) : SameSettings (s.afterMkdirAll env gc filename) s :=
  afterTrigger_settings env s gc

theorem afterCopy_settings (env : Env) (s : ObjectServer) (gc : Bool)
    (data : List Nat) (filename : Path) :
    SameSettings (s.afterCopy env gc data filename) s :=
  afterTrigger_settings env s gc

theorem sameSettings_trans {a b c : ObjectServer} (h1 : SameSettings a b)
    (h2 : SameSettings b c) : SameSettings a c :=
  ⟨h1.1.trans h2.1, h1.2.1.trans h2.2.1, h1.2.2.1.trans h2.2.2.1,
    h1.2.2.2.trans h2.2.2.2⟩

theorem attempt_settings (env : Env) (data : List Nat) (filename : Path)
    (st st1 : ObjectServer × Bool) (o : Bool × Option Err)
    (h : attempt env data filename st = .done (o, st1)) :
    SameSettings st1.1 st.1 := by
  rcases attempt_cases env data filename st with
    ⟨_, _, h1⟩ | ⟨_, _, _, h1⟩ | ⟨_, _, _, h1⟩ | ⟨_, _, _, _, h1⟩ | ⟨_, _, _, h1⟩ <;>
  · rw [h1] at h
    simp only [Run.done.injEq, Prod.mk.injEq] at h
    rw [← h.2]
    first
      | exact ⟨rfl, rfl, rfl, rfl⟩
      | exact afterMkdirAll_settings env _ _ _
      | exact afterCopy_settings env _ _ _ _

/-- After a successful attempt the file is there and holds the payload. -/
theorem attempt_success_file (env : Env) (data : List Nat) (filename : Path)
    (st st1 : ObjectServer × Bool) (isNew : Bool)
    (h : attempt env data filename st = .done ((isNew, none), st1)) :
    st1.1.files filename = some (.regular data) := by
  rcases attempt_cases env data filename st with
    ⟨content, hf, h1⟩ | ⟨_, _, _, h1⟩ | ⟨_, _, _, h1⟩ | ⟨_, _, _, _, h1⟩ |
    ⟨_, _, hcp, h1⟩
  · rw [h1] at h
    simp only [Run.done.injEq, Prod.mk.injEq] at h
    obtain ⟨⟨_, hc⟩, hst⟩ := h
    rw [← hst, hf, (compareOutcome_eq_none data content).mp hc]
  · rw [h1] at h; simp at h
  · rw [h1] at h; simp at h
  · rw [h1] at h; simp at h
  · rw [h1] at h
    simp only [Run.done.injEq, Prod.mk.injEq] at h
    rw [← h.2]
    show (CopyToFileExclusive _ filename data).2 filename = _
    rw [(CopyToFileExclusive_ok _ _ _ hcp).2]
    exact FileSystem.set_same _ _ _

/-- After an attempt that failed with "already exists" the name is taken. -/
theorem attempt_exist_file (env : Env) (data : List Nat) (filename : Path)
    (st st1 : ObjectServer × Bool) (o : Bool × Option Err) (e : Err)
    (h : attempt env data filename st = .done (o, st1))
    (he : o.2 = some e) (hex : IsExist e = true) :
    st1.1.files filename ≠ none := by
  rcases attempt_cases env data filename st with
    ⟨content, hf, h1⟩ | ⟨_, _, _, h1⟩ | ⟨e1, _, hmk, h1⟩ | ⟨e1, _, _, hcp, h1⟩ |
    ⟨_, _, hcp, h1⟩
  · rw [h1] at h
    simp only [Run.done.injEq, Prod.mk.injEq] at h
    rw [← h.1] at he
    simp only at he
    rw [compareOutcome_not_exist _ _ _ he] at hex
    simp at hex
  · rw [h1] at h
    simp only [Run.done.injEq, Prod.mk.injEq] at h
    rw [← h.1] at he
    simp only [Option.some.injEq] at he
    subst he
    simp [IsExist] at hex
  · rw [h1] at h
    simp only [Run.done.injEq, Prod.mk.injEq] at h
    rw [← h.1] at he
    simp only [Option.some.injEq] at he
    subst he
    rw [MkdirAll_error _ _ _ hmk] at hex
    simp at hex
  · rw [h1] at h
    simp only [Run.done.injEq, Prod.mk.injEq] at h
    rw [← h.1] at he
    simp only [Option.some.injEq] at he
    subst he
    rw [← h.2]
    show (CopyToFileExclusive _ filename data).2 filename ≠ none
    rw [CopyToFileExclusive_fail _ _ _ _ hcp]
    exact CopyToFileExclusive_eexist _ _ _ _ hcp hex
  · rw [h1] at h
    simp only [Run.done.injEq, Prod.mk.injEq] at h
    rw [← h.1] at he
    simp at he

/-- An attempt that finds the name taken changes nothing and does not fail
with "already exists". -/
theorem attempt_present (env : Env) (data : List Nat) (filename : Path)
    (st : ObjectServer × Bool) (hfile : st.1.files filename ≠ none) :
    ∃ o, attempt env data filename st = .done (o, st) ∧ o.1 = false ∧
      ∀ e, o.2 = some e → IsExist e = false := by
  rcases attempt_cases env data filename st with
    ⟨content, hf, h1⟩ | ⟨_, _, _, h1⟩ | ⟨_, hf, _⟩ | ⟨_, hf, _⟩ | ⟨hf, _⟩
  · exact ⟨_, h1, rfl, fun e he => compareOutcome_not_exist _ _ _ he⟩
  · refine ⟨_, h1, rfl, ?_⟩
    intro e he
    simp only [Option.some.injEq] at he
    subst he
    rfl
  · exact absurd hf hfile
  · exact absurd hf hfile
  · exact absurd hf hfile

/-- Two attempts are enough: `addOrCompare` returns. -/
theorem addOrCompareLoop_returns (env : Env) (data : List Nat)
    (filename : Path) (fuel : Nat) (hfuel : 2 ≤ fuel)
    (st : ObjectServer × Bool) :
    ∃ r st1, addOrCompareLoop (attempt env data filename) fuel st
      = .done (r, st1) := by
  obtain ⟨f, rfl⟩ : ∃ f, fuel = f + 2 := ⟨fuel - 2, by omega⟩
  obtain ⟨o, st1, h1⟩ := attempt_done env data filename st
  by_cases hex : ∃ e, o.2 = some e ∧ IsExist e = true
  · rw [addOrCompareLoop_again _ _ _ _ _ h1 hex]
    obtain ⟨e, he, hx⟩ := hex
    obtain ⟨o2, h2, _, hno⟩ := attempt_present env data filename st1
      (attempt_exist_file env data filename st st1 o e h1 he hx)
    exact ⟨_, _, addOrCompareLoop_stop _ f _ _ _ h2 hno⟩
  · push_neg at hex
    refine ⟨_, _, addOrCompareLoop_stop _ (f + 1) _ _ _ h1 ?_⟩
    intro e he
    have := hex e he
    simpa using this

theorem addOrCompare_returns (env : Env) (fuel : Nat) (hfuel : 2 ≤ fuel)
    (objSrv : ObjectServer) (data : List Nat) (filename : Path) :
    ∃ r s1, objSrv.addOrCompare env fuel data filename = .done (r, s1) := by
  obtain ⟨r, st1, h⟩ := addOrCompareLoop_returns env data filename fuel hfuel
    (objSrv, objSrv.gc)
  rw [addOrCompare_eq, h]
  exact ⟨r, st1.1, rfl⟩

/-- What `addOrCompare` hands back comes from a last attempt, made in a state
that has every property the attempts preserve. -/
theorem addOrCompare_last (env : Env) (fuel : Nat) (objSrv s1 : ObjectServer)
    (data : List Nat) (filename : Path) (r : Bool × Option Err)
    (P : ObjectServer → Prop) (hP : P objSrv)
    (hstep : ∀ a o b, P a.1 → attempt env data filename a = .done (o, b) → P b.1)
    (h : objSrv.addOrCompare env fuel data filename = .done (r, s1)) :
    ∃ st0 o gc1, P st0.1 ∧
      attempt env data filename st0 = .done (o, (s1, gc1)) ∧
      (∀ e, o.2 = some e → IsExist e = false) ∧ r = returned o ∧ P s1 := by
  rw [addOrCompare_eq] at h
  cases hl : addOrCompareLoop (attempt env data filename) fuel
      (objSrv, objSrv.gc) with
  | panic => rw [hl] at h; simp at h
  | spin => rw [hl] at h; simp at h
  | done res =>
    obtain ⟨r1, st1⟩ := res
    rw [hl] at h
    simp only [Run.done.injEq, Prod.mk.injEq] at h
    obtain ⟨hr, hs⟩ := h
    subst hr
    obtain ⟨st0, o, hP0, hat, hno, hret⟩ :=
      addOrCompareLoop_last (attempt env data filename) (fun st => P st.1)
        hstep fuel (objSrv, objSrv.gc) r1 st1 hP hl
    refine ⟨st0, o, st1.2, hP0, ?_, hno, hret, ?_⟩
    · rw [hat, ← hs]
    · rw [← hs]
      exact hstep st0 o st1 hP0 hat

theorem afterIndexUpdate_files (s : ObjectServer) (hashVal : Hash)
    (data : List Nat) (isNew : Bool) :
    (s.afterIndexUpdate hashVal data isNew).files = s.files := by
  unfold ObjectServer.afterIndexUpdate ObjectServer.afterCallback
    ObjectServer.afterLock ObjectServer.add ObjectServer.addUnreferenced
  split_ifs <;> rfl

theorem afterIndexUpdate_settings (s : ObjectServer) (hashVal : Hash)
    (data : List Nat) (isNew : Bool) :
    SameSettings (s.afterIndexUpdate hashVal data isNew) s := by
  unfold ObjectServer.afterIndexUpdate ObjectServer.afterCallback
    ObjectServer.afterLock ObjectServer.add ObjectServer.addUnreferenced
  split_ifs <;> exact ⟨rfl, rfl, rfl, rfl⟩

theorem afterCallback_index (s : ObjectServer) (hashVal : Hash)
    (data : List Nat) (isNew : Bool) :
    SameIndex (s.afterCallback hashVal data isNew) s := by
  unfold ObjectServer.afterCallback
  split_ifs <;> exact ⟨rfl, rfl, rfl, rfl⟩

theorem afterLock_known (s : ObjectServer) (hashVal : Hash) (data : List Nat)
    (h : s.objects hashVal ≠ none) : s.afterLock hashVal data = s := by
  unfold ObjectServer.afterLock
  have : (s.objects hashVal).isNone = false := by
    cases h1 : s.objects hashVal with
    | none => exact absurd h1 h
    | some _ => rfl
  rw [this]
  rfl

theorem afterLock_new (s : ObjectServer) (hashVal : Hash) (data : List Nat)
    (h : s.objects hashVal = none) :
    s.afterLock hashVal data = s.add ⟨hashVal, data.length % 2 ^ 64⟩ := by
  unfold ObjectServer.afterLock
  rw [h]
  rfl

theorem afterIndexUpdate_indexed (s : ObjectServer) (hashVal : Hash)
    (data : List Nat) (isNew : Bool) :
    (s.afterIndexUpdate hashVal data isNew).objects hashVal ≠ none := by
  unfold ObjectServer.afterIndexUpdate
  rw [(afterCallback_index _ hashVal data isNew).1]
  by_cases h : s.objects hashVal = none
  · rw [afterLock_new s hashVal data h]
    simp [ObjectServer.add, ObjectServer.addUnreferenced]
  · rw [afterLock_known s hashVal data h]
    exact h

theorem afterIndexUpdate_known (s : ObjectServer) (hashVal : Hash)
    (data : List Nat) (isNew : Bool) (h : s.objects hashVal ≠ none) :
    s.afterIndexUpdate hashVal data isNew
      = if s.addCallback then
          { s with
            trace := s.trace ++
              [.addCallback hashVal (data.length % 2 ^ 64) isNew] }
        else s := by
  unfold ObjectServer.afterIndexUpdate
  rw [afterLock_known s hashVal data h]
  rfl

theorem returned_ok (o : Bool × Option Err) (isNew : Bool)
    (h : (isNew, (none : Option Err)) = returned o) : o = (isNew, none) := by
  obtain ⟨b, err⟩ := o
  cases err with
  | none => simpa [returned] using h.symm
  | some e => simp [returned] at h

/-- After a successful `addOrCompare` the file is there and holds the
payload, and the settings of the server are what they were. -/
theorem addOrCompare_success (env : Env) (fuel : Nat)
    (objSrv s1 : ObjectServer) (data : List Nat) (filename : Path)
    (isNew : Bool)
    (h : objSrv.addOrCompare env fuel data filename = .done ((isNew, none), s1)) :
    s1.files filename = some (.regular data) ∧ SameSettings s1 objSrv := by
  obtain ⟨st0, o, gc1, _, hat, _, hret, hset⟩ :=
    addOrCompare_last env fuel objSrv s1 data filename (isNew, none)
      (fun t => SameSettings t objSrv) ⟨rfl, rfl, rfl, rfl⟩
      (fun a o b ha hab =>
        sameSettings_trans (attempt_settings env data filename a b o hab) ha)
      h
  rw [returned_ok o isNew hret] at hat
  exact ⟨attempt_success_file env data filename st0 (s1, gc1) isNew hat, hset⟩

/-- The method `addOrCompare` on a server that holds the payload under the name. -/
theorem addOrCompare_same (env : Env) (fuel : Nat) (hfuel : 0 < fuel)
    (objSrv : ObjectServer) (data : List Nat) (filename : Path)
    (hfile : objSrv.files filename = some (.regular data)) :
    objSrv.addOrCompare env fuel data filename
      = .done ((false, none), objSrv) := by
  obtain ⟨f, rfl⟩ : ∃ f, fuel = f + 1 := ⟨fuel - 1, by omega⟩
  have hat : attempt env data filename (objSrv, objSrv.gc)
      = .done ((false, none), (objSrv, objSrv.gc)) := by
    unfold attempt
    rw [addOrCompareOnce_regular env objSrv data filename _ data hfile,
      (compareOutcome_eq_none data data).mpr rfl]
  rw [addOrCompare_eq,
    addOrCompareLoop_stop _ f _ _ _ hat (by intro e he; simp at he)]
  rfl

/-! ## Idempotence (C1) -/

/-- Claim C1. Idempotence of `addObject`: when a call succeeds on a payload and
the server it leaves is called again with the same input (the expected hash,
if one is given this time, being the hash of the payload), then with any fuel
the second call returns the same hash with `isNew = false` and no error, the
file tree, the index (objects, unreferenced set, time stamp) and the
total-bytes counter are what the first call left, and the only thing the
second call adds to the trace is the call of the add callback, if one is set:
no directory or file is made and the garbage collector is not triggered. -/
theorem addObject_idempotent (env : Env) (fuel fuel2 : Nat)
    (objSrv objSrv1 : ObjectServer) (reader : List Nat) (length : Nat)
    (expectedHash expectedHash2 : Option Hash) (hashVal : Hash) (isNew : Bool)
    (hfirst : objSrv.addObject env fuel reader length expectedHash
      = .done ((hashVal, isNew, none), objSrv1))
    (hexpected : ∀ e, expectedHash2 = some e → e = hashVal)
    (hfuel2 : 0 < fuel2) :
    ∃ objSrv2,
      objSrv1.addObject env fuel2 reader length expectedHash2
        = .done ((hashVal, false, none), objSrv2) ∧
      objSrv2.files = objSrv1.files ∧
      objSrv2.objects = objSrv1.objects ∧
      objSrv2.unreferenced = objSrv1.unreferenced ∧
      objSrv2.lastMutationTime = objSrv1.lastMutationTime ∧
      objSrv2.totalBytes = objSrv1.totalBytes ∧
      objSrv2.trace = objSrv1.trace ++
        (if objSrv1.addCallback then
          [.addCallback hashVal ((reader.take length).length % 2 ^ 64) false]
        else []) ∧
      Event.gcRun ∉ objSrv2.trace.drop objSrv1.trace.length := by
  obtain ⟨data, s1, hread, hac, hobj⟩ :=
    addObject_ok env fuel objSrv objSrv1 reader length expectedHash hashVal
      isNew hfirst
  obtain ⟨hfile, hset⟩ := addOrCompare_success env fuel objSrv s1 data _ isNew hac
  have hdata : data = reader.take length :=
    (ReadObject_ok env reader length _ _ _ hread).1
  have hbase : objSrv1.BaseDirectory = objSrv.BaseDirectory := by
    rw [hobj]
    exact (sameSettings_trans (afterIndexUpdate_settings s1 hashVal data isNew)
      hset).1
  have hfile1 : objSrv1.files (objSrv1.BaseDirectory ++ env.HashToFilename hashVal)
      = some (.regular data) := by
    rw [hbase, hobj, afterIndexUpdate_files]
    exact hfile
  have hidx : objSrv1.objects hashVal ≠ none := by
    rw [hobj]
    exact afterIndexUpdate_indexed s1 hashVal data isNew
  have hsecond := addObject_eq env fuel2 objSrv1 reader length expectedHash2
    hashVal data (ReadObject_again env reader length _ _ _ _ hread hexpected)
  rw [addOrCompare_same env fuel2 hfuel2 objSrv1 data _ hfile1] at hsecond
  simp only [] at hsecond
  rw [afterIndexUpdate_known objSrv1 hashVal data false hidx] at hsecond
  refine ⟨_, hsecond, ?_⟩
  rw [← hdata]
  cases hcb : objSrv1.addCallback
  · simp
  · simp

/-- The first call on the empty store creates the file; the second call,
with one unit of fuel and the hash given, finds it. -/
theorem addObject_idempotent_witness :
    emptyServer.addObject exampleEnv 3 [1, 2, 3] 3 none
        = .done ((2, true, none), serverWith123) ∧
      ∃ objSrv2,
        serverWith123.addObject exampleEnv 1 [1, 2, 3] 3 (some 2)
          = .done ((2, false, none), objSrv2) ∧
        objSrv2.files = serverWith123.files ∧
        objSrv2.objects = serverWith123.objects ∧
        objSrv2.unreferenced = serverWith123.unreferenced ∧
        objSrv2.lastMutationTime = serverWith123.lastMutationTime ∧
        objSrv2.totalBytes = serverWith123.totalBytes ∧
        objSrv2.trace = serverWith123.trace ++
          (if serverWith123.addCallback then
            [.addCallback 2 (([1, 2, 3] : List Nat).take 3).length false]
          else []) ∧
        Event.gcRun ∉ objSrv2.trace.drop serverWith123.trace.length :=
  ⟨rfl, addObject_idempotent exampleEnv 3 1 emptyServer serverWith123
    [1, 2, 3] 3 none (some 2) 2 true rfl (by simp) (by decide)⟩

/-! ## Collision detection (C2) -/

theorem ReadObject_whole (env : Env) (data : List Nat)
    (expectedHash : Option Hash)
    (h : ∀ e, expectedHash = some e → e = env.hashOf data) :
    ReadObject env data data.length expectedHash
      = (env.hashOf data, data, none) := by
  unfold ReadObject
  rw [if_neg (by omega)]
  simp only [List.take_length]
  cases expectedHash with
  | none => rfl
  | some e =>
    rw [h e rfl]
    simp

theorem compareOutcome_differ (data content : List Nat) (h : content ≠ data) :
    ∃ cause, compareOutcome data content = some (.collisionDetected cause) ∧
      (cause = .lengthMismatch data.length (content.length : Int) ∨
        cause = .contentMismatch) := by
  unfold compareOutcome
  split_ifs with h1
  · exact ⟨_, rfl, Or.inl rfl⟩
  · exact ⟨_, rfl, Or.inr rfl⟩

/-- Claim C2. Collision detection: when a regular file holding `first` is at
the storage path for the hash `H`, and `addObject` is called with a different
payload `second` whose hash is also `H` (the expected hash, if given, being
`H`), then with any fuel it returns `H`, `isNew = false` and a
collision-detected error (a length mismatch or a content mismatch), and the
server afterwards is the server before: index, total-bytes counter and file
tree are unchanged. -/
theorem addObject_collision (env : Env) (fuel : Nat) (objSrv : ObjectServer)
    (H : Hash) (first second : List Nat) (expectedHash : Option Hash)
    (hfile : objSrv.files (objSrv.BaseDirectory ++ env.HashToFilename H)
      = some (.regular first))
    (hne : first ≠ second)
    (hhash : env.hashOf second = H)
    (hexpected : ∀ e, expectedHash = some e → e = H)
    (hfuel : 0 < fuel) :
    ∃ cause,
      objSrv.addObject env fuel second second.length expectedHash
        = .done ((H, false, some (.collisionDetected cause)), objSrv) ∧
      (cause = .lengthMismatch second.length (first.length : Int) ∨
        cause = .contentMismatch) := by
  subst hhash
  obtain ⟨f, rfl⟩ : ∃ f, fuel = f + 1 := ⟨fuel - 1, by omega⟩
  obtain ⟨cause, hc, hor⟩ := compareOutcome_differ second first hne
  refine ⟨cause, ?_, hor⟩
  have hat : attempt env second
      (objSrv.BaseDirectory ++ env.HashToFilename (env.hashOf second))
      (objSrv, objSrv.gc)
      = .done ((false, some (.collisionDetected cause)), (objSrv, objSrv.gc)) := by
    unfold attempt
    rw [addOrCompareOnce_regular env objSrv second _ _ first hfile, hc]
  rw [addObject_eq env (f + 1) objSrv second second.length expectedHash _ second
      (ReadObject_whole env second expectedHash hexpected),
    addOrCompare_eq,
    addOrCompareLoop_stop _ f _ _ _ hat
      (by intro e he; simp at he; subst he; rfl)]
  rfl

/-- The pre-seeded path holds `[1, 1]`; the payload `[2]` has the same digest. -/
theorem addObject_collision_witness :
    ∃ cause,
      seededServer.addObject exampleEnv 1 [2] 1 (some 2)
        = .done ((2, false, some (.collisionDetected cause)), seededServer) ∧
      (cause = .lengthMismatch 1 2 ∨ cause = .contentMismatch) :=
  addObject_collision exampleEnv 1 seededServer 2 [1, 1] [2] (some 2)
    rfl (by decide) rfl (by simp) (by decide)

/-! ## The store invariant (C3) -/

/-- The invariant survives any change of the server that keeps the index,
the base directory and what the existing names of the tree stand for. -/
theorem storeInvariant_of_keeps (env : Env) (a b : ObjectServer)
    (hinv : StoreInvariant env a) (hobj : b.objects = a.objects)
    (hbase : b.BaseDirectory = a.BaseDirectory)
    (hfiles : ∀ q, a.files q ≠ none → b.files q = a.files q) :
    StoreInvariant env b := by
  intro h object hob
  rw [hobj] at hob
  obtain ⟨content, hc, hh, hl⟩ := hinv h object hob
  refine ⟨content, ?_, hh, hl⟩
  rw [hbase, hfiles _ (by rw [hc]; simp), hc]

theorem afterTrigger_invariant (env : Env)
    (hgc : ∀ t, StoreInvariant env t → StoreInvariant env (t.garbageCollector env))
    (s : ObjectServer) (gc : Bool) (hinv : StoreInvariant env s) :
    StoreInvariant env (s.afterTrigger env gc) := by
  unfold ObjectServer.afterTrigger
  cases gc
  · exact hinv
  · exact hgc s hinv

theorem afterMkdirAll_invariant (env : Env)
    (hgc : ∀ t, StoreInvariant env t → StoreInvariant env (t.garbageCollector env))
    (s : ObjectServer) (gc : Bool) (filename : Path)
    (hinv : StoreInvariant env s) :
    StoreInvariant env (s.afterMkdirAll env gc filename) :=
  storeInvariant_of_keeps env (s.afterTrigger env gc) _
    (afterTrigger_invariant env hgc s gc hinv) rfl rfl
    (fun q hq => MkdirAll_keeps _ _ q hq)

theorem afterCopy_invariant (env : Env)
    (hgc : ∀ t, StoreInvariant env t → StoreInvariant env (t.garbageCollector env))
    (s : ObjectServer) (gc : Bool) (data : List Nat) (filename : Path)
    (hinv : StoreInvariant env s) :
    StoreInvariant env (s.afterCopy env gc data filename) :=
  storeInvariant_of_keeps env (s.afterMkdirAll env gc filename) _
    (afterMkdirAll_invariant env hgc s gc filename hinv) rfl rfl
    (fun q hq => CopyToFileExclusive_keeps _ _ _ q hq)

theorem attempt_invariant (env : Env)
    (hgc : ∀ t, StoreInvariant env t → StoreInvariant env (t.garbageCollector env))
    (data : List Nat) (filename : Path)
    (st st1 : ObjectServer × Bool) (o : Bool × Option Err)
    (hinv : StoreInvariant env st.1)
    (h : attempt env data filename st = .done (o, st1)) :
    StoreInvariant env st1.1 := by
  rcases attempt_cases env data filename st with
    ⟨_, _, h1⟩ | ⟨_, _, _, h1⟩ | ⟨_, _, _, h1⟩ | ⟨_, _, _, _, h1⟩ | ⟨_, _, _, h1⟩ <;>
  · rw [h1] at h
    simp only [Run.done.injEq, Prod.mk.injEq] at h
    rw [← h.2]
    first
      | exact hinv
      | exact afterMkdirAll_invariant env hgc _ _ _ hinv
      | exact afterCopy_invariant env hgc _ _ _ _ hinv

theorem addOrCompare_invariant (env : Env)
    (hgc : ∀ t, StoreInvariant env t → StoreInvariant env (t.garbageCollector env))
    (fuel : Nat) (objSrv s1 : ObjectServer) (data : List Nat) (filename : Path)
    (r : Bool × Option Err) (hinv : StoreInvariant env objSrv)
    (h : objSrv.addOrCompare env fuel data filename = .done (r, s1)) :
    StoreInvariant env s1 := by
  obtain ⟨_, _, _, _, _, _, _, hs1⟩ :=
    addOrCompare_last env fuel objSrv s1 data filename r (StoreInvariant env)
      hinv
      (fun a o b ha hab => attempt_invariant env hgc data filename a b o ha hab)
      h
  exact hs1

theorem afterIndexUpdate_invariant (env : Env) (s : ObjectServer)
    (data : List Nat) (isNew : Bool) (hlen : data.length < 2 ^ 64)
    (hinv : StoreInvariant env s)
    (hfile : s.files (s.BaseDirectory ++ env.HashToFilename (env.hashOf data))
      = some (.regular data)) :
    StoreInvariant env (s.afterIndexUpdate (env.hashOf data) data isNew) := by
  have hcb : ∀ t : ObjectServer, StoreInvariant env t →
      StoreInvariant env (t.afterCallback (env.hashOf data) data isNew) := by
    intro t ht
    apply storeInvariant_of_keeps env t _ ht
    · exact (afterCallback_index t _ data isNew).1
    · unfold ObjectServer.afterCallback; split_ifs <;> rfl
    · intro q _
      unfold ObjectServer.afterCallback; split_ifs <;> rfl
  unfold ObjectServer.afterIndexUpdate
  apply hcb
  by_cases hidx : s.objects (env.hashOf data) = none
  · rw [afterLock_new s _ data hidx]
    intro h object hob
    by_cases hh : h = env.hashOf data
    · have : object = ⟨env.hashOf data, data.length % 2 ^ 64⟩ := by
        simp [ObjectServer.add, ObjectServer.addUnreferenced, hh] at hob
        exact hob.symm
      subst this
      exact ⟨data, hfile, rfl, (Nat.mod_eq_of_lt hlen).symm⟩
    · have : s.objects h = some object := by
        simpa [ObjectServer.add, ObjectServer.addUnreferenced, hh] using hob
      exact hinv h object this
  · rw [afterLock_known s _ data hidx]
    exact hinv

/-- Claim C3. The store invariant is preserved by `addObject`: if every indexed
object has a regular file at the path derived from its hash, whose content
hashes to that hash and whose length is the size of the object, then - the
garbage collector being one that preserves this, `length` being a `uint64`
and the fuel allowing two attempts - `addObject` returns, with or without an
error, and the same holds of the server it leaves. The invariant holds of
every server whose index is empty. -/
theorem addObject_preserves_invariant (env : Env) (fuel : Nat)
    (objSrv : ObjectServer) (reader : List Nat) (length : Nat)
    (expectedHash : Option Hash)
    (hgc : ∀ t, StoreInvariant env t → StoreInvariant env (t.garbageCollector env))
    (hlen : length < 2 ^ 64)
    (hinv : StoreInvariant env objSrv)
    (hfuel : 2 ≤ fuel) :
    (∃ r objSrv1,
      objSrv.addObject env fuel reader length expectedHash = .done (r, objSrv1) ∧
      StoreInvariant env objSrv1) ∧
    (∀ s : ObjectServer, (∀ h, s.objects h = none) → StoreInvariant env s) := by
  refine ⟨?_, fun s hs h object hob => by rw [hs h] at hob; simp at hob⟩
  rcases hread : ReadObject env reader length expectedHash with ⟨hv, data, err⟩
  cases err with
  | some e =>
    refine ⟨(hv, false, some e), objSrv, ?_, hinv⟩
    unfold ObjectServer.addObject
    rw [hread]
  | none =>
    obtain ⟨_, hhash, hdlen, _, _⟩ := ReadObject_ok env reader length _ _ _ hread
    rw [addObject_eq env fuel objSrv reader length expectedHash hv data hread]
    obtain ⟨⟨b, err⟩, s1, hac⟩ := addOrCompare_returns env fuel hfuel objSrv data
      (objSrv.BaseDirectory ++ env.HashToFilename hv)
    have hinv1 := addOrCompare_invariant env hgc fuel objSrv s1 data _ _ hinv hac
    rw [hac]
    cases err with
    | some e => exact ⟨_, _, rfl, hinv1⟩
    | none =>
      refine ⟨_, _, rfl, ?_⟩
      obtain ⟨hfile, hset⟩ := addOrCompare_success env fuel objSrv s1 data _ b hac
      subst hhash
      apply afterIndexUpdate_invariant env s1 data b (by omega) hinv1
      rw [hset.1]
      exact hfile

/-- The empty store, the payload `[1, 2, 3]` and a collector that changes
nothing. -/
theorem addObject_preserves_invariant_witness :
    (∃ r objSrv1,
      emptyServer.addObject exampleEnv 2 [1, 2, 3] 3 none = .done (r, objSrv1) ∧
      StoreInvariant exampleEnv objSrv1) ∧
    (∀ s : ObjectServer, (∀ h, s.objects h = none) →
      StoreInvariant exampleEnv s) :=
  addObject_preserves_invariant exampleEnv 2 emptyServer [1, 2, 3] 3 none
    (fun _ ht => ht) (by decide)
    (fun h object hob => by simp [emptyServer] at hob) (by decide)

/-- Two "already exists" failures, then a success: the loop returns the
success of the third attempt and has made three attempts. -/
theorem addOrCompare_returns_first_other_outcome_witness :
    addOrCompareLoop exampleAttempts 5 0 = .done ((true, none), 3) ∧
      addOrCompareLoop exampleAttempts 2 0 = .spin :=
  have h := addOrCompare_returns_first_other_outcome exampleAttempts
    (fun i => i) (fun i => if i < 2 then (false, some .eexist) else (true, none))
    2 5 (fun _ _ => rfl)
    (fun i hi => ⟨.eexist, by simp [hi], rfl⟩)
    (fun e he => by simp at he) (by decide)
  ⟨h.1, h.2.2.2.2 2 (le_refl 2)⟩

/-! ## collisionCheck compares byte for byte (C6) -/

/-- Claim C6. `collisionCheck` on an existing regular file whose reported size
is its length, for every payload and every schedule of read sizes (each read
delivers at least one byte and at most the `buflen = 65536` bytes of the
buffer): it returns - it neither panics on a slice bound nor runs out of the
fuel of the loop - and it returns no error exactly when the bytes of the file
are the payload; when the lengths differ the error is the length mismatch,
and when the lengths agree and the bytes differ it is the content mismatch. -/
theorem collisionCheck_byte_for_byte (fs : FileSystem) (chunks data : List Nat)
    (filename : Path) (content : List Nat)
    (hfile : fs filename = some (.regular content)) :
    (collisionCheck fs chunks data filename (content.length : Int) = .done none
      ↔ content = data) ∧
    (data.length ≠ content.length →
      collisionCheck fs chunks data filename (content.length : Int)
        = .done (some (.lengthMismatch data.length (content.length : Int)))) ∧
    (data.length = content.length → content ≠ data →
      collisionCheck fs chunks data filename (content.length : Int)
        = .done (some .contentMismatch)) ∧
    collisionCheck fs chunks data filename (content.length : Int) ≠ .panic ∧
    collisionCheck fs chunks data filename (content.length : Int) ≠ .spin := by
  rw [collisionCheck_regular fs chunks data filename content hfile]
  by_cases hlen : data.length = content.length
  · by_cases hc : content = data
    · simp [hlen, hc]
    · simp [hlen, hc]
  · have hc : content ≠ data := by
      intro h; apply hlen; rw [h]
    simp [hlen, hc]

/-- A file of four bytes read one byte, then two, then as asked: equal to the
payload `[5, 6, 7, 8]`, different from `[5, 6, 7, 9]` and from `[5, 6]`. -/
theorem collisionCheck_byte_for_byte_witness :
    collisionCheck exampleFiles [1, 2] [5, 6, 7, 8] ["f"] 4 = .done none ∧
      collisionCheck exampleFiles [1, 2] [5, 6, 7, 9] ["f"] 4
        = .done (some .contentMismatch) ∧
      collisionCheck exampleFiles [1, 2] [5, 6] ["f"] 4
        = .done (some (.lengthMismatch 2 4)) :=
  ⟨(collisionCheck_byte_for_byte exampleFiles [1, 2] [5, 6, 7, 8] ["f"]
      [5, 6, 7, 8] rfl).1.mpr rfl,
    (collisionCheck_byte_for_byte exampleFiles [1, 2] [5, 6, 7, 9] ["f"]
      [5, 6, 7, 8] rfl).2.2.1 rfl (by decide),
    (collisionCheck_byte_for_byte exampleFiles [1, 2] [5, 6] ["f"]
      [5, 6, 7, 8] rfl).2.1 (by decide)⟩

/-! ## readResponses (C9) -/

theorem readResponses_all_ok (markers : Nat) :
    ∀ (conn : Conn) (errorChan : ErrorChan),
      (∀ i, i < markers → ∃ reply, conn.replies (conn.decoded + i) = .ok reply) →
      readResponses conn markers errorChan
        = ({ conn with decoded := conn.decoded + markers }, 0,
            ⟨errorChan.buf ++ (List.range markers).map
              (fun i => resultOf (conn.replies (conn.decoded + i))), true⟩) := by
  induction markers with
  | zero =>
    intro conn errorChan _
    simp [readResponses, ErrorChan.close]
  | succ m ih =>
    intro conn errorChan hok
    obtain ⟨reply, hreply⟩ := hok 0 (by omega)
    simp only [Nat.add_zero] at hreply
    rw [readResponses]
    simp only [Conn.Decode, hreply]
    rw [ih]
    · simp only [ErrorChan.send, List.range_succ_eq_map, List.map_cons,
        List.map_map, Nat.add_zero, hreply, resultOf, List.append_assoc,
        List.singleton_append]
      refine Prod.ext ?_ (Prod.ext rfl ?_)
      · show ({ conn with decoded := conn.decoded + 1 + m } : Conn) = _
        rw [Nat.add_assoc, Nat.add_comm 1 m]
      · simp only [ErrorChan.mk.injEq, and_true, List.append_cancel_left_eq,
          List.cons.injEq, true_and]
        apply List.map_congr_left
        intro i _
        simp only [Function.comp, Nat.succ_eq_add_one]
        rw [Nat.add_assoc, Nat.add_comm 1 i]
    · intro i hi
      obtain ⟨r, hr⟩ := hok (i + 1) (by omega)
      refine ⟨r, ?_⟩
      show conn.replies (conn.decoded + 1 + i) = _
      rw [Nat.add_assoc, Nat.add_comm 1 i]
      exact hr

theorem readResponses_failure (p : Nat) :
    ∀ (conn : Conn) (markers : Nat) (errorChan : ErrorChan) (err : Err),
      p < markers →
      (∀ i, i < p → ∃ reply, conn.replies (conn.decoded + i) = .ok reply) →
      conn.replies (conn.decoded + p) = .error err →
      readResponses conn markers errorChan
        = ({ conn with decoded := conn.decoded + (p + 1) }, markers - (p + 1),
            ⟨errorChan.buf ++ (List.range p).map
              (fun i => resultOf (conn.replies (conn.decoded + i)))
              ++ [some err], true⟩) := by
  induction p with
  | zero =>
    intro conn markers errorChan err hp _ herr
    obtain ⟨m, rfl⟩ : ∃ m, markers = m + 1 := ⟨markers - 1, by omega⟩
    simp only [Nat.add_zero] at herr
    rw [readResponses]
    simp only [Conn.Decode, herr]
    simp [ErrorChan.send, ErrorChan.close]
  | succ p ih =>
    intro conn markers errorChan err hp hok herr
    obtain ⟨m, rfl⟩ : ∃ m, markers = m + 1 := ⟨markers - 1, by omega⟩
    obtain ⟨reply, hreply⟩ := hok 0 (by omega)
    simp only [Nat.add_zero] at hreply
    rw [readResponses]
    simp only [Conn.Decode, hreply]
    rw [ih _ m _ err (by omega)]
    · simp only [ErrorChan.send, List.range_succ_eq_map, List.map_cons,
        List.map_map, Nat.add_zero, hreply, resultOf, List.append_assoc,
        List.singleton_append]
      refine Prod.ext ?_ (Prod.ext ?_ ?_)
      · show ({ conn with decoded := conn.decoded + 1 + (p + 1) } : Conn) = _
        rw [Nat.add_assoc, Nat.add_comm 1 (p + 1)]
      · show m - (p + 1) = m + 1 - (p + 1 + 1)
        omega
      · simp only [ErrorChan.mk.injEq, and_true, List.append_cancel_left_eq,
          List.cons.injEq, true_and, List.append_cancel_right_eq]
        apply List.map_congr_left
        intro i _
        simp only [Function.comp, Nat.succ_eq_add_one]
        rw [Nat.add_assoc, Nat.add_comm 1 i]
    · intro i hi
      obtain ⟨r, hr⟩ := hok (i + 1) (by omega)
      refine ⟨r, ?_⟩
      show conn.replies (conn.decoded + 1 + i) = _
      rw [Nat.add_assoc, Nat.add_comm 1 i]
      exact hr
    · show conn.replies (conn.decoded + 1 + p) = _
      rw [Nat.add_assoc, Nat.add_comm 1 p]
      exact herr

theorem delivered_ok (outcome : Except Err AddObjectResponse)
    (h : delivered outcome = true) : ∃ reply, outcome = .ok reply := by
  cases outcome with
  | ok reply => exact ⟨reply, rfl⟩
  | error e => simp [delivered] at h

/-- Claim C9. `readResponses` publishes one result per marker, for every number
of markers, every sequence of decode outcomes and every content of the error
channel. If none of the decodes for the markers fails, it decodes once per
marker, consumes all the markers and publishes, in marker order, the error of
each response (`nil` for an empty error string): as many results as markers.
If the decode for the marker at position `p + 1` is the first to fail, it
publishes the errors of the `p` responses before it and then the transport
error, `p + 1` results in all, has decoded `p + 1` times and leaves the
remaining markers in the queue. The error channel is closed afterwards in
both cases, and nothing is handed to the sending side of the connection. -/
theorem readResponses_publishes_per_marker (conn : Conn) (markers : Nat)
    (errorChan : ErrorChan) :
    ((∀ i, i < markers → delivered (conn.replies (conn.decoded + i)) = true) →
      (readResponses conn markers errorChan).1.decoded = conn.decoded + markers ∧
      (readResponses conn markers errorChan).2.1 = 0 ∧
      (readResponses conn markers errorChan).2.2.buf
        = errorChan.buf ++ (List.range markers).map
            (fun i => resultOf (conn.replies (conn.decoded + i))) ∧
      (readResponses conn markers errorChan).2.2.buf.length
        = errorChan.buf.length + markers ∧
      (readResponses conn markers errorChan).2.2.closed = true ∧
      (readResponses conn markers errorChan).1.sent = conn.sent) ∧
    (∀ p err, p < markers →
      (∀ i, i < p → delivered (conn.replies (conn.decoded + i)) = true) →
      conn.replies (conn.decoded + p) = .error err →
      (readResponses conn markers errorChan).1.decoded = conn.decoded + (p + 1) ∧
      (readResponses conn markers errorChan).2.1 = markers - (p + 1) ∧
      (readResponses conn markers errorChan).2.2.buf
        = errorChan.buf ++ (List.range p).map
            (fun i => resultOf (conn.replies (conn.decoded + i))) ++ [some err] ∧
      (readResponses conn markers errorChan).2.2.buf.length
        = errorChan.buf.length + (p + 1) ∧
      (readResponses conn markers errorChan).2.2.closed = true ∧
      (readResponses conn markers errorChan).1.sent = conn.sent) ∧
    (∀ reply : AddObjectResponse,
      resultOf (.ok reply)
        = if reply.ErrorString = "" then none
          else some (.remote reply.ErrorString)) := by
  refine ⟨?_, ?_, fun reply => rfl⟩
  · intro hok
    rw [readResponses_all_ok markers conn errorChan
      (fun i hi => delivered_ok _ (hok i hi))]
    simp
  · intro p err hp hok herr
    rw [readResponses_failure p conn markers errorChan err hp
      (fun i hi => delivered_ok _ (hok i hi)) herr]
    simp

/-- Three markers on the example connection: three results, the second an
error of the store. Five markers: the fourth decode fails, four results are
published and one marker is left. -/
theorem readResponses_publishes_per_marker_witness :
    ((readResponses exampleConn 3 ⟨[], false⟩).2.2.buf
        = [none, some (.remote "bad"), none] ∧
      (readResponses exampleConn 3 ⟨[], false⟩).2.2.closed = true) ∧
    ((readResponses exampleConn 5 ⟨[], false⟩).2.2.buf
        = [none, some (.remote "bad"), none, some (.transport 5)] ∧
      (readResponses exampleConn 5 ⟨[], false⟩).2.1 = 1 ∧
      (readResponses exampleConn 5 ⟨[], false⟩).1.decoded = 4) :=
  have h := readResponses_publishes_per_marker exampleConn
  ⟨⟨((h 3 ⟨[], false⟩).1 (by decide)).2.2.1,
      ((h 3 ⟨[], false⟩).1 (by decide)).2.2.2.2.1⟩,
    ⟨((h 5 ⟨[], false⟩).2.1 3 (.transport 5) (by decide) (by decide) rfl).2.2.1,
      ((h 5 ⟨[], false⟩).2.1 3 (.transport 5) (by decide) (by decide) rfl).2.1,
      ((h 5 ⟨[], false⟩).2.1 3 (.transport 5) (by decide) (by decide) rfl).1⟩⟩

/-! ## Facts about consumeErrors and addData -/

theorem afterFirstError_length (buf : List (Option Err)) :
    (afterFirstError buf).length ≤ buf.length := by
  induction buf with
  | nil => simp [afterFirstError]
  | cons x rest ih =>
    cases x with
    | none => simp only [afterFirstError, List.length_cons]; omega
    | some e => simp [afterFirstError]

/-- The results taken from the channel by a drain: their errors are the
first error, if there is one. -/
theorem taken_append_afterFirstError (buf : List (Option Err)) :
    ∃ taken, taken ++ afterFirstError buf = buf ∧
      taken.filterMap id = (firstError buf).toList := by
  induction buf with
  | nil => exact ⟨[], rfl, rfl⟩
  | cons x rest ih =>
    obtain ⟨taken, h1, h2⟩ := ih
    cases x with
    | none =>
      refine ⟨none :: taken, ?_, ?_⟩
      · simp [afterFirstError, h1]
      · simpa [firstError] using h2
    | some e =>
      exact ⟨[some e], by simp [afterFirstError], by simp [firstError]⟩

theorem selectErrors_eq (closed : Bool) :
    ∀ (fuel : Nat) (buf : List (Option Err)), buf.length < fuel →
      (firstError buf ≠ none ∨ closed = false) →
      selectErrors fuel ⟨buf, closed⟩
        = .done (firstError buf, ⟨afterFirstError buf, closed⟩) := by
  intro fuel
  induction fuel with
  | zero => intro buf h; omega
  | succ fuel ih =>
    intro buf hlen hcase
    cases buf with
    | nil =>
      have hc : closed = false := by
        rcases hcase with h | h
        · simp [firstError] at h
        · exact h
      subst hc
      simp [selectErrors, ErrorChan.ready, firstError, afterFirstError]
    | cons x rest =>
      cases x with
      | none =>
        simp only [selectErrors, ErrorChan.ready, firstError, afterFirstError]
        simp only [ne_eq, not_true_eq_false, if_false]
        exact ih rest (by simp at hlen; omega)
          (by simpa [firstError] using hcase)
      | some e =>
        simp [selectErrors, ErrorChan.ready, firstError, afterFirstError]

/-- On a closed channel that holds no error the loop of the non-blocking
drain never ends: every receive yields `nil` at once. -/
theorem selectErrors_spin :
    ∀ (fuel : Nat) (buf : List (Option Err)), firstError buf = none →
      selectErrors fuel ⟨buf, true⟩ = .spin := by
  intro fuel
  induction fuel with
  | zero => intro buf _; rfl
  | succ fuel ih =>
    intro buf hnone
    cases buf with
    | nil =>
      simp only [selectErrors, ErrorChan.ready]
      simp only [if_true, ne_eq, not_true_eq_false, if_false]
      exact ih [] rfl
    | cons x rest =>
      cases x with
      | none =>
        simp only [selectErrors, ErrorChan.ready]
        simp only [ne_eq, not_true_eq_false, if_false]
        exact ih rest (by simpa [firstError] using hnone)
      | some e => simp [firstError] at hnone

theorem rangeErrors_eq :
    ∀ (fuel : Nat) (buf : List (Option Err)), buf.length < fuel →
      rangeErrors fuel ⟨buf, true⟩
        = .done (firstError buf, ⟨afterFirstError buf, true⟩) := by
  intro fuel
  induction fuel with
  | zero => intro buf h; omega
  | succ fuel ih =>
    intro buf hlen
    cases buf with
    | nil => simp [rangeErrors, firstError, afterFirstError]
    | cons x rest =>
      cases x with
      | none =>
        simp only [rangeErrors, firstError, afterFirstError]
        simp only [ne_eq, not_true_eq_false, if_false]
        exact ih rest (by simp at hlen; omega)
      | some e => simp [rangeErrors, firstError, afterFirstError]

/-- The method `addData` when the drain finds an error. -/
theorem addData_error (fuel : Nat) (objQ : ObjectAdderQueue) (data : List Nat)
    (hashVal : Hash) (err : Err) (hfuel : objQ.errorChan.buf.length < fuel)
    (herr : firstError objQ.errorChan.buf = some err) :
    objQ.addData fuel data hashVal
      = .done (some err,
          { objQ with
            errorChan :=
              ⟨afterFirstError objQ.errorChan.buf, objQ.errorChan.closed⟩ }) := by
  unfold ObjectAdderQueue.addData ObjectAdderQueue.consumeErrors
  have := selectErrors_eq objQ.errorChan.closed fuel objQ.errorChan.buf hfuel
    (Or.inl (by rw [herr]; simp))
  simp only [Bool.false_eq_true, if_false]
  rw [this, herr]

/-- The method `addData` when the drain finds no error and the channel is open. -/
theorem addData_submit (fuel : Nat) (objQ : ObjectAdderQueue) (data : List Nat)
    (hashVal : Hash) (hfuel : objQ.errorChan.buf.length < fuel)
    (hnone : firstError objQ.errorChan.buf = none)
    (hopen : objQ.errorChan.closed = false) (hsem : objQ.sendSemaphore = 0) :
    objQ.addData fuel data hashVal
      = .done (none,
          ({ objQ with errorChan := ⟨afterFirstError objQ.errorChan.buf, false⟩ }
            : ObjectAdderQueue).submit data hashVal) := by
  unfold ObjectAdderQueue.addData ObjectAdderQueue.consumeErrors
  have := selectErrors_eq objQ.errorChan.closed fuel objQ.errorChan.buf hfuel
    (Or.inr hopen)
  simp only [Bool.false_eq_true, if_false]
  rw [this, hnone, hopen]
  simp only [hsem]
  rw [if_neg (by omega)]
  simp [ObjectAdderQueue.submit, Conn.Encode, Conn.Write, hsem]

/-- The method `addData` when the drain finds no error and the channel is closed. -/
theorem addData_spin (fuel : Nat) (objQ : ObjectAdderQueue) (data : List Nat)
    (hashVal : Hash) (hnone : firstError objQ.errorChan.buf = none)
    (hclosed : objQ.errorChan.closed = true) :
    objQ.addData fuel data hashVal = .spin := by
  unfold ObjectAdderQueue.addData ObjectAdderQueue.consumeErrors
  have := selectErrors_spin fuel objQ.errorChan.buf hnone
  have hch : objQ.errorChan = ⟨objQ.errorChan.buf, true⟩ := by
    rw [← hclosed]
  simp only [Bool.false_eq_true, if_false]
  rw [hch, this]

/-! ## Facts about the results of a session -/

theorem sessionResults_append (replies : Nat → Except Err AddObjectResponse)
    (k : Nat) :
    ∀ (d m : Nat), (∀ i, i < k → delivered (replies (d + i)) = true) →
      sessionResults replies d (k + m)
        = sessionResults replies d k ++ sessionResults replies (d + k) m := by
  induction k with
  | zero => intro d m _; simp [sessionResults]
  | succ k ih =>
    intro d m hok
    have h0 := hok 0 (by omega)
    simp only [Nat.add_zero] at h0
    obtain ⟨reply, hreply⟩ := delivered_ok _ h0
    have hkm : k + 1 + m = (k + m) + 1 := by omega
    rw [hkm]
    simp only [sessionResults, hreply]
    rw [ih (d + 1) m (fun i hi => by
      have := hok (i + 1) (by omega)
      rw [Nat.add_assoc, Nat.add_comm 1 i]; exact this)]
    simp only [List.cons_append, Nat.add_assoc, Nat.add_comm 1 k]

theorem sessionResults_failed (replies : Nat → Except Err AddObjectResponse)
    (d k n : Nat) (hok : ∀ i, i < k → delivered (replies (d + i)) = true)
    (hfail : delivered (replies (d + k)) = false) (hk : k < n) :
    sessionResults replies d n = sessionResults replies d (k + 1) := by
  obtain ⟨m, rfl⟩ : ∃ m, n = k + (m + 1) := ⟨n - k - 1, by omega⟩
  rw [sessionResults_append replies k d (m + 1) hok,
    sessionResults_append replies k d 1 hok]
  congr 1
  cases hr : replies (d + k) with
  | ok reply => rw [hr] at hfail; simp [delivered] at hfail
  | error e => simp [sessionResults, hr]

theorem sessionResults_length (replies : Nat → Except Err AddObjectResponse) :
    ∀ (m d : Nat), (sessionResults replies d m).length ≤ m := by
  intro m
  induction m with
  | zero => intro d; simp [sessionResults]
  | succ m ih =>
    intro d
    simp only [sessionResults]
    cases replies d with
    | ok reply =>
      simp only [List.length_cons]
      have := ih (d + 1)
      omega
    | error e => simp

/-- What `readResponses` leaves depends on the connection only through its
replies and the number of decodes made; it publishes the results of the
session. -/
theorem readResponses_eq (markers : Nat) :
    ∀ (conn : Conn) (errorChan : ErrorChan),
      (readResponses conn markers errorChan).2.2
          = ⟨errorChan.buf ++ sessionResults conn.replies conn.decoded markers,
              true⟩ ∧
        (readResponses conn markers errorChan).1.replies = conn.replies ∧
        (readResponses conn markers errorChan).1.sent = conn.sent ∧
        (readResponses conn markers errorChan).1.encodeErr = conn.encodeErr ∧
        (readResponses conn markers errorChan).1.flushErr = conn.flushErr ∧
        (readResponses conn markers errorChan).1.closeErr = conn.closeErr := by
  induction markers with
  | zero =>
    intro conn errorChan
    simp [readResponses, sessionResults, ErrorChan.close]
  | succ m ih =>
    intro conn errorChan
    rw [readResponses]
    simp only [Conn.Decode, sessionResults]
    cases hr : conn.replies conn.decoded with
    | error e => simp [ErrorChan.send, ErrorChan.close]
    | ok reply =>
      simp only []
      have := ih { conn with decoded := conn.decoded + 1 }
        (errorChan.send (errorsNew reply.ErrorString))
      simp only [ErrorChan.send, List.append_assoc, List.singleton_append] at this
      exact this

theorem firstError_eq_head (results : List (Option Err)) :
    firstError results = (results.filterMap id).head? := by
  induction results with
  | nil => rfl
  | cons x rest ih =>
    cases x with
    | none => simpa [firstError] using ih
    | some e => simp [firstError]

/-- The first error outstanding is the one after those already taken. -/
theorem firstError_outstanding (taken outstanding : List (Option Err)) :
    firstError outstanding
      = ((taken ++ outstanding).filterMap id)[(taken.filterMap id).length]? := by
  rw [firstError_eq_head, List.filterMap_append,
    List.getElem?_append_right (le_refl _)]
  simp [List.head?_eq_getElem?]

/-! ## Facts about sessions -/

theorem sessionResults_one (replies : Nat → Except Err AddObjectResponse)
    (d : Nat) : sessionResults replies d 1 = [resultOf (replies d)] := by
  simp only [sessionResults]
  cases replies d <;> rfl

theorem readerStep_inv (conn0 : Conn) (q : ObjectAdderQueue) (n : Nat)
    (errs : List Err) (h : SessionInv conn0 q n errs) :
    SessionInv conn0 q.readerStep n errs := by
  obtain ⟨h1, h2, h3, h4, h5, h6, taken, k, ht, hk, hcase⟩ := h
  unfold ObjectAdderQueue.readerStep
  rcases hcase with ⟨hopen, hdec, hsum, hbuf⟩ | ⟨hclosed, hlt, hfail, hbuf⟩
  · rw [hopen]
    simp only [Bool.false_eq_true, if_false]
    cases hm : q.getResponseChan with
    | zero =>
      simp only [h6, Bool.false_eq_true, if_false]
      exact ⟨h1, h2, h3, h4, h5, h6, taken, k, ht, hk,
        Or.inl ⟨hopen, hdec, hsum, hbuf⟩⟩
    | succ m =>
      rw [hm] at hsum
      have happ := sessionResults_append conn0.replies k conn0.decoded 1 hk
      rw [sessionResults_one] at happ
      cases hr : conn0.replies (conn0.decoded + k) with
      | ok reply =>
        have hrd : q.conn.replies q.conn.decoded = .ok reply := by
          rw [h1, hdec]; exact hr
        simp only [Conn.Decode, hrd]
        refine ⟨h1, h2, h3, h4, h5, h6, taken, k + 1, ht, ?_, Or.inl ⟨?_, ?_, ?_, ?_⟩⟩
        · intro i hi
          by_cases hik : i < k
          · exact hk i hik
          · have : i = k := by omega
            subst this
            rw [hr]; rfl
        · exact hopen
        · show q.conn.decoded + 1 = conn0.decoded + (k + 1)
          omega
        · show k + 1 + m = n
          omega
        · show taken ++ (q.errorChan.buf ++ [errorsNew reply.ErrorString]) = _
          rw [happ, ← List.append_assoc, hbuf, hr]
          rfl
      | error e =>
        have hrd : q.conn.replies q.conn.decoded = .error e := by
          rw [h1, hdec]; exact hr
        simp only [Conn.Decode, hrd]
        refine ⟨h1, h2, h3, h4, h5, h6, taken, k, ht, hk, Or.inr ⟨rfl, ?_, ?_, ?_⟩⟩
        · omega
        · rw [hr]; rfl
        · show taken ++ (q.errorChan.buf ++ [some e]) = _
          rw [happ, ← List.append_assoc, hbuf, hr]
          rfl
  · rw [hclosed]
    simp only [if_true]
    exact ⟨h1, h2, h3, h4, h5, h6, taken, k, ht, hk,
      Or.inr ⟨hclosed, hlt, hfail, hbuf⟩⟩

theorem selectErrors_done :
    ∀ (fuel : Nat) (buf : List (Option Err)) (closed : Bool)
      (err : Option Err) (ch : ErrorChan),
      selectErrors fuel ⟨buf, closed⟩ = .done (err, ch) →
      err = firstError buf ∧ ch = ⟨afterFirstError buf, closed⟩ ∧
        (err = none → closed = false) := by
  intro fuel
  induction fuel with
  | zero => intro buf closed err ch h; simp [selectErrors] at h
  | succ fuel ih =>
    intro buf closed err ch h
    cases buf with
    | nil =>
      cases closed with
      | false =>
        simp [selectErrors, ErrorChan.ready] at h
        simp [firstError, afterFirstError, h.1.symm, h.2.symm]
      | true =>
        simp only [selectErrors, ErrorChan.ready] at h
        simp only [if_true, ne_eq, not_true_eq_false, if_false] at h
        exact ih [] true err ch h
    | cons x rest =>
      cases x with
      | none =>
        simp only [selectErrors, ErrorChan.ready] at h
        simp only [ne_eq, not_true_eq_false, if_false] at h
        simpa [firstError, afterFirstError] using ih rest closed err ch h
      | some e =>
        simp [selectErrors, ErrorChan.ready] at h
        simp [firstError, afterFirstError, h.1.symm, h.2.symm]

/-- The two ways in which `addData` returns. -/
theorem addData_done (fuel : Nat) (q q1 : ObjectAdderQueue) (data : List Nat)
    (hashVal : Hash) (err : Option Err)
    (h : q.addData fuel data hashVal = .done (err, q1)) :
    (∃ e, err = some e ∧ firstError q.errorChan.buf = some e ∧
      q1 = { q with
        errorChan := ⟨afterFirstError q.errorChan.buf, q.errorChan.closed⟩ }) ∨
    (err = none ∧ firstError q.errorChan.buf = none ∧
      q.errorChan.closed = false ∧ q.sendSemaphore = 0 ∧
      q1 = ({ q with errorChan := ⟨afterFirstError q.errorChan.buf, false⟩ }
        : ObjectAdderQueue).submit data hashVal) := by
  unfold ObjectAdderQueue.addData ObjectAdderQueue.consumeErrors at h
  simp only [Bool.false_eq_true, if_false] at h
  cases hs : selectErrors fuel q.errorChan with
  | panic => rw [hs] at h; simp at h
  | spin => rw [hs] at h; simp at h
  | done res =>
    obtain ⟨e0, ch⟩ := res
    obtain ⟨he, hch, hcl⟩ := selectErrors_done fuel q.errorChan.buf
      q.errorChan.closed e0 ch hs
    rw [hs] at h
    cases e0 with
    | some e =>
      left
      simp only [Run.done.injEq, Prod.mk.injEq] at h
      exact ⟨e, h.1.symm, he.symm, by rw [← h.2, hch]⟩
    | none =>
      right
      have hopen := hcl rfl
      simp only at h
      by_cases hsem : q.sendSemaphore ≥ 1
      · rw [if_pos hsem] at h; simp at h
      · rw [if_neg hsem] at h
        simp only [Run.done.injEq, Prod.mk.injEq] at h
        refine ⟨h.1.symm, he.symm, hopen, by omega, ?_⟩
        rw [← h.2, hch, hopen]
        simp [ObjectAdderQueue.submit, Conn.Encode, Conn.Write]

theorem addData_inv (conn0 : Conn) (fuel : Nat) (q q1 : ObjectAdderQueue)
    (data : List Nat) (hashVal : Hash) (err : Option Err) (n : Nat)
    (errs : List Err) (hinv : SessionInv conn0 q n errs)
    (h : q.addData fuel data hashVal = .done (err, q1)) :
    SessionInv conn0 q1 (n + submissions [reportOf err])
      (errs ++ earlierErrors [reportOf err]) := by
  obtain ⟨h1, h2, h3, h4, h5, h6, taken, k, ht, hk, hcase⟩ := hinv
  obtain ⟨t, ht1, ht2⟩ := taken_append_afterFirstError q.errorChan.buf
  rcases addData_done fuel q q1 data hashVal err h with
    ⟨e, he, hfe, hq1⟩ | ⟨he, hfe, hopen, _, hq1⟩
  · subst he; subst hq1
    rw [hfe] at ht2
    refine ⟨h1, h2, h3, h4, h5, h6, taken ++ t, k, ?_, hk, ?_⟩
    · rw [List.filterMap_append, ht, ht2]
      rfl
    · have hb : taken ++ t ++ afterFirstError q.errorChan.buf
          = taken ++ q.errorChan.buf := by
        rw [List.append_assoc, ht1]
      rcases hcase with ⟨hop, hdec, hsum, hbuf⟩ | ⟨hclosed, hlt, hfail, hbuf⟩
      · exact Or.inl ⟨hop, hdec, by simpa [submissions, reportOf] using hsum,
          hb.trans hbuf⟩
      · exact Or.inr ⟨hclosed, by simpa [submissions, reportOf] using hlt, hfail,
          hb.trans hbuf⟩
  · subst he; subst hq1
    rw [hfe] at ht2
    refine ⟨h1, h2, h3, h4, h5, h6, taken ++ t, k, ?_, hk, ?_⟩
    · rw [List.filterMap_append, ht, ht2]
      rfl
    · have hb : taken ++ t ++ afterFirstError q.errorChan.buf
          = taken ++ q.errorChan.buf := by
        rw [List.append_assoc, ht1]
      rcases hcase with ⟨hop, hdec, hsum, hbuf⟩ | ⟨hclosed, _, _, _⟩
      · refine Or.inl ⟨rfl, hdec, ?_, hb.trans hbuf⟩
        show k + (q.getResponseChan + 1) = n + submissions [reportOf none]
        simp [submissions, reportOf]
        omega
      · rw [hopen] at hclosed; simp at hclosed

theorem submissions_cons (o : Reported) (outs : List Reported) :
    submissions (o :: outs) = submissions [o] + submissions outs := by
  unfold submissions
  by_cases h : o = .submitted
  · simp [List.filter_cons, h]
    omega
  · simp [List.filter_cons, h]

theorem earlierErrors_cons (o : Reported) (outs : List Reported) :
    earlierErrors (o :: outs) = earlierErrors [o] ++ earlierErrors outs := by
  cases o <;> simp [earlierErrors]

theorem add_inv (conn0 : Conn) (hashOf : List Nat → Hash) (fuel : Nat)
    (q q1 : ObjectAdderQueue) (reader : List Nat) (length : Nat)
    (hashVal : Hash) (err : Option Err) (n : Nat) (errs : List Err)
    (hinv : SessionInv conn0 q n errs)
    (h : q.add hashOf fuel reader length = .done ((hashVal, err), q1)) :
    SessionInv conn0 q1
      (n + submissions [match readData reader length with
                        | .error e => Reported.unread e
                        | .ok _ => reportOf err])
      (errs ++ earlierErrors [match readData reader length with
                              | .error e => Reported.unread e
                              | .ok _ => reportOf err]) := by
  unfold ObjectAdderQueue.add at h
  cases hr : readData reader length with
  | error e =>
    rw [hr] at h
    simp only [Run.done.injEq, Prod.mk.injEq] at h
    rw [← h.2]
    simpa [submissions, earlierErrors] using hinv
  | ok data =>
    rw [hr] at h
    simp only at h
    cases ha : q.addData fuel data (hashOf data) with
    | panic => rw [ha] at h; simp at h
    | spin => rw [ha] at h; simp at h
    | done res =>
      obtain ⟨e1, q2⟩ := res
      rw [ha] at h
      simp only [Run.done.injEq, Prod.mk.injEq] at h
      obtain ⟨⟨_, he⟩, hq⟩ := h
      subst he; subst hq
      exact addData_inv conn0 fuel q q2 data (hashOf data) e1 n errs hinv ha

/-- Every session keeps the queue tied to its history. -/
theorem runSession_inv (conn0 : Conn) (hashOf : List Nat → Hash) (fuel : Nat) :
    ∀ (acts : List Action) (q q1 : ObjectAdderQueue) (n : Nat)
      (errs : List Err) (outs : List Reported),
      SessionInv conn0 q n errs →
      runSession hashOf fuel q acts = .done (outs, q1) →
      SessionInv conn0 q1 (n + submissions outs) (errs ++ earlierErrors outs) := by
  intro acts
  induction acts with
  | nil =>
    intro q q1 n errs outs hinv h
    simp only [runSession, Run.done.injEq, Prod.mk.injEq] at h
    rw [← h.1, ← h.2]
    simpa [submissions, earlierErrors] using hinv
  | cons a rest ih =>
    intro q q1 n errs outs hinv h
    cases a with
    | readerStep =>
      simp only [runSession] at h
      exact ih _ q1 n errs outs (readerStep_inv conn0 q n errs hinv) h
    | addData data hashVal =>
      simp only [runSession] at h
      cases ha : q.addData fuel data hashVal with
      | panic => rw [ha] at h; simp at h
      | spin => rw [ha] at h; simp at h
      | done res =>
        obtain ⟨e1, q2⟩ := res
        rw [ha] at h
        simp only at h
        cases hrest : runSession hashOf fuel q2 rest with
        | panic => rw [hrest] at h; simp at h
        | spin => rw [hrest] at h; simp at h
        | done res2 =>
          obtain ⟨outs2, q3⟩ := res2
          rw [hrest] at h
          simp only [Run.done.injEq, Prod.mk.injEq] at h
          rw [← h.1, ← h.2, submissions_cons, earlierErrors_cons,
            ← Nat.add_assoc, ← List.append_assoc]
          exact ih q2 q3 _ _ outs2
            (addData_inv conn0 fuel q q2 data hashVal e1 n errs hinv ha) hrest
    | add reader length =>
      simp only [runSession] at h
      cases ha : q.add hashOf fuel reader length with
      | panic => rw [ha] at h; simp at h
      | spin => rw [ha] at h; simp at h
      | done res =>
        obtain ⟨⟨hv, e1⟩, q2⟩ := res
        rw [ha] at h
        simp only at h
        cases hrest : runSession hashOf fuel q2 rest with
        | panic => rw [hrest] at h; simp at h
        | spin => rw [hrest] at h; simp at h
        | done res2 =>
          obtain ⟨outs2, q3⟩ := res2
          rw [hrest] at h
          simp only [Run.done.injEq, Prod.mk.injEq] at h
          rw [← h.1, ← h.2, submissions_cons, earlierErrors_cons,
            ← Nat.add_assoc, ← List.append_assoc]
          exact ih q2 q3 _ _ outs2
            (add_inv conn0 hashOf fuel q q2 reader length hv e1 n errs hinv ha)
            hrest

theorem outstanding_length (q : ObjectAdderQueue) :
    q.outstanding.length ≤ q.errorChan.buf.length + q.getResponseChan := by
  unfold ObjectAdderQueue.outstanding
  split_ifs
  · omega
  · rw [List.length_append]
    have := sessionResults_length q.conn.replies q.getResponseChan q.conn.decoded
    omega

theorem readerFinish_eq (q : ObjectAdderQueue) :
    q.readerFinish.errorChan = ⟨q.outstanding, true⟩ ∧
      q.readerFinish.conn.closeErr = q.conn.closeErr := by
  unfold ObjectAdderQueue.readerFinish ObjectAdderQueue.outstanding
  cases hc : q.errorChan.closed with
  | true =>
    simp only [if_true, and_true]
    rw [← hc]
  | false =>
    simp only [Bool.false_eq_true, if_false]
    have := readResponses_eq q.getResponseChan q.conn q.errorChan
    exact ⟨this.1, this.2.2.2.2.2⟩

/-- What `close` returns, in terms of the state of the queue: the first of
the error of writing the end-of-session request, the error of the flush, the
first error among the results still outstanding, and the error of closing
the connection. -/
theorem close_eq (fuel : Nat) (q : ObjectAdderQueue)
    (hsem : q.sendSemaphore = 0) (hfuel : q.outstanding.length < fuel) :
    returnedBy (q.close fuel)
      = some (updateError
          (updateError (updateError q.conn.encodeErr q.conn.flushErr)
            (firstError q.outstanding))
          q.conn.closeErr) := by
  unfold ObjectAdderQueue.close
  rw [if_neg (by omega)]
  simp only []
  obtain ⟨hch, hce⟩ := readerFinish_eq
    ({ q with
        sendSemaphore := 1
        conn := ((q.conn.Encode ⟨0, none⟩).2).Flush.2
        getResponseClosed := true } : ObjectAdderQueue)
  have hout : ({ q with
        sendSemaphore := 1
        conn := ((q.conn.Encode ⟨0, none⟩).2).Flush.2
        getResponseClosed := true } : ObjectAdderQueue).outstanding
      = q.outstanding := rfl
  rw [hout] at hch
  unfold ObjectAdderQueue.consumeErrors
  simp only [if_true]
  rw [hch, rangeErrors_eq fuel q.outstanding hfuel]
  simp only [returnedBy, Conn.Close]
  rw [hce]
  rfl

theorem outstanding_of_inv (conn0 : Conn) (q : ObjectAdderQueue) (n : Nat)
    (errs : List Err) (hinv : SessionInv conn0 q n errs) :
    ∃ taken, taken.filterMap id = errs ∧
      taken ++ q.outstanding = sessionResults conn0.replies conn0.decoded n := by
  obtain ⟨h1, _, _, _, _, _, taken, k, ht, hk, hcase⟩ := hinv
  refine ⟨taken, ht, ?_⟩
  unfold ObjectAdderQueue.outstanding
  rcases hcase with ⟨hopen, hdec, hsum, hbuf⟩ | ⟨hclosed, hlt, hfail, hbuf⟩
  · rw [hopen]
    simp only [Bool.false_eq_true, if_false]
    rw [← List.append_assoc, hbuf, h1, hdec, ← hsum,
      sessionResults_append conn0.replies k conn0.decoded _ hk]
  · rw [hclosed]
    simp only [if_true]
    rw [hbuf, sessionResults_failed conn0.replies conn0.decoded k n hk hfail hlt]

/-! ## What close returns (C7) -/

/-- Claim C7, as the code has it. For every session - a new queue on a
connection, then any sequence of calls of `add` and `addData` and turns of
the reader task, all of which return - `close` returns, and what it returns
is the first of: the error of writing the end-of-session request, the error
of the flush, the first error among the results of the submitted objects (in
submission order, a transport failure being the last of them) that no earlier
call of `add` or `addData` has already returned, and the error of closing the
connection; `nil` if there is none. A session without a submission returns
`nil` from `close` when the connection itself reports no error. -/
theorem close_returns_first_unreported_error (hashOf : List Nat → Hash)
    (fuel fuel2 : Nat) (conn : Conn) (q0 q : ObjectAdderQueue)
    (acts : List Action) (outs : List Reported)
    (hnew : newObjectAdderQueue (.ok conn) = .ok q0)
    (hrun : runSession hashOf fuel q0 acts = .done (outs, q))
    (hfuel2 : q.errorChan.buf.length + q.getResponseChan < fuel2) :
    returnedBy (q.close fuel2)
      = some (updateError
          (updateError (updateError conn.encodeErr conn.flushErr)
            (((sessionResults conn.replies conn.decoded
                (submissions outs)).filterMap id)[(earlierErrors outs).length]?))
          conn.closeErr) ∧
    (submissions outs = 0 → conn.encodeErr = none → conn.flushErr = none →
      conn.closeErr = none → returnedBy (q.close fuel2) = some none) := by
  have hq0 : q0 = ⟨conn, 0, false, ⟨[], false⟩, 0⟩ := by
    simp only [newObjectAdderQueue, Except.ok.injEq] at hnew
    exact hnew.symm
  have hinv0 : SessionInv conn q0 0 [] := by
    rw [hq0]
    exact ⟨rfl, rfl, rfl, rfl, rfl, rfl, [], 0, rfl, by intro i hi; omega,
      Or.inl ⟨rfl, rfl, rfl, rfl⟩⟩
  have hinv := runSession_inv conn hashOf fuel acts q0 q 0 [] outs hinv0 hrun
  simp only [Nat.zero_add, List.nil_append] at hinv
  obtain ⟨taken, ht, hout⟩ := outstanding_of_inv conn q _ _ hinv
  obtain ⟨h1, h2, h3, h4, h5, _⟩ := hinv
  have hclose := close_eq fuel2 q h5
    (lt_of_le_of_lt (outstanding_length q) hfuel2)
  rw [h2, h3, h4, firstError_outstanding taken q.outstanding, hout, ht] at hclose
  refine ⟨hclose, ?_⟩
  intro hzero he hf hc
  rw [hclose, hzero, he, hf, hc]
  simp [sessionResults, updateError]

/-- Two objects are submitted before the reader task publishes the error of
the first: `close` returns that error. -/
theorem close_returns_first_unreported_error_witness :
    returnedBy (queueBeforeReport.close 5) = some (some (.remote "bad")) :=
  (close_returns_first_unreported_error (fun d => d.sum) 5 5 badFirstConn
    ⟨badFirstConn, 0, false, ⟨[], false⟩, 0⟩ queueBeforeReport
    unreportedSession [.submitted, .submitted] rfl rfl (by decide)).1

/-- Claim C7, as stated, fails. On a connection where the store answers the
first object with the error "bad", in the session in which that answer is
published before the second call of `addData`: the first object is submitted,
the second call returns the error "bad" (and submits nothing), and `close`
then returns `nil`, although the first error produced by a submitted object
is "bad". -/
theorem close_omits_reported_error :
    runSession (fun d => d.sum) 5 ⟨badFirstConn, 0, false, ⟨[], false⟩, 0⟩
        reportedSession
      = .done ([.submitted, .earlier (.remote "bad")], queueAfterReport) ∧
    returnedBy (queueAfterReport.close 5) = some none ∧
    firstError (sessionResults badFirstConn.replies badFirstConn.decoded
      (submissions [.submitted, .earlier (.remote "bad")]))
      = some (.remote "bad") :=
  ⟨rfl, rfl, rfl⟩

/-! ## addData drains, then submits (C10) -/

/-- The method `addData` on a queue whose error channel is open or holds an error, for
every payload and hash: if the channel holds an error, the first one is
returned, the results after it stay in the channel and nothing is handed to
the connection; otherwise `nil` is returned, one request with
`Length = len(data)` and the given expected hash is handed to the connection,
followed by the bytes of the data, and one marker is queued. -/
theorem addData_drains_then_submits (fuel : Nat) (q : ObjectAdderQueue)
    (data : List Nat) (hashVal : Hash)
    (hfuel : q.errorChan.buf.length < fuel) :
    (∀ err, firstError q.errorChan.buf = some err →
      ∃ q1, q.addData fuel data hashVal = .done (some err, q1) ∧
        q1.errorChan.buf = afterFirstError q.errorChan.buf ∧
        q1.conn.sent = q.conn.sent ∧
        q1.getResponseChan = q.getResponseChan) ∧
    (firstError q.errorChan.buf = none → q.errorChan.closed = false →
      q.sendSemaphore = 0 →
      ∃ q1, q.addData fuel data hashVal = .done (none, q1) ∧
        q1.errorChan.buf = [] ∧
        q1.conn.sent = q.conn.sent ++
          [.encode ⟨data.length % 2 ^ 64, some hashVal⟩, .write data] ∧
        q1.getResponseChan = q.getResponseChan + 1) := by
  constructor
  · intro err herr
    exact ⟨_, addData_error fuel q data hashVal err hfuel herr, rfl, rfl, rfl⟩
  · intro hnone hopen hsem
    refine ⟨_, addData_submit fuel q data hashVal hfuel hnone hopen hsem, ?_,
      rfl, rfl⟩
    obtain ⟨taken, h1, h2⟩ := taken_append_afterFirstError q.errorChan.buf
    show afterFirstError q.errorChan.buf = []
    generalize q.errorChan.buf = buf at hnone
    induction buf with
    | nil => rfl
    | cons x rest ih =>
      cases x with
      | none => exact ih (by simpa [firstError] using hnone)
      | some e => simp [firstError] at hnone

/-- Claim C10, where the code fails it. After a transport failure has been
returned to the caller the error channel is closed and empty; a further call
of `addData` then never returns, whatever the fuel: each receive of the
non-blocking drain yields `nil` at once and the `default` case is never
taken. Nothing is submitted. -/
theorem addData_spins_on_closed_channel :
    runSession (fun d => d.sum) 5 ⟨brokenConn, 0, false, ⟨[], false⟩, 0⟩
        reportedSession
      = .done ([.submitted, .earlier (.transport 5)], queueAfterFailure) ∧
    queueAfterFailure.errorChan = ⟨[], true⟩ ∧
    ∀ fuel, queueAfterFailure.addData fuel [3] 3 = .spin :=
  ⟨rfl, rfl, fun fuel => addData_spin fuel queueAfterFailure [3] 3 rfl rfl⟩

/-! ## The queue as a system of tasks (C8) -/

theorem getElem?_last_task (done : List SendTask) (t u : SendTask) (i : Nat)
    (h : (done ++ [t])[i]? = some u) (hdone : ∀ v ∈ done, v.pc = .finished)
    (hu : u.pc ≠ .finished) : i = done.length ∧ u = t := by
  by_cases hlt : i < done.length
  · rw [List.getElem?_append_left hlt] at h
    exact absurd (hdone u (List.getElem?_mem h)) hu
  · have hge : done.length ≤ i := by omega
    rw [List.getElem?_append_right hge] at h
    by_cases hz : i - done.length = 0
    · rw [hz] at h
      simp at h
      exact ⟨by omega, h.symm⟩
    · obtain ⟨j, hj⟩ : ∃ j, i - done.length = j + 1 :=
        ⟨i - done.length - 1, by omega⟩
      rw [hj] at h
      simp at h

theorem set_last_task (done : List SendTask) (t t1 : SendTask) :
    (done ++ [t]).set done.length t1 = done ++ [t1] := by
  rw [List.set_append_right _ _ (le_refl _)]
  simp

theorem taskStep_none_of_finished (s : Session) (i : Nat)
    (h : ∀ t ∈ s.tasks, t.pc = .finished) : s.taskStep i = none := by
  unfold Session.taskStep
  cases ht : s.tasks[i]? with
  | none => rfl
  | some t =>
    have := h t (List.getElem?_mem ht)
    simp [this]

theorem range_getElem?_some (k i m : Nat) (h : (List.range k)[i]? = some m) :
    m = i := by
  rw [List.getElem?_eq_some_iff] at h
  obtain ⟨hi, hm⟩ := h
  simp at hm
  exact hm.symm

theorem reader_ordered (s s1 : Session) (h : SessionOrdered s)
    (hs : s.step .reader = some s1) : SessionOrdered s1 := by
  obtain ⟨hc, hd, hcase⟩ := h
  simp only [Session.step] at hs
  cases hm : s.markers[s.consumed]? with
  | none => rw [hm] at hs; simp at hs
  | some m =>
    rw [hm] at hs
    simp only [Option.some.injEq] at hs
    subst hs
    have hlt : s.consumed < s.markers.length := by
      rw [List.getElem?_eq_some_iff] at hm
      exact hm.1
    have hrange : ∃ k, s.markers = List.range k := by
      rcases hcase with ⟨_, _, _, _, h5⟩ | ⟨_, _, _, _, h5⟩ |
        ⟨_, _, _, _, _, _, _, _, h5⟩ <;> exact ⟨_, h5⟩
    obtain ⟨k, hk⟩ := hrange
    have hmeq : m = s.consumed := by
      rw [hk] at hm
      exact range_getElem?_some k _ m hm
    refine ⟨hlt, ?_, hcase⟩
    show s.decodedFor ++ [m] = List.range (s.consumed + 1)
    rw [hd, hmeq, List.range_succ]

theorem task_ordered (s s1 : Session) (i : Nat) (h : SessionOrdered s)
    (hs : s.step (.task i) = some s1) : SessionOrdered s1 := by
  obtain ⟨hc, hd, hcase⟩ := h
  simp only [Session.step] at hs
  rcases hcase with ⟨_, _, hfin, _, _⟩ | ⟨_, _, hfin, _, _⟩ |
    ⟨hsem, hcl, done, t, htasks, hdone, hact, hwire, hmark⟩
  · rw [taskStep_none_of_finished s i hfin] at hs; simp at hs
  · rw [taskStep_none_of_finished s i hfin] at hs; simp at hs
  · unfold Session.taskStep at hs
    cases hu : s.tasks[i]? with
    | none => rw [hu] at hs; simp at hs
    | some u =>
      rw [hu] at hs
      simp only at hs
      have hupc : u.pc ≠ .finished := by
        intro hfin
        rw [hfin] at hs
        simp at hs
      rw [htasks] at hu
      obtain ⟨hi, hut⟩ := getElem?_last_task done t u i hu hdone hupc
      subst hut; subst hi
      cases hpc : u.pc with
      | encode =>
        rw [hpc] at hs
        simp only [Option.some.injEq] at hs
        subst hs
        refine ⟨hc, hd, Or.inr (Or.inr ⟨hsem, hcl, done, { u with pc := .write },
          ?_, hdone, by simp, ?_, ?_⟩)⟩
        · show s.tasks.set done.length _ = _
          rw [htasks, set_last_task]
        · show s.wire ++ _ = _
          rw [hwire]
          simp [SendTask.emitted, hpc]
        · show s.markers = _
          rw [hmark]
          simp [hpc]
      | write =>
        rw [hpc] at hs
        simp only [Option.some.injEq] at hs
        subst hs
        refine ⟨hc, hd, Or.inr (Or.inr ⟨hsem, hcl, done, { u with pc := .marker },
          ?_, hdone, by simp, ?_, ?_⟩)⟩
        · show s.tasks.set done.length _ = _
          rw [htasks, set_last_task]
        · show s.wire ++ _ = _
          rw [hwire]
          simp [SendTask.emitted, hpc]
        · show s.markers = _
          rw [hmark]
          simp [hpc]
      | marker =>
        rw [hpc] at hs
        simp only [Option.some.injEq] at hs
        subst hs
        refine ⟨?_, hd, Or.inr (Or.inr ⟨hsem, hcl, done, { u with pc := .release },
          ?_, hdone, by simp, ?_, ?_⟩)⟩
        · show s.consumed ≤ (s.markers ++ [done.length]).length
          rw [List.length_append]
          omega
        · show s.tasks.set done.length _ = _
          rw [htasks, set_last_task]
        · show s.wire = _
          rw [hwire]
          simp [SendTask.emitted, hpc]
        · show s.markers ++ [done.length] = _
          rw [hmark]
          simp [hpc, List.range_succ]
      | release =>
        rw [hpc] at hs
        simp only [hsem] at hs
        simp only [Nat.succ_ne_zero, if_false, Option.some.injEq] at hs
        subst hs
        refine ⟨hc, hd, Or.inl ⟨rfl, hcl, ?_, ?_, ?_⟩⟩
        · show ∀ v ∈ s.tasks.set done.length _, v.pc = .finished
          rw [htasks, set_last_task]
          intro v hv
          rw [List.mem_append] at hv
          rcases hv with hv | hv
          · exact hdone v hv
          · simp at hv
            rw [hv]
        · show s.wire = (s.tasks.set done.length _).flatMap _
          rw [htasks, set_last_task, hwire]
          simp [SendTask.emitted, hpc]
        · show s.markers = List.range (s.tasks.set done.length _).length
          rw [hmark]
          simp [hpc, htasks]
      | finished => exact absurd hpc hupc

theorem step_ordered (s s1 : Session) (m : Move) (h : SessionOrdered s)
    (hs : s.step m = some s1) : SessionOrdered s1 := by
  cases m with
  | reader => exact reader_ordered s s1 h hs
  | task i => exact task_ordered s s1 i h hs
  | submit data hashVal =>
    obtain ⟨hc, hd, hcase⟩ := h
    simp only [Session.step] at hs
    by_cases hsem : s.sem ≥ 1
    · rw [if_pos hsem] at hs; simp at hs
    · rw [if_neg hsem] at hs
      simp only [Option.some.injEq] at hs
      subst hs
      rcases hcase with ⟨h0, hcl, hfin, hwire, hmark⟩ | ⟨h1, _⟩ | ⟨h1, _⟩
      · refine ⟨hc, hd, Or.inr (Or.inr ⟨?_, hcl, s.tasks,
          ⟨data, hashVal, .encode⟩, rfl, hfin, by simp, ?_, ?_⟩)⟩
        · show s.sem + 1 = 1
          omega
        · show s.wire = _
          rw [hwire]
          simp [SendTask.emitted]
        · show s.markers = _
          rw [hmark]
          simp
      · omega
      · omega
  | close =>
    obtain ⟨hc, hd, hcase⟩ := h
    simp only [Session.step] at hs
    by_cases hsem : s.sem ≥ 1
    · rw [if_pos hsem] at hs; simp at hs
    · rw [if_neg hsem] at hs
      simp only [Option.some.injEq] at hs
      subst hs
      rcases hcase with ⟨h0, hcl, hfin, hwire, hmark⟩ | ⟨h1, _⟩ | ⟨h1, _⟩
      · refine ⟨hc, hd, Or.inr (Or.inl ⟨?_, rfl, hfin, ?_, hmark⟩)⟩
        · show s.sem + 1 = 1
          omega
        · show s.wire ++ _ = _
          rw [hwire]
      · omega
      · omega

theorem run_ordered :
    ∀ (moves : List Move) (s s1 : Session), SessionOrdered s →
      s.run moves = some s1 → SessionOrdered s1 := by
  intro moves
  induction moves with
  | nil =>
    intro s s1 h hs
    simp only [Session.run, Option.some.injEq] at hs
    rw [← hs]; exact h
  | cons m rest ih =>
    intro s s1 h hs
    simp only [Session.run] at hs
    cases hm : s.step m with
    | none => rw [hm] at hs; simp at hs
    | some s2 =>
      rw [hm] at hs
      exact ih s2 s1 (step_ordered s s2 m h hm) hs

theorem init_ordered : SessionOrdered Session.init :=
  ⟨le_refl _, rfl, Or.inl ⟨rfl, rfl, by simp [Session.init], rfl, rfl⟩⟩

theorem filter_active_finished (tasks : List SendTask)
    (h : ∀ t ∈ tasks, t.pc = .finished) : tasks.filter SendTask.active = [] := by
  rw [List.filter_eq_nil_iff]
  intro t ht
  simp [SendTask.active, h t ht]

/-- Claim C8. Wire ordering under the single-slot admission gate. In every
state a session can reach, under every schedule of the caller, the send
tasks and the reader task: the semaphore holds at most one token and at most
one send task is between taking it and giving it back; every send task but
the one started last has finished; what has been handed to the connection is,
task by task in the order of submission, the request of the task followed at
once by its payload (for the task that is writing, what it has written so
far), followed by the end-of-session request if `close` has been called, and
then no send task is writing; the markers are queued in the order of
submission, one per task at most; and the reader task has decoded for the
markers in that order, so that its `i`-th decode is for submission `i`. -/
theorem wire_order_under_admission_gate (moves : List Move) (s : Session)
    (hrun : Session.init.run moves = some s) :
    s.sem ≤ 1 ∧
    (s.tasks.filter SendTask.active).length ≤ 1 ∧
    (∀ i t, s.tasks[i]? = some t → i + 1 < s.tasks.length → t.pc = .finished) ∧
    s.wire = s.tasks.flatMap SendTask.emitted ++
      (if s.closed then [.encode ⟨0, none⟩, .flush] else []) ∧
    (s.closed = true → ∀ t ∈ s.tasks, t.pc = .finished) ∧
    s.markers = List.range s.markers.length ∧
    s.markers.length ≤ s.tasks.length ∧
    s.decodedFor = List.range s.consumed ∧
    s.consumed ≤ s.markers.length := by
  obtain ⟨hc, hd, hcase⟩ := run_ordered moves Session.init s init_ordered hrun
  rcases hcase with ⟨hsem, hcl, hfin, hwire, hmark⟩ |
    ⟨hsem, hcl, hfin, hwire, hmark⟩ |
    ⟨hsem, hcl, done, t, htasks, hdone, hact, hwire, hmark⟩
  · refine ⟨by omega, ?_, ?_, ?_, ?_, ?_, ?_, hd, hc⟩
    · rw [filter_active_finished _ hfin]; simp
    · intro i t ht _
      exact hfin t (List.getElem?_mem ht)
    · rw [hwire, hcl]; simp
    · intro _; exact hfin
    · rw [hmark]; simp
    · rw [hmark]; simp
  · refine ⟨by omega, ?_, ?_, ?_, ?_, ?_, ?_, hd, hc⟩
    · rw [filter_active_finished _ hfin]; simp
    · intro i t ht _
      exact hfin t (List.getElem?_mem ht)
    · rw [hwire, hcl]; simp
    · intro _; exact hfin
    · rw [hmark]; simp
    · rw [hmark]; simp
  · refine ⟨by omega, ?_, ?_, ?_, ?_, ?_, ?_, hd, hc⟩
    · rw [htasks, List.filter_append, filter_active_finished _ hdone]
      simp [List.filter_cons]
      split <;> simp
    · intro i u hu hi
      rw [htasks] at hu hi
      by_contra hne
      have := (getElem?_last_task done t u i hu hdone hne).1
      simp at hi
      omega
    · rw [hwire, hcl, htasks]; simp
    · intro h; rw [hcl] at h; simp at h
    · rw [hmark]; simp
    · rw [hmark, htasks]
      simp
      split <;> omega

/-- The example schedule: the second send task is writing while the reader
task has decoded the response to the first; the wire holds the first request
and payload, then the second. -/
theorem wire_order_under_admission_gate_witness :
    Session.init.run exampleSchedule = some exampleSession ∧
    (exampleSession.tasks.filter SendTask.active).length ≤ 1 ∧
    exampleSession.wire
      = [.encode ⟨1, some 1⟩, .write [1], .encode ⟨2, some 5⟩, .write [2, 3]] ∧
    exampleSession.markers = [0] ∧ exampleSession.decodedFor = [0] :=
  have h := wire_order_under_admission_gate exampleSchedule exampleSession rfl
  ⟨rfl, h.2.1, h.2.2.2.1, h.2.2.2.2.2.1, h.2.2.2.2.2.2.2.1⟩

/-! ## The error drain of addData (C11) -/

/-- The non-blocking drain returns whenever the error channel is open or
holds an error: with fuel for one receive more than the channel holds, it
returns the first error (`nil` if there is none) and leaves in the channel
what came after it, so that it takes only results that were there. -/
theorem consumeErrors_returns_unless_closed (fuel : Nat) (q : ObjectAdderQueue)
    (hfuel : q.errorChan.buf.length < fuel)
    (hcase : firstError q.errorChan.buf ≠ none ∨ q.errorChan.closed = false) :
    q.consumeErrors fuel false
        = .done (firstError q.errorChan.buf,
            { q with
              errorChan :=
                ⟨afterFirstError q.errorChan.buf, q.errorChan.closed⟩ }) ∧
      ∃ taken, taken ++ afterFirstError q.errorChan.buf = q.errorChan.buf := by
  refine ⟨?_, ?_⟩
  · unfold ObjectAdderQueue.consumeErrors
    simp only [Bool.false_eq_true, if_false]
    rw [selectErrors_eq q.errorChan.closed fuel q.errorChan.buf hfuel hcase]
  · obtain ⟨taken, h, _⟩ := taken_append_afterFirstError q.errorChan.buf
    exact ⟨taken, h⟩

/-- The non-blocking drain on a closed error channel that holds no error
does not return, whatever the fuel. -/
theorem consumeErrors_spin (fuel : Nat) (q : ObjectAdderQueue)
    (hnone : firstError q.errorChan.buf = none)
    (hclosed : q.errorChan.closed = true) :
    q.consumeErrors fuel false = .spin := by
  unfold ObjectAdderQueue.consumeErrors
  have hch : q.errorChan = ⟨q.errorChan.buf, true⟩ := by
    rw [← hclosed]
  simp only [Bool.false_eq_true, if_false]
  rw [hch, selectErrors_spin fuel q.errorChan.buf hnone]

/-- Claim C11, where the code fails it. In two states of the error channel
that the claim names, `consumeErrors(false)` never returns, whatever the
fuel: after the reader task has closed the channel at a transport failure
and that failure has been taken from it (the channel is closed and empty),
and after `close` at the end of a session (the channel is closed and holds a
`nil` result). In both the receive of the `select` is always ready and
yields `nil`, so that the `default` case is never taken. -/
theorem consumeErrors_spins_on_closed_channel :
    (queueAfterFailure.errorChan = ⟨[], true⟩ ∧
      ∀ fuel, queueAfterFailure.consumeErrors fuel false = .spin) ∧
    (queueAfterClose.errorChan = ⟨[none], true⟩ ∧
      ∀ fuel, queueAfterClose.consumeErrors fuel false = .spin) :=
  ⟨⟨rfl, fun fuel => consumeErrors_spin fuel queueAfterFailure rfl rfl⟩,
    ⟨rfl, fun fuel => consumeErrors_spin fuel queueAfterClose rfl rfl⟩⟩

/-! ## The trigger of the garbage collector (C12) -/

theorem afterTrigger_trace (env : Env) (s : ObjectServer) (gc : Bool) :
    (s.afterTrigger env gc).trace = s.trace ++ triggered gc := by
  unfold ObjectServer.afterTrigger triggered
  cases gc
  · simp
  · rfl

theorem afterMkdirAll_trace (env : Env) (s : ObjectServer) (gc : Bool)
    (filename : Path) :
    (s.afterMkdirAll env gc filename).trace
      = s.trace ++ triggered gc ++ [.mkdirAll (Dir filename)] := by
  rw [← afterTrigger_trace env s gc]
  rfl

theorem afterCopy_trace (env : Env) (s : ObjectServer) (gc : Bool)
    (data : List Nat) (filename : Path) :
    (s.afterCopy env gc data filename).trace
      = s.trace ++ triggered gc
          ++ [.mkdirAll (Dir filename), .copyToFileExclusive filename] := by
  have : (s.afterCopy env gc data filename).trace
      = (s.afterMkdirAll env gc filename).trace
          ++ [.copyToFileExclusive filename] := rfl
  rw [this, afterMkdirAll_trace]
  simp

/-- What one attempt adds to the trace: nothing when the name is taken;
otherwise the run of the collector, if the caller's handle is set, and after
it the calls that create the directory and the file; the caller's handle is
cleared. -/
theorem attempt_trace (env : Env) (data : List Nat) (filename : Path)
    (st st1 : ObjectServer × Bool) (o : Bool × Option Err)
    (h : attempt env data filename st = .done (o, st1)) :
    (st.1.files filename ≠ none ∧ st1 = st) ∨
    (st.1.files filename = none ∧ st1.2 = false ∧
      ∃ tail, tail ≠ [] ∧ Event.gcRun ∉ tail ∧
        st1.1.trace = st.1.trace ++ triggered st.2 ++ tail) := by
  rcases attempt_cases env data filename st with
    ⟨c, hf, h1⟩ | ⟨n, hf, _, h1⟩ | ⟨_, hf, _, h1⟩ | ⟨_, hf, _, _, h1⟩ |
    ⟨hf, _, _, h1⟩
  · rw [h1] at h
    simp only [Run.done.injEq, Prod.mk.injEq] at h
    exact Or.inl ⟨by rw [hf]; simp, h.2.symm⟩
  · rw [h1] at h
    simp only [Run.done.injEq, Prod.mk.injEq] at h
    exact Or.inl ⟨by rw [hf]; simp, h.2.symm⟩
  · rw [h1] at h
    simp only [Run.done.injEq, Prod.mk.injEq] at h
    rw [← h.2]
    exact Or.inr ⟨hf, rfl, [.mkdirAll (Dir filename)], by simp, by simp,
      afterMkdirAll_trace env st.1 st.2 filename⟩
  · rw [h1] at h
    simp only [Run.done.injEq, Prod.mk.injEq] at h
    rw [← h.2]
    exact Or.inr ⟨hf, rfl, _, by simp, by simp,
      afterCopy_trace env st.1 st.2 data filename⟩
  · rw [h1] at h
    simp only [Run.done.injEq, Prod.mk.injEq] at h
    rw [← h.2]
    exact Or.inr ⟨hf, rfl, _, by simp, by simp,
      afterCopy_trace env st.1 st.2 data filename⟩

/-- A call of `addOrCompare` that finds nothing under the name adds to the
trace the run of the collector, if the handle of the store is set, and after
it only calls that create directories and files. -/
theorem addOrCompare_absent_trace (env : Env) (fuel : Nat)
    (objSrv s1 : ObjectServer) (data : List Nat) (filename : Path)
    (r : Bool × Option Err) (habs : objSrv.files filename = none)
    (h : objSrv.addOrCompare env fuel data filename = .done (r, s1)) :
    ∃ tail, tail ≠ [] ∧ Event.gcRun ∉ tail ∧
      s1.trace = objSrv.trace ++ triggered objSrv.gc ++ tail := by
  rw [addOrCompare_eq] at h
  cases hl : addOrCompareLoop (attempt env data filename) fuel
      (objSrv, objSrv.gc) with
  | panic => rw [hl] at h; simp at h
  | spin => rw [hl] at h; simp at h
  | done res =>
    obtain ⟨r1, stf⟩ := res
    rw [hl] at h
    simp only [Run.done.injEq, Prod.mk.injEq] at h
    obtain ⟨_, hs⟩ := h
    let Q : ObjectServer × Bool → Prop := fun st =>
      st.2 = false ∧ ∃ tail, tail ≠ [] ∧ Event.gcRun ∉ tail ∧
        st.1.trace = objSrv.trace ++ triggered objSrv.gc ++ tail
    have hQstep : ∀ a o b, Q a → attempt env data filename a = .done (o, b) →
        Q b := by
      intro a o b ha hab
      rcases attempt_trace env data filename a b o hab with
        ⟨_, hb⟩ | ⟨_, hb2, tail2, _, hg2, ht2⟩
      · rw [hb]; exact ha
      · obtain ⟨ha2, tail, hne, hg, ht⟩ := ha
        refine ⟨hb2, tail ++ tail2, by simp [hne], ?_, ?_⟩
        · simp [hg, hg2]
        · rw [ht2, ht, ha2]
          simp [triggered]
    have hstep : ∀ a o b, (a = (objSrv, objSrv.gc) ∨ Q a) →
        attempt env data filename a = .done (o, b) →
        (b = (objSrv, objSrv.gc) ∨ Q b) := by
      intro a o b ha hab
      rcases ha with ha | ha
      · subst ha
        rcases attempt_trace env data filename _ b o hab with
          ⟨hp, _⟩ | ⟨_, hb2, tail2, hne2, hg2, ht2⟩
        · exact absurd habs hp
        · exact Or.inr ⟨hb2, tail2, hne2, hg2, ht2⟩
      · exact Or.inr (hQstep a o b ha hab)
    obtain ⟨st0, o, hP0, hat, _, _⟩ :=
      addOrCompareLoop_last (attempt env data filename)
        (fun st => st = (objSrv, objSrv.gc) ∨ Q st) hstep fuel
        (objSrv, objSrv.gc) r1 stf (Or.inl rfl) hl
    have hfin : Q stf := by
      rcases hP0 with h0 | h0
      · subst h0
        rcases attempt_trace env data filename _ stf o hat with
          ⟨hp, _⟩ | ⟨_, hb2, tail2, hne2, hg2, ht2⟩
        · exact absurd habs hp
        · exact ⟨hb2, tail2, hne2, hg2, ht2⟩
      · exact hQstep st0 o stf h0 hat
    obtain ⟨_, tail, hne, hg, ht⟩ := hfin
    rw [← hs]
    exact ⟨tail, hne, hg, ht⟩

/-- A call of `addOrCompare` that finds the name taken changes nothing. -/
theorem addOrCompare_present_same (env : Env) (fuel : Nat)
    (objSrv s1 : ObjectServer) (data : List Nat) (filename : Path)
    (r : Bool × Option Err) (hpres : objSrv.files filename ≠ none)
    (h : objSrv.addOrCompare env fuel data filename = .done (r, s1)) :
    s1 = objSrv := by
  rw [addOrCompare_eq] at h
  cases fuel with
  | zero => simp [addOrCompareLoop] at h
  | succ f =>
    obtain ⟨o, hat, _, hno⟩ := attempt_present env data filename
      (objSrv, objSrv.gc) hpres
    rw [addOrCompareLoop_stop _ f _ _ _ hat hno] at h
    simp only [Run.done.injEq, Prod.mk.injEq] at h
    exact h.2.symm

theorem gcRunsOver_cleared (env : Env) (data : List Nat) (filename : Path) :
    ∀ states : List ObjectServer,
      gcRunsOver env data filename false states = 0 := by
  intro states
  induction states with
  | nil => rfl
  | cons s rest ih =>
    unfold gcRunsOver
    cases hat : s.addOrCompareOnce env data filename false with
    | panic => rfl
    | spin => rfl
    | done res =>
      obtain ⟨o, s1, gc1⟩ := res
      simp only
      rcases attempt_trace env data filename (s, false) (s1, gc1) o hat with
        ⟨_, heq⟩ | ⟨_, hgc, tail, _, hg, ht⟩
      · simp only [Prod.mk.injEq] at heq
        rw [heq.1, heq.2, ih]
        simp
      · simp only at hgc ht
        have hc : tail.count .gcRun = 0 := List.count_eq_zero_of_not_mem hg
        rw [hgc, ih, ht]
        simp [triggered, hc]

theorem gcRunsOver_le_one (env : Env) (data : List Nat) (filename : Path) :
    ∀ (states : List ObjectServer) (gc : Bool),
      gcRunsOver env data filename gc states ≤ 1 := by
  intro states
  induction states with
  | nil => intro gc; simp [gcRunsOver]
  | cons s rest ih =>
    intro gc
    unfold gcRunsOver
    cases hat : s.addOrCompareOnce env data filename gc with
    | panic => simp
    | spin => simp
    | done res =>
      obtain ⟨o, s1, gc1⟩ := res
      simp only
      rcases attempt_trace env data filename (s, gc) (s1, gc1) o hat with
        ⟨_, heq⟩ | ⟨_, hgc, tail, _, hg, ht⟩
      · simp only [Prod.mk.injEq] at heq
        rw [heq.1, heq.2]
        simpa using ih gc
      · simp only at hgc ht
        have hc : tail.count .gcRun = 0 := List.count_eq_zero_of_not_mem hg
        rw [hgc, gcRunsOver_cleared, ht]
        cases gc <;> simp [triggered, hc]

/-- Claim C12. At most one trigger of the garbage collector per add. For
every call of `addOrCompare` that returns: what the call adds to the trace
holds at most one run of the collector, and if it holds one then the handle
of the store is set, the call found nothing under the target path, and the
run comes first, before every call that creates a directory or the file;
the handle of the store is what it was. Attempt by attempt: an attempt runs
the collector exactly when the caller's copy of the handle is set and the
attempt finds nothing under the path, the run comes before what the attempt
does to create the file, and the copy is cleared by such an attempt and left
alone by the others; hence over any sequence of attempts of one call,
whatever happens to the store between them, the collector runs at most once,
and never once the copy is cleared. A later call on the server the first
one left runs the collector again when the handle is set and it finds
nothing under its path. -/
theorem garbageCollector_at_most_once_per_add (env : Env) (fuel : Nat)
    (objSrv s1 : ObjectServer) (data : List Nat) (filename : Path)
    (r : Bool × Option Err)
    (h : objSrv.addOrCompare env fuel data filename = .done (r, s1)) :
    (∃ added, s1.trace = objSrv.trace ++ added ∧
      added.count .gcRun ≤ 1 ∧
      (Event.gcRun ∈ added →
        objSrv.gc = true ∧ objSrv.files filename = none ∧
          added.head? = some .gcRun)) ∧
    s1.gc = objSrv.gc ∧
    (∀ (s s2 : ObjectServer) (gc gc2 : Bool) (o : Bool × Option Err),
      s.addOrCompareOnce env data filename gc = .done (o, s2, gc2) →
      ∃ tail, Event.gcRun ∉ tail ∧
        s2.trace = s.trace ++
          (if gc = true ∧ s.files filename = none then [.gcRun] else []) ++ tail ∧
        gc2 = (if s.files filename = none then false else gc)) ∧
    (∀ (gc : Bool) (states : List ObjectServer),
      gcRunsOver env data filename gc states ≤ 1 ∧
        (gc = false → gcRunsOver env data filename gc states = 0)) ∧
    (objSrv.gc = true →
      ∀ (fuel2 : Nat) (data2 : List Nat) (filename2 : Path)
        (r2 : Bool × Option Err) (s2 : ObjectServer),
        s1.files filename2 = none →
        s1.addOrCompare env fuel2 data2 filename2 = .done (r2, s2) →
        ∃ rest, s2.trace = s1.trace ++ .gcRun :: rest) := by
  have hgc : s1.gc = objSrv.gc := by
    obtain ⟨_, _, _, _, _, _, _, hset⟩ :=
      addOrCompare_last env fuel objSrv s1 data filename r
        (fun t => SameSettings t objSrv) ⟨rfl, rfl, rfl, rfl⟩
        (fun a o b ha hab =>
          sameSettings_trans (attempt_settings env data filename a b o hab) ha)
        h
    exact hset.2.1
  refine ⟨?_, hgc, ?_, ?_, ?_⟩
  · by_cases habs : objSrv.files filename = none
    · obtain ⟨tail, _, hg, ht⟩ :=
        addOrCompare_absent_trace env fuel objSrv s1 data filename r habs h
      have hc : tail.count .gcRun = 0 := List.count_eq_zero_of_not_mem hg
      refine ⟨triggered objSrv.gc ++ tail, by rw [ht, List.append_assoc], ?_, ?_⟩
      · cases objSrv.gc <;> simp [triggered, hc]
      · intro hmem
        cases hset : objSrv.gc with
        | false =>
          rw [hset] at hmem
          simp [triggered] at hmem
          exact absurd hmem hg
        | true => exact ⟨rfl, habs, by simp [triggered]⟩
    · have := addOrCompare_present_same env fuel objSrv s1 data filename r habs h
      subst this
      exact ⟨[], by simp, by simp, by simp⟩
  · intro s s2 gc gc2 o hat
    rcases attempt_trace env data filename (s, gc) (s2, gc2) o hat with
      ⟨hp, heq⟩ | ⟨ha, hgc2, tail, _, hg, ht⟩
    · simp only [Prod.mk.injEq] at heq
      simp only at hp
      refine ⟨[], by simp, ?_, ?_⟩
      · rw [heq.1]; simp [hp]
      · rw [heq.2]; simp [hp]
    · simp only at ha hgc2 ht
      refine ⟨tail, hg, ?_, ?_⟩
      · rw [ht]
        cases gc <;> simp [triggered, ha]
      · rw [hgc2]; simp [ha]
  · intro gc states
    refine ⟨gcRunsOver_le_one env data filename states gc, ?_⟩
    intro hfalse
    rw [hfalse]
    exact gcRunsOver_cleared env data filename states
  · intro hset fuel2 data2 filename2 r2 s2 habs h2
    obtain ⟨tail, _, _, ht⟩ :=
      addOrCompare_absent_trace env fuel2 s1 s2 data2 filename2 r2 habs h2
    refine ⟨tail, ?_⟩
    rw [ht, hgc, hset]
    simp [triggered]

/-- The empty store in the racing environment: the first attempt runs the
collector, which takes the name, so that the creation fails with "already
exists"; the second attempt finds the file and does not run the collector
again. One run in the trace, at its head; the handle of the store is still
set. -/
theorem garbageCollector_at_most_once_per_add_witness :
    emptyServer.addOrCompare racingEnv 2 [1, 2, 3] ["base", "objects", "2"]
        = .done ((false, none), serverAfterRace) ∧
      serverAfterRace.trace
        = [.gcRun, .mkdirAll ["base", "objects"],
            .copyToFileExclusive ["base", "objects", "2"]] ∧
      serverAfterRace.gc = emptyServer.gc ∧
      gcRunsOver racingEnv [1, 2, 3] ["base", "objects", "2"] true
        [emptyServer, emptyServer, emptyServer] ≤ 1 :=
  have h := garbageCollector_at_most_once_per_add racingEnv 2 emptyServer
    serverAfterRace [1, 2, 3] ["base", "objects", "2"] (false, none) rfl
  ⟨rfl, rfl, h.2.1, (h.2.2.2.1 true [emptyServer, emptyServer, emptyServer]).1⟩

/-! ## Facts about Split and Fields -/

theorem Split_ne_nil (s : List Nat) (sep : Nat) : Split s sep ≠ [] := by
  induction s with
  | nil => simp [Split]
  | cons b rest ih =>
    unfold Split
    split_ifs
    · simp
    · cases h : Split rest sep with
      | nil => exact absurd h ih
      | cons f fs => simp

theorem Split_without (s : List Nat) (sep : Nat) (h : sep ∉ s) :
    Split s sep = [s] := by
  induction s with
  | nil => rfl
  | cons b rest ih =>
    have hb : b ≠ sep := by
      intro hb; apply h; rw [hb]; simp
    have hrest : sep ∉ rest := by
      intro hr; apply h; simp [hr]
    unfold Split
    rw [if_neg hb, ih hrest]

theorem Split_append (n v : List Nat) (sep : Nat) (h : sep ∉ n) :
    Split (n ++ sep :: v) sep = n :: Split v sep := by
  induction n with
  | nil => simp [Split]
  | cons b rest ih =>
    have hb : b ≠ sep := by
      intro hb; apply h; rw [hb]; simp
    have hrest : sep ∉ rest := by
      intro hr; apply h; simp [hr]
    rw [List.cons_append, Split, if_neg hb, ih hrest]

theorem Split_one (s : List Nat) (sep : Nat) :
    ∀ v, Split s sep = [v] → s = v ∧ sep ∉ v := by
  induction s with
  | nil =>
    intro v h
    simp [Split] at h
    subst h
    simp
  | cons b rest ih =>
    intro v h
    unfold Split at h
    by_cases hb : b = sep
    · rw [if_pos hb] at h
      simp only [List.cons.injEq] at h
      exact absurd h.2 (Split_ne_nil rest sep)
    · rw [if_neg hb] at h
      cases hs : Split rest sep with
      | nil => exact absurd hs (Split_ne_nil rest sep)
      | cons f fs =>
        rw [hs] at h
        simp only [List.cons.injEq] at h
        obtain ⟨hv, hfs⟩ := h
        subst hfs
        obtain ⟨h1, h2⟩ := ih f hs
        subst hv; subst h1
        refine ⟨rfl, ?_⟩
        intro hmem
        rcases List.mem_cons.mp hmem with h3 | h3
        · exact hb h3.symm
        · exact h2 h3

theorem Split_two (s : List Nat) (sep : Nat) :
    ∀ n v, Split s sep = [n, v] → s = n ++ sep :: v ∧ sep ∉ n ∧ sep ∉ v := by
  induction s with
  | nil =>
    intro n v h
    simp [Split] at h
  | cons b rest ih =>
    intro n v h
    unfold Split at h
    by_cases hb : b = sep
    · rw [if_pos hb] at h
      simp only [List.cons.injEq] at h
      obtain ⟨hn, hrest⟩ := h
      obtain ⟨h1, h2⟩ := Split_one rest sep v hrest
      subst hn; subst h1; subst hb
      exact ⟨rfl, by simp, h2⟩
    · rw [if_neg hb] at h
      cases hs : Split rest sep with
      | nil => exact absurd hs (Split_ne_nil rest sep)
      | cons f fs =>
        rw [hs] at h
        simp only [List.cons.injEq] at h
        obtain ⟨hn, hfs⟩ := h
        subst hfs
        obtain ⟨h1, h2, h3⟩ := ih f v hs
        subst hn; subst h1
        refine ⟨rfl, ?_, h3⟩
        intro hmem
        rcases List.mem_cons.mp hmem with h4 | h4
        · exact hb h4.symm
        · exact h2 h4

/-- An argument passes the test of `getVariableFromBytes` exactly when it is
the name, one byte `=` and a value, with no other byte `=`. -/
theorem tuple_iff (arg name : List Nat) :
    ((Split arg 61).length = 2 ∧ (Split arg 61).getD 0 [] = name)
      ↔ ∃ value, arg = name ++ 61 :: value ∧ 61 ∉ name ∧ 61 ∉ value := by
  constructor
  · rintro ⟨hlen, hname⟩
    match hs : Split arg 61, hlen, hname with
    | [n, v], _, hname =>
      simp at hname
      subst hname
      exact ⟨v, Split_two arg 61 n v hs⟩
  · rintro ⟨value, harg, hn, hv⟩
    rw [harg, Split_append name value 61 hn, Split_without value 61 hv]
    simp

theorem getVariableFromArgs_none (name : List Nat) (args : List (List Nat))
    (h : ∀ a ∈ args, ¬ ∃ value, a = name ++ 61 :: value ∧ 61 ∉ name ∧ 61 ∉ value) :
    getVariableFromArgs name args = none := by
  induction args with
  | nil => rfl
  | cons a rest ih =>
    have hrest := ih (fun x hx => h x (List.mem_cons_of_mem a hx))
    have ha := h a (List.mem_cons_self a rest)
    rw [← tuple_iff] at ha
    unfold getVariableFromArgs
    simp only []
    by_cases hlen : (Split a 61).length = 2
    · rw [if_pos hlen]
      have hne : ¬ (Split a 61).getD 0 [] = name := fun hn => ha ⟨hlen, hn⟩
      rw [if_neg hne]
      exact hrest
    · rw [if_neg hlen]
      exact hrest

theorem getVariableFromArgs_first (name value arg : List Nat)
    (pre post : List (List Nat)) (harg : arg = name ++ 61 :: value)
    (hname : 61 ∉ name) (hvalue : 61 ∉ value)
    (hpre : ∀ a ∈ pre,
      ¬ ∃ v, a = name ++ 61 :: v ∧ 61 ∉ name ∧ 61 ∉ v) :
    getVariableFromArgs name (pre ++ arg :: post) = some value := by
  induction pre with
  | nil =>
    simp only [List.nil_append]
    unfold getVariableFromArgs
    rw [harg, Split_append name value 61 hname, Split_without value 61 hvalue]
    simp
  | cons a rest ih =>
    have hrest := ih (fun x hx => hpre x (List.mem_cons_of_mem a hx))
    have ha := hpre a (List.mem_cons_self a rest)
    rw [← tuple_iff] at ha
    simp only [List.cons_append]
    unfold getVariableFromArgs
    simp only []
    by_cases hlen : (Split a 61).length = 2
    · rw [if_pos hlen]
      have hne : ¬ (Split a 61).getD 0 [] = name := fun hn => ha ⟨hlen, hn⟩
      rw [if_neg hne]
      exact hrest
    · rw [if_neg hlen]
      exact hrest

theorem fieldsASCII_arg (arg : List Nat) (h : ∀ b ∈ arg, asciiSpace b = false) :
    ∀ (rest cur : List Nat),
      fieldsASCII (arg ++ rest) cur = fieldsASCII rest (cur ++ arg) := by
  induction arg with
  | nil => intro rest cur; simp
  | cons b tail ih =>
    intro rest cur
    have hb := h b (List.mem_cons_self b tail)
    rw [List.cons_append, fieldsASCII]
    simp only [hb, Bool.false_eq_true, if_false]
    rw [ih (fun x hx => h x (List.mem_cons_of_mem b hx))]
    simp

/-- The ASCII path of `bytes.Fields` gives back the arguments of a byte
string made of arguments separated by white space. -/
theorem fieldsASCII_separated (data : List Nat) (args : List (List Nat))
    (h : Separated data args) : fieldsASCII data [] = args := by
  induction h with
  | nil => rfl
  | space sp data args hsp _ ih =>
    unfold fieldsASCII
    simp only [hsp, if_true]
    rw [ih]
    rfl
  | last arg hne hns =>
    have := fieldsASCII_arg arg hns [] []
    simp only [List.append_nil, List.nil_append] at this
    rw [this]
    simp [fieldsASCII, closeField, hne]
  | arg arg sp data args hne hns hsp _ ih =>
    rw [fieldsASCII_arg arg hns (sp :: data) []]
    simp only [List.nil_append]
    unfold fieldsASCII
    simp only [hsp, if_true]
    rw [ih]
    simp [closeField, hne]

theorem Fields_separated (data : List Nat) (args : List (List Nat))
    (h : Separated data args) (hascii : ∀ b ∈ data, b < 0x80) :
    Fields data = args := by
  unfold Fields
  have : data.all (fun b => decide (b < 0x80)) = true := by
    rw [List.all_eq_true]
    intro b hb
    simpa using hascii b hb
  rw [if_pos this]
  exact fieldsASCII_separated data args h

/-! ## getVariableFromBytes finds name=value tuples (C13) -/

/-- An argument that does not begin with the name and a byte `=` is not the
name, a byte `=` and a value. -/
theorem not_tuple_of_take (a name : List Nat)
    (h : a.take (name.length + 1) ≠ name ++ [61]) :
    ∀ v, a ≠ name ++ 61 :: v := by
  intro v hav
  apply h
  rw [hav]
  have : name ++ 61 :: v = (name ++ [61]) ++ v := by simp
  rw [this, List.take_left' (by simp)]

/-- Claim C13, as the code has it. For every byte string and every name,
the arguments being the fields `bytes.Fields` finds in the byte string: if
some argument is the name, one byte `=` and a value, with no byte `=` in the
name or in the value, then `getVariableFromBytes` returns the value of the
first such argument; if no argument is of that form it returns `nil`, and so
it does for every name that holds a byte `=`. On a byte string without a
byte above 127 that is made of arguments separated by white space, the
fields are those arguments. -/
theorem getVariableFromBytes_finds_tuple (data name : List Nat) :
    (∀ (pre post : List (List Nat)) (arg value : List Nat),
      Fields data = pre ++ arg :: post →
      arg = name ++ 61 :: value → 61 ∉ name → 61 ∉ value →
      (∀ a ∈ pre, ∀ v, 61 ∉ v → a ≠ name ++ 61 :: v) →
      getVariableFromBytes data name = some value) ∧
    ((∀ a ∈ Fields data, ∀ v, 61 ∉ v → a ≠ name ++ 61 :: v) →
      getVariableFromBytes data name = none) ∧
    (61 ∈ name → getVariableFromBytes data name = none) ∧
    (∀ args, Separated data args → (∀ b ∈ data, b < 0x80) →
      Fields data = args) := by
  refine ⟨?_, ?_, ?_, ?_⟩
  · intro pre post arg value hfields harg hname hvalue hpre
    unfold getVariableFromBytes
    rw [hfields]
    apply getVariableFromArgs_first name value arg pre post harg hname hvalue
    rintro a ha ⟨v, hav, _, hv⟩
    exact hpre a ha v hv hav
  · intro hnone
    unfold getVariableFromBytes
    apply getVariableFromArgs_none
    rintro a ha ⟨v, hav, _, hv⟩
    exact hnone a ha v hv hav
  · intro hname
    unfold getVariableFromBytes
    apply getVariableFromArgs_none
    rintro a _ ⟨v, _, hn, _⟩
    exact hn hname
  · intro args hsep hascii
    exact Fields_separated data args hsep hascii

/-- The command line `  a=1 hostname=box<TAB>b=2 `: its arguments are `a=1`,
`hostname=box` and `b=2`, the value of `hostname` is `box`, and there is no
value for `host`. -/
theorem getVariableFromBytes_finds_tuple_witness :
    Fields exampleCmdline
        = [bytesOf "a=1", bytesOf "hostname=box", bytesOf "b=2"] ∧
      getVariableFromBytes exampleCmdline (bytesOf "hostname")
        = some (bytesOf "box") ∧
      getVariableFromBytes exampleCmdline (bytesOf "host") = none :=
  ⟨rfl,
    (getVariableFromBytes_finds_tuple exampleCmdline (bytesOf "hostname")).1
      [bytesOf "a=1"] [bytesOf "b=2"] (bytesOf "hostname=box") (bytesOf "box")
      rfl rfl (by decide) (by decide)
      (by
        intro a ha v _
        simp only [List.mem_singleton] at ha
        subst ha
        exact not_tuple_of_take _ _ (by decide) v),
    (getVariableFromBytes_finds_tuple exampleCmdline (bytesOf "host")).2.1
      (by
        intro a ha v _
        have hmem : a ∈ [bytesOf "a=1", bytesOf "hostname=box", bytesOf "b=2"] :=
          ha
        simp only [List.mem_cons, List.mem_singleton, List.not_mem_nil,
          or_false] at hmem
        rcases hmem with h | h | h <;> subst h <;>
          exact not_tuple_of_take _ _ (by decide) v)⟩

/-- Claim C13, as stated, fails. The byte string `root=UUID=1` is one
argument, it is the name `root`, a byte `=` and the value `UUID=1`, and
`getVariableFromBytes` returns `nil` for the name `root`: the argument
splits into three fields at `=`, not two. -/
theorem getVariableFromBytes_skips_value_with_equals :
    Fields rootArg = [rootArg] ∧
      rootArg = bytesOf "root" ++ 61 :: bytesOf "UUID=1" ∧
      getVariableFromBytes rootArg (bytesOf "root") = none ∧
      Split rootArg 61 = [bytesOf "root", bytesOf "UUID", bytesOf "1"] :=
  ⟨rfl, rfl, rfl, rfl⟩

/-! ## The index update (C5) -/

theorem sameIndex_trans {a b c : ObjectServer} (h1 : SameIndex a b)
    (h2 : SameIndex b c) : SameIndex a c :=
  ⟨h1.1.trans h2.1, h1.2.1.trans h2.2.1, h1.2.2.1.trans h2.2.2.1,
    h1.2.2.2.trans h2.2.2.2⟩

/-- What one attempt does to the index: nothing if the name is taken;
otherwise the index is the one the trigger of the collector leaves, and the
caller's handle is cleared. -/
theorem attempt_index (env : Env) (data : List Nat) (filename : Path)
    (st st1 : ObjectServer × Bool) (o : Bool × Option Err)
    (h : attempt env data filename st = .done (o, st1)) :
    (st.1.files filename ≠ none ∧ st1 = st) ∨
    (st.1.files filename = none ∧ st1.2 = false ∧
      SameIndex st1.1 (st.1.afterTrigger env st.2)) := by
  rcases attempt_cases env data filename st with
    ⟨c, hf, h1⟩ | ⟨n, hf, _, h1⟩ | ⟨_, hf, _, h1⟩ | ⟨_, hf, _, _, h1⟩ |
    ⟨hf, _, _, h1⟩
  · rw [h1] at h
    simp only [Run.done.injEq, Prod.mk.injEq] at h
    exact Or.inl ⟨by rw [hf]; simp, h.2.symm⟩
  · rw [h1] at h
    simp only [Run.done.injEq, Prod.mk.injEq] at h
    exact Or.inl ⟨by rw [hf]; simp, h.2.symm⟩
  · rw [h1] at h
    simp only [Run.done.injEq, Prod.mk.injEq] at h
    rw [← h.2]
    exact Or.inr ⟨hf, rfl, rfl, rfl, rfl, rfl⟩
  · rw [h1] at h
    simp only [Run.done.injEq, Prod.mk.injEq] at h
    rw [← h.2]
    exact Or.inr ⟨hf, rfl, rfl, rfl, rfl, rfl⟩
  · rw [h1] at h
    simp only [Run.done.injEq, Prod.mk.injEq] at h
    rw [← h.2]
    exact Or.inr ⟨hf, rfl, rfl, rfl, rfl, rfl⟩

/-- A call of `addOrCompare` that finds nothing under the name leaves the
index as the trigger of the collector left it, whatever the collector does
and however many attempts are made. -/
theorem addOrCompare_absent_index (env : Env) (fuel : Nat)
    (objSrv s1 : ObjectServer) (data : List Nat) (filename : Path)
    (r : Bool × Option Err) (habs : objSrv.files filename = none)
    (h : objSrv.addOrCompare env fuel data filename = .done (r, s1)) :
    SameIndex s1 (objSrv.afterTrigger env objSrv.gc) := by
  rw [addOrCompare_eq] at h
  cases hl : addOrCompareLoop (attempt env data filename) fuel
      (objSrv, objSrv.gc) with
  | panic => rw [hl] at h; simp at h
  | spin => rw [hl] at h; simp at h
  | done res =>
    obtain ⟨r1, stf⟩ := res
    rw [hl] at h
    simp only [Run.done.injEq, Prod.mk.injEq] at h
    obtain ⟨_, hs⟩ := h
    let Q : ObjectServer × Bool → Prop := fun st =>
      st.2 = false ∧ SameIndex st.1 (objSrv.afterTrigger env objSrv.gc)
    have hQstep : ∀ a o b, Q a → attempt env data filename a = .done (o, b) →
        Q b := by
      intro a o b ha hab
      rcases attempt_index env data filename a b o hab with
        ⟨_, hb⟩ | ⟨_, hb2, hidx⟩
      · rw [hb]; exact ha
      · obtain ⟨ha2, haidx⟩ := ha
        rw [ha2] at hidx
        exact ⟨hb2, sameIndex_trans hidx haidx⟩
    have hstep : ∀ a o b, (a = (objSrv, objSrv.gc) ∨ Q a) →
        attempt env data filename a = .done (o, b) →
        (b = (objSrv, objSrv.gc) ∨ Q b) := by
      intro a o b ha hab
      rcases ha with ha | ha
      · subst ha
        rcases attempt_index env data filename _ b o hab with
          ⟨hp, _⟩ | ⟨_, hb2, hidx⟩
        · exact absurd habs hp
        · exact Or.inr ⟨hb2, hidx⟩
      · exact Or.inr (hQstep a o b ha hab)
    obtain ⟨st0, o, hP0, hat, _, _⟩ :=
      addOrCompareLoop_last (attempt env data filename)
        (fun st => st = (objSrv, objSrv.gc) ∨ Q st) hstep fuel
        (objSrv, objSrv.gc) r1 stf (Or.inl rfl) hl
    have hfin : Q stf := by
      rcases hP0 with h0 | h0
      · subst h0
        rcases attempt_index env data filename _ stf o hat with
          ⟨hp, _⟩ | ⟨_, hb2, hidx⟩
        · exact absurd habs hp
        · exact ⟨hb2, hidx⟩
      · exact hQstep st0 o stf h0 hat
    rw [← hs]
    exact hfin.2

theorem afterCollector_absent (env : Env) (objSrv : ObjectServer)
    (hashVal : Hash)
    (habs : objSrv.files (objSrv.BaseDirectory ++ env.HashToFilename hashVal)
      = none) :
    objSrv.afterCollector env hashVal = objSrv.afterTrigger env objSrv.gc := by
  unfold ObjectServer.afterCollector
  rw [habs]
  rfl

theorem afterCollector_present (env : Env) (objSrv : ObjectServer)
    (hashVal : Hash)
    (hpres : objSrv.files (objSrv.BaseDirectory ++ env.HashToFilename hashVal)
      ≠ none) :
    objSrv.afterCollector env hashVal = objSrv := by
  unfold ObjectServer.afterCollector
  cases h1 : objSrv.files (objSrv.BaseDirectory ++ env.HashToFilename hashVal) with
  | none => exact absurd h1 hpres
  | some _ => rfl

/-- A call of `addOrCompare` for the name of a hash leaves the index as the
collector left it, if this call triggered it, and as it was otherwise. -/
theorem addOrCompare_index (env : Env) (fuel : Nat)
    (objSrv s1 : ObjectServer) (data : List Nat) (hashVal : Hash)
    (r : Bool × Option Err)
    (h : objSrv.addOrCompare env fuel data
      (objSrv.BaseDirectory ++ env.HashToFilename hashVal) = .done (r, s1)) :
    SameIndex s1 (objSrv.afterCollector env hashVal) := by
  by_cases habs :
      objSrv.files (objSrv.BaseDirectory ++ env.HashToFilename hashVal) = none
  · rw [afterCollector_absent env objSrv hashVal habs]
    exact addOrCompare_absent_index env fuel objSrv s1 data _ r habs h
  · rw [afterCollector_present env objSrv hashVal habs,
      addOrCompare_present_same env fuel objSrv s1 data _ r habs h]
    exact ⟨rfl, rfl, rfl, rfl⟩

/-- Claim C5, as the code has it. The index update of a successful
`addObject`, for every garbage collector (`length` being a `uint64`), is
measured from the server as the collector left it: the collector runs inside
the call, before the file is created, exactly when the handle of the store is
set and nothing is found under the name of the object, and otherwise that
server is the one before the call. If the hash is not indexed there, then
after the call the index maps it to an object of that hash whose size is the
payload length, the object is marked unreferenced, the time stamp is the
current time and the total-bytes counter is the one found there plus the
payload length modulo `2 ^ 64` - whatever `isNew` is; if the hash is indexed
there, the index, the unreferenced set, the time stamp and the counter are as
they are there; the entries and marks of all other hashes are as they are
there in both cases. -/
theorem addObject_index_update (env : Env) (fuel : Nat)
    (objSrv objSrv1 : ObjectServer) (reader : List Nat) (length : Nat)
    (expectedHash : Option Hash) (hashVal : Hash) (isNew : Bool)
    (hlen : length < 2 ^ 64)
    (hok : objSrv.addObject env fuel reader length expectedHash
      = .done ((hashVal, isNew, none), objSrv1)) :
    ((objSrv.afterCollector env hashVal).objects hashVal = none →
      objSrv1.objects hashVal = some ⟨hashVal, length⟩ ∧
      objSrv1.unreferenced hashVal = true ∧
      objSrv1.lastMutationTime = objSrv.now ∧
      objSrv1.totalBytes
        = ((objSrv.afterCollector env hashVal).totalBytes + length) % 2 ^ 64) ∧
    ((objSrv.afterCollector env hashVal).objects hashVal ≠ none →
      SameIndex objSrv1 (objSrv.afterCollector env hashVal)) ∧
    (∀ h, h ≠ hashVal →
      objSrv1.objects h = (objSrv.afterCollector env hashVal).objects h ∧
      objSrv1.unreferenced h
        = (objSrv.afterCollector env hashVal).unreferenced h) ∧
    (objSrv.gc = true →
      objSrv.files (objSrv.BaseDirectory ++ env.HashToFilename hashVal) = none →
      objSrv.afterCollector env hashVal = objSrv.garbageCollector env) ∧
    (objSrv.gc = false ∨
      objSrv.files (objSrv.BaseDirectory ++ env.HashToFilename hashVal) ≠ none →
      objSrv.afterCollector env hashVal = objSrv) := by
  obtain ⟨data, s1, hread, hac, hobj⟩ :=
    addObject_ok env fuel objSrv objSrv1 reader length expectedHash hashVal
      isNew hok
  obtain ⟨_, _, hdlen, _, _⟩ := ReadObject_ok env reader length _ _ _ hread
  have hidx := addOrCompare_index env fuel objSrv s1 data hashVal _ hac
  obtain ⟨_, _, _, _, _, _, _, hset⟩ :=
    addOrCompare_last env fuel objSrv s1 data _ (isNew, none)
      (fun t => SameSettings t objSrv) ⟨rfl, rfl, rfl, rfl⟩
      (fun a o b ha hab =>
        sameSettings_trans (attempt_settings env data _ a b o hab) ha)
      hac
  have hcb := afterCallback_index (s1.afterLock hashVal data) hashVal data isNew
  have hsize : data.length % 2 ^ 64 = length := by
    rw [hdlen]; exact Nat.mod_eq_of_lt hlen
  have hobj1 : SameIndex objSrv1 (s1.afterLock hashVal data) := by
    rw [hobj]; exact hcb
  refine ⟨?_, ?_, ?_, ?_, ?_⟩
  · intro hnone
    have hnone1 : s1.objects hashVal = none := by rw [hidx.1]; exact hnone
    rw [afterLock_new s1 hashVal data hnone1, hsize] at hobj1
    obtain ⟨h1, h2, h3, h4⟩ := hobj1
    rw [h1, h2, h3, h4]
    refine ⟨?_, ?_, ?_, ?_⟩
    · simp [ObjectServer.add, ObjectServer.addUnreferenced]
    · simp [ObjectServer.add, ObjectServer.addUnreferenced]
    · show s1.now = objSrv.now
      exact hset.2.2.2
    · show (s1.totalBytes + length) % 2 ^ 64 = _
      rw [hidx.2.2.2]
  · intro hsome
    have hsome1 : s1.objects hashVal ≠ none := by rw [hidx.1]; exact hsome
    rw [afterLock_known s1 hashVal data hsome1] at hobj1
    exact sameIndex_trans hobj1 hidx
  · intro h hne
    by_cases hnone1 : s1.objects hashVal = none
    · rw [afterLock_new s1 hashVal data hnone1] at hobj1
      obtain ⟨h1, h2, _, _⟩ := hobj1
      rw [h1, h2, ← hidx.1, ← hidx.2.1]
      constructor
      · simp [ObjectServer.add, ObjectServer.addUnreferenced, hne]
      · simp [ObjectServer.add, ObjectServer.addUnreferenced, hne]
    · rw [afterLock_known s1 hashVal data hnone1] at hobj1
      obtain ⟨h1, h2, _, _⟩ := sameIndex_trans hobj1 hidx
      rw [h1, h2]
      exact ⟨rfl, rfl⟩
  · intro hgc habs
    rw [afterCollector_absent env objSrv hashVal habs]
    unfold ObjectServer.afterTrigger
    rw [hgc]
    rfl
  · intro hno
    rcases hno with hgc | hpres
    · by_cases habs :
          objSrv.files (objSrv.BaseDirectory ++ env.HashToFilename hashVal) = none
      · rw [afterCollector_absent env objSrv hashVal habs]
        unfold ObjectServer.afterTrigger
        rw [hgc]
        rfl
      · exact afterCollector_present env objSrv hashVal habs
    · exact afterCollector_present env objSrv hashVal hpres

/-- The index update happens when the call creates the file (the empty
store), when the file is already there (the seeded store, where the collector
does not run), and after a collector that has deleted the one object of the
store: the byte count is then counted from the 0 the collector left. -/
theorem addObject_index_update_witness :
    (emptyServer.addObject exampleEnv 3 [1, 2, 3] 3 none
        = .done ((2, true, none), serverWith123) ∧
      serverWith123.objects 2 = some ⟨2, 3⟩ ∧
      serverWith123.unreferenced 2 = true ∧
      serverWith123.lastMutationTime = emptyServer.now ∧
      serverWith123.totalBytes = (emptyServer.totalBytes + 3) % 2 ^ 64) ∧
    (seededServer.addObject exampleEnv 3 [1, 1] 2 none
        = .done ((2, false, none), serverWithSeed) ∧
      serverWithSeed.objects 2 = some ⟨2, 2⟩ ∧
      serverWithSeed.unreferenced 2 = true ∧
      serverWithSeed.lastMutationTime = seededServer.now ∧
      serverWithSeed.totalBytes = (seededServer.totalBytes + 2) % 2 ^ 64) ∧
    (stockedServer.addObject collectingEnv 2 [1, 2, 3] 3 none
        = .done ((2, true, none), serverAfterCollection) ∧
      (stockedServer.afterCollector collectingEnv 2).totalBytes = 0 ∧
      serverAfterCollection.objects 2 = some ⟨2, 3⟩ ∧
      serverAfterCollection.unreferenced 2 = true ∧
      serverAfterCollection.lastMutationTime = stockedServer.now ∧
      serverAfterCollection.totalBytes = (0 + 3) % 2 ^ 64 ∧
      serverAfterCollection.objects 1
        = (stockedServer.garbageCollector collectingEnv).objects 1) :=
  ⟨⟨rfl, (addObject_index_update exampleEnv 3 emptyServer serverWith123
      [1, 2, 3] 3 none 2 true (by decide) rfl).1 rfl⟩,
    ⟨rfl, (addObject_index_update exampleEnv 3 seededServer serverWithSeed
      [1, 1] 2 none 2 false (by decide) rfl).1 rfl⟩,
    ⟨rfl, rfl,
      ((addObject_index_update collectingEnv 2 stockedServer
        serverAfterCollection [1, 2, 3] 3 none 2 true (by decide) rfl).1 rfl).1,
      ((addObject_index_update collectingEnv 2 stockedServer
        serverAfterCollection [1, 2, 3] 3 none 2 true (by decide) rfl).1 rfl).2.1,
      ((addObject_index_update collectingEnv 2 stockedServer
        serverAfterCollection [1, 2, 3] 3 none 2 true (by decide) rfl).1
          rfl).2.2.1,
      ((addObject_index_update collectingEnv 2 stockedServer
        serverAfterCollection [1, 2, 3] 3 none 2 true (by decide) rfl).1
          rfl).2.2.2,
      ((addObject_index_update collectingEnv 2 stockedServer
        serverAfterCollection [1, 2, 3] 3 none 2 true (by decide)
        rfl).2.2.1 1 (by decide)).1⟩⟩

/-- Claim C5, as stated, fails. In the store that holds one object, of hash 1
and size 1, with a garbage collector that deletes every object: adding the
payload `[1, 2, 3]`, whose hash 2 was not indexed before the call, succeeds
with `isNew = true`, but the total-bytes counter, 1 before the call, is 3
afterwards and not `(1 + 3) % 2 ^ 64 = 4`, and the entry of the other hash 1
is gone. The store satisfies the invariant of the store before the call. -/
theorem addObject_index_update_fails_after_collection :
    stockedServer.addObject collectingEnv 2 [1, 2, 3] 3 none
        = .done ((2, true, none), serverAfterCollection) ∧
      stockedServer.objects 2 = none ∧
      stockedServer.totalBytes = 1 ∧
      serverAfterCollection.totalBytes = 3 ∧
      serverAfterCollection.totalBytes
        ≠ (stockedServer.totalBytes + 3) % 2 ^ 64 ∧
      stockedServer.objects 1 = some ⟨1, 1⟩ ∧
      serverAfterCollection.objects 1 = none ∧
      serverAfterCollection.objects 1 ≠ stockedServer.objects 1 ∧
      StoreInvariant collectingEnv stockedServer :=
  ⟨rfl, rfl, rfl, rfl, by decide, rfl, rfl, by decide, by
    intro h object hob
    by_cases h1 : h = 1
    · subst h1
      have hobj : object = ⟨1, 1⟩ := by
        simpa [stockedServer] using hob.symm
      subst hobj
      exact ⟨[1], rfl, rfl, rfl⟩
    · simp [stockedServer, h1] at hob⟩

end Dominator
